import Mathlib

/-!
# Verification of the SanFen chess-helper analysis subsystem

Shallow embedding of `src/chess-helper.js` (the heuristic evaluator, the
negamax/quiescence search with its transposition table, the external-engine
adapter's waiter machinery, and the result-normalising helpers), together
with proofs settling the frozen claims C1-C10.

The `Position` object of the system is the external `chess.js` 0.10.2
library, loaded from a CDN at runtime; it is not part of this repository.
Following §3 of the specification, which declares Position an opaque object
with a fixed interface (side to move, verbose legal-move enumeration,
check/checkmate/stalemate predicates, reversible apply/undo, a FEN
fingerprint), we embed every repository function over an abstract interface
`GameOps` collecting exactly the operations `chess-helper.js` invokes on a
Position.  Interface facts the repository relies on (e.g. the §3 invariant
that undoing the most recent applied move restores the previous fingerprint)
appear as explicit hypotheses of the theorems that need them.

JavaScript numbers are modelled as `Rat` (all evaluation constants in the
source are small decimal literals; associativity-of-addition reassociation is
the only deviation from IEEE float behaviour and is irrelevant to every
claim), extended with signed infinities (`JVal`) where the source uses
`±Infinity` as search bounds.
-/

namespace SanFen

/-- Piece colors, `'w' | 'b'` in chess.js. -/
inductive Color where
  | w
  | b
deriving DecidableEq, Repr

/-- `segments[1] = 'w'` / `'b'`: the FEN letter of a color. -/
def Color.other : Color → Color
  | .w => .b
  | .b => .w

/-- Piece types, chess.js one-letter codes `p n b r q k`. -/
inductive PieceType where
  | p
  | n
  | b
  | r
  | q
  | k
deriving DecidableEq, Repr

/-- A piece as returned by `game.board()`: `{ type, color }`. -/
structure Piece where
  ptype : PieceType
  color : Color
deriving DecidableEq, Repr

/-- `game.board()`: 8×8 array, row 0 = rank 8, column 0 = file a;
empty squares are `null`. -/
def Board := Fin 8 → Fin 8 → Option Piece

/-- A verbose chess.js move object, with exactly the fields
`chess-helper.js` reads: `color`, `from`, `to`, `piece`, `san`, `flags`,
`captured`, `promotion`.  `flags` is the chess.js flag string (characters
`n b e c p k q`). -/
structure Move where
  color : Color
  mfrom : String
  mto : String
  piece : PieceType
  san : String
  flags : String
  captured : Option PieceType
  promotion : Option PieceType
deriving DecidableEq, Repr

/-- The abstract Position interface (§3 of the spec): the operations
`chess-helper.js` calls on a chess.js game object.  `movesVerbose` is
`game.moves({ verbose: true })`; `applyMove` is `game.move(m)` for a move
`m` drawn from that list (which always succeeds and mutates the game —
modelled as returning the successor state); `undo` is `game.undo()`;
`fromFen` is `createChessInstance(fen)`, with `none` for a constructor
throw or an unloadable FEN; `moveFromTo` is `game.move({from, to,
promotion})`, returning the executed move and the successor state, or
`none` when the move is illegal. -/
structure GameOps (G : Type) where
  fen : G → String
  turn : G → Color
  board : G → Board
  movesVerbose : G → List Move
  applyMove : G → Move → G
  undo : G → G
  inCheck : G → Bool
  inCheckmate : G → Bool
  inStalemate : G → Bool
  gameOver : G → Bool
  historyVerbose : G → List Move
  fromFen : String → Option G
  moveFromTo : G → String → String → Option String → Option (Move × G)

end SanFen

namespace SanFen

/-- `pieceValues` (line 1083). -/
def pieceValues : PieceType → Rat
  | .p => 1
  | .n => 3.2
  | .b => 3.3
  | .r => 5.1
  | .q => 9.5
  | .k => 0

/-- `KING_VALUE` (line 1084). -/
def KING_VALUE : Rat := 100

/-- `pieceSquareTables.p`. -/
def pawnTable : List Rat :=
  [0, 0, 0, 0, 0, 0, 0, 0,
   0.05, 0.05, 0.05, 0.05, 0.05, 0.05, 0.05, 0.05,
   0.01, 0.01, 0.02, 0.03, 0.03, 0.02, 0.01, 0.01,
   0.005, 0.005, 0.01, 0.025, 0.025, 0.01, 0.005, 0.005,
   0, 0, 0, 0.02, 0.02, 0, 0, 0,
   0.005, -0.005, -0.01, 0, 0, -0.01, -0.005, 0.005,
   0.05, 0.1, 0.1, -0.2, -0.2, 0.1, 0.1, 0.05,
   0, 0, 0, 0, 0, 0, 0, 0]

/-- `pieceSquareTables.n`. -/
def knightTable : List Rat :=
  [-0.5, -0.4, -0.3, -0.3, -0.3, -0.3, -0.4, -0.5,
   -0.4, -0.2, 0, 0.05, 0.05, 0, -0.2, -0.4,
   -0.3, 0.05, 0.1, 0.15, 0.15, 0.1, 0.05, -0.3,
   -0.3, 0, 0.15, 0.2, 0.2, 0.15, 0, -0.3,
   -0.3, 0.05, 0.15, 0.2, 0.2, 0.15, 0.05, -0.3,
   -0.3, 0, 0.1, 0.15, 0.15, 0.1, 0, -0.3,
   -0.4, -0.2, 0, 0, 0, 0, -0.2, -0.4,
   -0.5, -0.4, -0.3, -0.3, -0.3, -0.3, -0.4, -0.5]

/-- `pieceSquareTables.b`. -/
def bishopTable : List Rat :=
  [-0.2, -0.1, -0.1, -0.1, -0.1, -0.1, -0.1, -0.2,
   -0.1, 0, 0, 0, 0, 0, 0, -0.1,
   -0.1, 0, 0.05, 0.1, 0.1, 0.05, 0, -0.1,
   -0.1, 0.05, 0.05, 0.1, 0.1, 0.05, 0.05, -0.1,
   -0.1, 0, 0.1, 0.1, 0.1, 0.1, 0, -0.1,
   -0.1, 0.1, 0.1, 0.1, 0.1, 0.1, 0.1, -0.1,
   -0.1, 0.05, 0, 0, 0, 0, 0.05, -0.1,
   -0.2, -0.1, -0.1, -0.1, -0.1, -0.1, -0.1, -0.2]

/-- `pieceSquareTables.r`. -/
def rookTable : List Rat :=
  [0, 0, 0, 0, 0, 0, 0, 0,
   0.05, 0.1, 0.1, 0.1, 0.1, 0.1, 0.1, 0.05,
   -0.05, 0, 0, 0, 0, 0, 0, -0.05,
   -0.05, 0, 0, 0, 0, 0, 0, -0.05,
   -0.05, 0, 0, 0, 0, 0, 0, -0.05,
   -0.05, 0, 0, 0, 0, 0, 0, -0.05,
   -0.05, 0, 0, 0, 0, 0, 0, -0.05,
   0, 0, 0.05, 0.1, 0.1, 0.05, 0, 0]

/-- `pieceSquareTables.q`. -/
def queenTable : List Rat :=
  [-0.2, -0.1, -0.1, -0.05, -0.05, -0.1, -0.1, -0.2,
   -0.1, 0, 0, 0, 0, 0, 0, -0.1,
   -0.1, 0, 0.05, 0.05, 0.05, 0.05, 0, -0.1,
   -0.05, 0, 0.05, 0.05, 0.05, 0.05, 0, -0.05,
   0, 0, 0.05, 0.05, 0.05, 0.05, 0, -0.05,
   -0.1, 0.05, 0.05, 0.05, 0.05, 0.05, 0, -0.1,
   -0.1, 0, 0.05, 0, 0, 0, 0, -0.1,
   -0.2, -0.1, -0.1, -0.05, -0.05, -0.1, -0.1, -0.2]

/-- `kingSquareTables.midgame`. -/
def kingMidTable : List Rat :=
  [-0.3, -0.4, -0.4, -0.5, -0.5, -0.4, -0.4, -0.3,
   -0.3, -0.4, -0.4, -0.5, -0.5, -0.4, -0.4, -0.3,
   -0.3, -0.4, -0.4, -0.5, -0.5, -0.4, -0.4, -0.3,
   -0.2, -0.3, -0.3, -0.4, -0.4, -0.3, -0.3, -0.2,
   -0.1, -0.2, -0.2, -0.2, -0.2, -0.2, -0.2, -0.1,
   0, 0.1, 0.1, 0, 0, 0.1, 0.1, 0,
   0.1, 0.2, 0.2, 0.1, 0.1, 0.2, 0.2, 0.1,
   0.2, 0.3, 0.2, 0, 0, 0.2, 0.3, 0.2]

/-- `kingSquareTables.endgame`. -/
def kingEndTable : List Rat :=
  [-0.05, -0.02, 0, 0, 0, 0, -0.02, -0.05,
   -0.02, 0.05, 0.1, 0.1, 0.1, 0.1, 0.05, -0.02,
   0, 0.1, 0.15, 0.2, 0.2, 0.15, 0.1, 0,
   0, 0.1, 0.2, 0.25, 0.25, 0.2, 0.1, 0,
   0, 0.1, 0.2, 0.25, 0.25, 0.2, 0.1, 0,
   0, 0.1, 0.15, 0.2, 0.2, 0.15, 0.1, 0,
   -0.02, 0, 0.05, 0.1, 0.1, 0.05, 0, -0.02,
   -0.05, -0.02, 0, 0, 0, 0, -0.02, -0.05]

/-- `pieceSquareTables[type]` lookup; the king has no entry there
(it uses `kingSquareTables`). -/
def pieceSquareTableFor : PieceType → Option (List Rat)
  | .p => some pawnTable
  | .n => some knightTable
  | .b => some bishopTable
  | .r => some rookTable
  | .q => some queenTable
  | .k => none

/-- `coreCenterSquares` (line 1162). -/
def coreCenterSquares : List String := ["d4", "d5", "e4", "e5"]

/-- `extendedCenterSquares` (line 1163). -/
def extendedCenterSquares : List String :=
  ["c3", "c4", "c5", "c6", "d3", "e3", "f3", "f4", "f5", "f6", "d6", "e6"]

/-- `minorPieceStartSquares` (line 1164). -/
def minorPieceStartSquares : List String :=
  ["b1", "g1", "c1", "f1", "b8", "g8", "c8", "f8"]

/-- `flankFiles` (line 1165). -/
def flankFiles : List Char := ['a', 'h']

/-- Square name from board indices:
`String.fromCharCode(97 + col) + (8 - row)` (line 1263). -/
def squareName (row col : Fin 8) : String :=
  String.mk [Char.ofNat (97 + col.val), Char.ofNat (48 + (8 - row.val))]

/-- `s[i]` on a JS string: the i-th character, if present. -/
def strAt (s : String) (i : Nat) : Option Char :=
  s.data.get? i

/-- `s.includes(c)` on a JS string (character membership); stated over the
character list so that it evaluates by kernel reduction. -/
def strContains (s : String) (c : Char) : Bool :=
  s.data.contains c

/-- JS `s.split(sep)` for a one-character separator (as used on FEN
strings: `fen.split(' ')`). -/
def splitChar (s : String) (sep : Char) : List String :=
  (s.data.foldr
    (fun c acc =>
      if c = sep then [] :: acc
      else
        match acc with
        | [] => [[c]]
        | h :: t => (c :: h) :: t)
    [[]]).map String.mk

/-- JS `parts.join(sep)`. -/
def joinWith (sep : String) : List String → String
  | [] => ""
  | [x] => x
  | x :: rest => x ++ sep ++ joinWith sep rest

/-- JS `s.slice(a, b)`-style prefix (`s.slice(0, n)`). -/
def strTake (s : String) (n : Nat) : String :=
  String.mk (s.data.take n)

/-- JS `s.slice(n)`. -/
def strDrop (s : String) (n : Nat) : String :=
  String.mk (s.data.drop n)

/-- JS `s.length` (character count on these ASCII strings). -/
def strLen (s : String) : Nat :=
  s.data.length

end SanFen

namespace SanFen

/-- The result of `createEvaluationContext` (lines 1167-1204): per-side
castling/king-moved flags, repeated-flank-pawn-move counts and the move
count, derived from `game.history({ verbose: true })`. -/
structure EvalContext where
  moveCount : Nat
  history : List Move
  repeatedFlankW : Nat
  repeatedFlankB : Nat
  castledW : Bool
  castledB : Bool
  kingMovedW : Bool
  kingMovedB : Bool
deriving DecidableEq, Repr

/-- Per-side accessor for the repeated-flank counts. -/
def EvalContext.repeatedFlank (ctx : EvalContext) : Color → Nat
  | .w => ctx.repeatedFlankW
  | .b => ctx.repeatedFlankB

/-- Per-side accessor for the castled flags. -/
def EvalContext.castled (ctx : EvalContext) : Color → Bool
  | .w => ctx.castledW
  | .b => ctx.castledB

/-- Internal accumulator of `createEvaluationContext`'s `history.forEach`
loop: the per-color per-file flank-pawn-move tallies plus the flags. -/
structure CtxAcc where
  flankW : List (Char × Nat)
  flankB : List (Char × Nat)
  repW : Nat
  repB : Nat
  castledW : Bool
  castledB : Bool
  kingMovedW : Bool
  kingMovedB : Bool

/-- `map[file] = (map[file] || 0) + 1` on a per-file tally. -/
def bumpFile (m : List (Char × Nat)) (f : Char) : List (Char × Nat) × Nat :=
  let cur := ((m.find? (fun p => p.1 = f)).map Prod.snd).getD 0
  ((f, cur + 1) :: m.filter (fun p => p.1 ≠ f), cur + 1)

/-- One step of the `history.forEach((move, index) => ...)` loop of
`createEvaluationContext` (lines 1177-1195). -/
def ctxStep (acc : CtxAcc) (idx : Nat) (move : Move) : CtxAcc :=
  let acc :=
    if move.piece = .k then
      let acc :=
        { acc with
          kingMovedW := acc.kingMovedW || (move.color = .w)
          kingMovedB := acc.kingMovedB || (move.color = .b) }
      if move.san = "O-O" || move.san = "O-O-O" then
        { acc with
          castledW := acc.castledW || (move.color = .w)
          castledB := acc.castledB || (move.color = .b) }
      else acc
    else acc
  if idx < 20 ∧ move.piece = .p ∧ (strAt move.mfrom 0).any (flankFiles.contains ·) then
    match strAt move.mfrom 0 with
    | none => acc
    | some f =>
        match move.color with
        | .w =>
            let (m', cnt) := bumpFile acc.flankW f
            { acc with flankW := m', repW := acc.repW + (if cnt > 1 then 1 else 0) }
        | .b =>
            let (m', cnt) := bumpFile acc.flankB f
            { acc with flankB := m', repB := acc.repB + (if cnt > 1 then 1 else 0) }
  else acc

/-- `createEvaluationContext(game)` (lines 1167-1204). -/
def createEvaluationContext {G : Type} (ops : GameOps G) (g : G) : EvalContext :=
  let history := ops.historyVerbose g
  let acc := history.enum.foldl (fun a (p : Nat × Move) => ctxStep a p.1 p.2)
    ⟨[], [], 0, 0, false, false, false, false⟩
  { moveCount := history.length
    history := history
    repeatedFlankW := acc.repW
    repeatedFlankB := acc.repB
    castledW := acc.castledW
    castledB := acc.castledB
    kingMovedW := acc.kingMovedW
    kingMovedB := acc.kingMovedB }

/-- `pieceSquareValue(piece, rowIndex, colIndex, kingPhaseWeight)`
(lines 1206-1223): table lookup, mirrored vertically for Black, the king
table blended between midgame and endgame by the phase weight. -/
def pieceSquareValue (piece : Piece) (rowIndex colIndex : Fin 8)
    (kingPhaseWeight : Rat) : Rat :=
  if piece.ptype = .k then
    let index := rowIndex.val * 8 + colIndex.val
    let mirrored := (7 - rowIndex.val) * 8 + colIndex.val
    let mid := kingMidTable.getD (if piece.color = .w then index else mirrored) 0
    let endv := kingEndTable.getD (if piece.color = .w then index else mirrored) 0
    mid * kingPhaseWeight + endv * (1 - kingPhaseWeight)
  else
    match pieceSquareTableFor piece.ptype with
    | none => 0
    | some table =>
        let directIndex := rowIndex.val * 8 + colIndex.val
        if piece.color = .w then table.getD directIndex 0
        else table.getD ((7 - rowIndex.val) * 8 + colIndex.val) 0

/-- The row-major scan order of the `for (row) for (col)` board loop
(lines 1254-1298). -/
def squaresRM : List (Fin 8 × Fin 8) :=
  (List.finRange 8).flatMap (fun r => (List.finRange 8).map (fun c => (r, c)))

/-- `phaseWeights` (line 1231). -/
def phaseWeights : PieceType → Nat
  | .p => 0
  | .n => 1
  | .b => 1
  | .r => 2
  | .q => 4
  | .k => 0

/-- `phaseScore`: sum of `phaseWeights` over the occupied squares. -/
def phaseScore (b : Board) : Nat :=
  (squaresRM.map (fun rc =>
    match b rc.1 rc.2 with
    | none => 0
    | some pc => phaseWeights pc.ptype)).sum

/-- `maxPhase` (line 1233). -/
def maxPhase : Nat := 24

/-- `kingPhaseWeight = Math.min(1, phaseScore / maxPhase)` (line 1300). -/
def kingPhaseWeight (b : Board) : Rat :=
  min 1 ((phaseScore b : Rat) / (maxPhase : Rat))

/-- `fileCounts[color][fileIndex]`: pawns of `c` on file `f`. -/
def fileCount (b : Board) (c : Color) (f : Fin 8) : Nat :=
  ((List.finRange 8).filter (fun r => b r f = some ⟨.p, c⟩)).length

/-- The center-control contribution accumulated square-by-square during the
scan (lines 1268-1272): ±0.08 on the inner four squares, ±0.05 on the
extended twelve. -/
def centerTerm (b : Board) : Rat :=
  (squaresRM.map (fun rc =>
    match b rc.1 rc.2 with
    | none => 0
    | some pc =>
        let sq := squareName rc.1 rc.2
        let sgn : Rat := if pc.color = .w then 1 else -1
        if coreCenterSquares.contains sq then sgn * 0.08
        else if extendedCenterSquares.contains sq then sgn * 0.05
        else 0)).sum

/-- The material + placement loop (lines 1301-1306):
`±(pieceValues[type] + pieceSquareValue(...))` per piece. -/
def materialTerm (b : Board) : Rat :=
  let kpw := kingPhaseWeight b
  (squaresRM.map (fun rc =>
    match b rc.1 rc.2 with
    | none => 0
    | some pc =>
        let contribution := pieceValues pc.ptype + pieceSquareValue pc rc.1 rc.2 kpw
        if pc.color = .w then contribution else -contribution)).sum

/-- `pieceTally[color].bishops` etc.: count of a piece type of a color. -/
def pieceCount (b : Board) (c : Color) (t : PieceType) : Nat :=
  (squaresRM.filter (fun rc => b rc.1 rc.2 = some ⟨t, c⟩)).length

/-- `bishopPairBonus` block (lines 1308-1310). -/
def bishopPairTerm (b : Board) : Rat :=
  (if pieceCount b .w .b ≥ 2 then 0.35 else 0) -
    (if pieceCount b .b .b ≥ 2 then 0.35 else 0)

/-- The open/semi-open-file and centralised rook bonus for one rook of
color `c` on square `rc` (lines 1314-1325). -/
def rookBonusAt (b : Board) (c : Color) (rc : Fin 8 × Fin 8) : Rat :=
  let rookOpenBonus : Rat := 0.18
  let friendlyPawns := fileCount b c rc.2
  let enemyPawns := fileCount b c.other rc.2
  let bonus : Rat :=
    if enemyPawns = 0 then
      (if friendlyPawns = 0 then rookOpenBonus * 1.6 else rookOpenBonus)
    else 0
  bonus + (if extendedCenterSquares.contains (squareName rc.1 rc.2) then 0.05 else 0)

/-- The rook loop over both colors (lines 1312-1327). -/
def rookTerm (b : Board) : Rat :=
  (squaresRM.map (fun rc =>
    match b rc.1 rc.2 with
    | some ⟨.r, .w⟩ => rookBonusAt b .w rc
    | some ⟨.r, .b⟩ => -(rookBonusAt b .b rc)
    | _ => 0)).sum

end SanFen

namespace SanFen

/-- `fileCounts` lookup by raw (possibly out-of-range) file index. -/
def fileCountN (b : Board) (c : Color) (n : Nat) : Nat :=
  if h : n < 8 then fileCount b c ⟨n, h⟩ else 0

/-- `pawns[color]`: the `{file, rank}` records collected during the scan
(line 1278); `rank = 8 - row`. -/
def pawnsList (b : Board) (c : Color) : List (Nat × Nat) :=
  (squaresRM.filter (fun rc => b rc.1 rc.2 = some ⟨.p, c⟩)).map
    (fun rc => (rc.2.val, 8 - rc.1.val))

/-- The doubled- and isolated-pawn penalties accrued by one color
(lines 1335-1347), as a nonnegative total (the sign is applied by the
caller as in the source). -/
def doubledIsoFor (b : Board) (c : Color) : Rat :=
  ((List.finRange 8).map (fun f =>
    let count := fileCount b c f
    let dbl : Rat := if count > 1 then 0.12 * ((count - 1 : Nat) : Rat) else 0
    let hasLeft := f.val > 0 ∧ fileCountN b c (f.val - 1) > 0
    let hasRight := f.val < 7 ∧ fileCountN b c (f.val + 1) > 0
    let iso : Rat := if count > 0 ∧ ¬hasLeft ∧ ¬hasRight then 0.1 else 0
    dbl + iso)).sum

/-- The passed-pawn bonus accrued by one color (lines 1349-1368):
a pawn is passed when no enemy pawn on an adjacent-or-same file is at
equal-or-further rank; the bonus scales with advancement. -/
def passedFor (b : Board) (c : Color) : Rat :=
  ((pawnsList b c).map (fun pw =>
    let blocked := (pawnsList b c.other).any (fun ep =>
      ((ep.1 : Int) - (pw.1 : Int)).natAbs ≤ 1 &&
        (match c with
         | .w => decide (ep.2 ≥ pw.2)
         | .b => decide (ep.2 ≤ pw.2)))
    if blocked then 0
    else
      let advancement : Int :=
        match c with
        | .w => (pw.2 : Int) - 2
        | .b => 7 - (pw.2 : Int)
      (0.2 : Rat) + ((max 0 advancement : Int) : Rat) * 0.025)).sum

/-- The doubled/isolated/passed pawn-structure block (lines 1329-1369). -/
def pawnStructTerm (b : Board) : Rat :=
  (-(doubledIsoFor b .w) + doubledIsoFor b .b)
    + (passedFor b .w - passedFor b .b)

/-- `whiteKing` / `blackKing` as assigned by the scan (lines 1288-1296):
the last king of that color in row-major order. -/
def kingInfo (b : Board) (c : Color) : Option (Fin 8 × Fin 8) :=
  squaresRM.foldl
    (fun acc rc => if b rc.1 rc.2 = some ⟨.k, c⟩ then some rc else acc) none

/-- Board access at possibly out-of-range signed indices
(`board[r]?.[c]` with the explicit bounds checks of the source). -/
def boardAtI (b : Board) (r c : Int) : Option Piece :=
  if hr : 0 ≤ r ∧ r < 8 then
    if hc : 0 ≤ c ∧ c < 8 then b ⟨r.toNat, by omega⟩ ⟨c.toNat, by omega⟩
    else none
  else none

/-- `kingShieldContribution(color, kingInfo)` (lines 1371-1385). -/
def kingShieldContribution (b : Board) (c : Color) :
    Option (Fin 8 × Fin 8) → Rat
  | none => 0
  | some rc =>
      let dir : Int := match c with | .w => -1 | .b => 1
      let shieldRow : Int := (rc.1.val : Int) + dir
      if shieldRow < 0 ∨ shieldRow > 7 then 0
      else
        let shield := (([-1, 0, 1] : List Int).map (fun offset =>
          let col : Int := (rc.2.val : Int) + offset
          if col < 0 ∨ col > 7 then 0
          else match boardAtI b shieldRow col with
            | some pc => if pc.ptype = .p ∧ pc.color = c then 1 else 0
            | none => 0)).sum
        (shield : Rat) * 0.07

/-- The pawn-shield contributions of both kings (lines 1387-1388). -/
def shieldTerm (b : Board) : Rat :=
  kingShieldContribution b .w (kingInfo b .w)
    - kingShieldContribution b .b (kingInfo b .b)

/-- `openKingPenalty(color, kingInfo)` (lines 1390-1405): 0.05 per empty
orthogonally-adjacent in-bounds square. -/
def openKingPenalty (b : Board) : Option (Fin 8 × Fin 8) → Rat
  | none => 0
  | some rc =>
      let exposed := (([(0, -1), (0, 1), (1, 0), (-1, 0)] : List (Int × Int)).map
        (fun d =>
          let r : Int := (rc.1.val : Int) + d.1
          let c : Int := (rc.2.val : Int) + d.2
          if r < 0 ∨ r > 7 ∨ c < 0 ∨ c > 7 then 0
          else match boardAtI b r c with
            | some _ => 0
            | none => 1)).sum
      (exposed : Rat) * 0.05

/-- The open-king penalties of both kings (lines 1407-1408). -/
def openKingTerm (b : Board) : Rat :=
  -(openKingPenalty b (kingInfo b .w)) + openKingPenalty b (kingInfo b .b)

/-- `minorsOnHome[color]` (lines 1264-1266). -/
def minorsOnHome (b : Board) (c : Color) : Nat :=
  (squaresRM.filter (fun rc =>
    (b rc.1 rc.2 = some ⟨.n, c⟩ ∨ b rc.1 rc.2 = some ⟨.b, c⟩) ∧
      minorPieceStartSquares.contains (squareName rc.1 rc.2))).length

/-- The undeveloped-minor-piece penalty during the opening
(lines 1411-1418). -/
def openingTerm (b : Board) (ctx : EvalContext) : Rat :=
  if ctx.moveCount < 20 then
    let minorPenaltyBase : Rat := 0.11 + ((18 - ctx.moveCount : Nat) : Rat) * 0.004
    (-(minorsOnHome b .w : Rat) * minorPenaltyBase
      + (minorsOnHome b .b : Rat) * minorPenaltyBase)
  else 0

/-- The repeated-flank-pawn-move penalty (lines 1420-1422). -/
def flankTerm (ctx : EvalContext) : Rat :=
  -(ctx.repeatedFlankW : Rat) * 0.24 + (ctx.repeatedFlankB : Rat) * 0.24

/-- The uncastled-king penalties and castled bonuses (lines 1424-1434). -/
def castleTerm (b : Board) (ctx : EvalContext) : Rat :=
  let earlyPhase := ctx.moveCount < 30
  let wpen : Rat :=
    if ¬ctx.castledW ∧ earlyPhase ∧
        ((kingInfo b .w).map (fun rc => squareName rc.1 rc.2) = some "e1" ∨
         (kingInfo b .w).map (fun rc => squareName rc.1 rc.2) = some "d1") then
      0.2 + ((ctx.moveCount - 12 : Nat) : Rat) * 0.016
    else 0
  let bpen : Rat :=
    if ¬ctx.castledB ∧ earlyPhase ∧
        ((kingInfo b .b).map (fun rc => squareName rc.1 rc.2) = some "e8" ∨
         (kingInfo b .b).map (fun rc => squareName rc.1 rc.2) = some "d8") then
      0.2 + ((ctx.moveCount - 12 : Nat) : Rat) * 0.016
    else 0
  (-wpen + bpen + (if ctx.castledW then 0.05 else 0)
    - (if ctx.castledB then 0.05 else 0))

/-- `segments[1] = c; segments.join(' ')` on a FEN string
(lines 1436-1456). -/
def setFenTurn (fen : String) (c : String) : String :=
  joinWith " " ((splitChar fen ' ').set 1 c)

/-- `createChessInstance(fen').moves().length`, with the `catch` branch
yielding 0 (lines 1443-1455).  `moves()` and `moves({verbose: true})`
enumerate the same legal moves. -/
def mobilityCount {G : Type} (ops : GameOps G) (fen' : String) : Nat :=
  match ops.fromFen fen' with
  | none => 0
  | some g2 => (ops.movesVerbose g2).length

/-- The mobility differential `(whiteMobility - blackMobility) * 0.016`
(lines 1436-1459), computed by re-creating the position with the side to
move forced to each color in turn. -/
def mobilityTerm {G : Type} (ops : GameOps G) (g : G) : Rat :=
  let segments := splitChar (ops.fen g) ' '
  if segments.length ≥ 2 then
    let whiteMobility := mobilityCount ops (setFenTurn (ops.fen g) "w")
    let blackMobility := mobilityCount ops (setFenTurn (ops.fen g) "b")
    ((whiteMobility : Rat) - (blackMobility : Rat)) * 0.016
  else 0

/-- The tempo bonus for the side to move (lines 1461-1462). -/
def tempoTerm {G : Type} (ops : GameOps G) (g : G) : Rat :=
  if ops.turn g = .w then 0.015 else -0.015

/-- `evaluatePosition(game, context)` (lines 1225-1465): the sum of all
evaluation components (addition reassociated; exact in `Rat`). -/
def evaluatePosition {G : Type} (ops : GameOps G) (g : G)
    (context : Option EvalContext) : Rat :=
  let b := ops.board g
  let ctx := context.getD (createEvaluationContext ops g)
  centerTerm b + materialTerm b + bishopPairTerm b + rookTerm b
    + pawnStructTerm b + shieldTerm b + openKingTerm b
    + openingTerm b ctx + flankTerm ctx + castleTerm b ctx
    + mobilityTerm ops g + tempoTerm ops g

/-- `evaluateForPerspective(position, perspective, context)`
(lines 1467-1470). -/
def evaluateForPerspective {G : Type} (ops : GameOps G) (g : G)
    (perspective : Color) (context : Option EvalContext) : Rat :=
  let value := evaluatePosition ops g context
  if perspective = .w then value else -value

end SanFen

namespace SanFen

/-- chess.js one-letter piece code, for key strings. -/
def PieceType.letter : PieceType → String
  | .p => "p"
  | .n => "n"
  | .b => "b"
  | .r => "r"
  | .q => "q"
  | .k => "k"

/-- FEN letter of a color. -/
def Color.letter : Color → String
  | .w => "w"
  | .b => "b"

/-- `moveKey(move)` (lines 1472-1474). -/
def moveKey (move : Move) : String :=
  move.mfrom ++ "-" ++ move.mto ++ "-" ++
    (move.promotion.map PieceType.letter).getD "" ++ "-" ++ move.san

/-- `simpleMoveKey(move)` (lines 1476-1478). -/
def simpleMoveKey (move : Move) : String :=
  move.mfrom ++ "-" ++ move.mto ++ "-" ++
    (move.promotion.map PieceType.letter).getD ""

/-- JS `Map.get`. -/
def aget {κ α : Type} [DecidableEq κ] (k : κ) (m : List (κ × α)) : Option α :=
  (m.find? (fun p => p.1 = k)).map Prod.snd

/-- JS `Map.set` (replaces any existing binding). -/
def aset {κ α : Type} [DecidableEq κ] (k : κ) (v : α) (m : List (κ × α)) :
    List (κ × α) :=
  (k, v) :: m.filter (fun p => p.1 ≠ k)

/-- `createSearchMeta()` (lines 1480-1486): killer-move lists keyed by ply,
history scores keyed by simple move key, ordering-score maps keyed by ply. -/
structure SearchMeta where
  killerMoves : List (Nat × List String)
  historyScores : List (String × Nat)
  orderingScores : List (Nat × List (String × Rat))
deriving Repr

/-- The empty `SearchMeta`. -/
def createSearchMeta : SearchMeta := ⟨[], [], []⟩

/-- `killerMoveScore(searchMeta, ply, move)` (lines 1488-1499). -/
def killerMoveScore (meta : SearchMeta) (ply : Nat) (move : Move) : Rat :=
  match aget ply meta.killerMoves with
  | none => 0
  | some list =>
      match list.findIdx? (fun k => k = simpleMoveKey move) with
      | some i => ((3 - i : Nat) : Rat)
      | none => 0

/-- `recordKillerMove(searchMeta, ply, move)` (lines 1501-1513). -/
def recordKillerMove (meta : SearchMeta) (ply : Nat) (move : Move) :
    SearchMeta :=
  if move.captured.isSome || strContains move.flags 'p' then meta
  else
    let key := simpleMoveKey move
    let list := (aget ply meta.killerMoves).getD []
    if list.contains key then meta
    else { meta with killerMoves := aset ply ((key :: list).take 2) meta.killerMoves }

/-- `updateHistoryScore(searchMeta, move, depth)` (lines 1515-1521). -/
def updateHistoryScore (meta : SearchMeta) (move : Move) (depth : Nat) :
    SearchMeta :=
  if move.captured.isSome || strContains move.flags 'p' then meta
  else
    let key := simpleMoveKey move
    let current := (aget key meta.historyScores).getD 0
    { meta with historyScores := aset key (current + depth * depth) meta.historyScores }

/-- `historyScore(searchMeta, move)` (lines 1523-1528). -/
def historyScore (meta : SearchMeta) (move : Move) : Rat :=
  let value := (aget (simpleMoveKey move) meta.historyScores).getD 0
  min 3.5 ((value : Rat) / 220)

/-- `lookupOrderingScore(searchMeta, ply, move)` (lines 1547-1552). -/
def lookupOrderingScore (meta : SearchMeta) (ply : Nat) (move : Move) : Rat :=
  match aget ply meta.orderingScores with
  | none => 0
  | some map => (aget (moveKey move) map).getD 0

/-- `isForcingMove(move)` (lines 1554-1556): capture, promotion or check. -/
def isForcingMove (move : Move) : Bool :=
  move.captured.isSome || strContains move.flags 'p' ||
    strContains move.san '+' || strContains move.san '#'

/-- `findKingSquare(game, color)` (lines 1558-1572): the first king of the
color in row-major scan order (the loop returns on the first hit). -/
def findKingSquare (b : Board) (c : Color) : Option String :=
  ((squaresRM.find? (fun rc => b rc.1 rc.2 = some ⟨.k, c⟩)).map
    (fun rc => squareName rc.1 rc.2))

/-- The `{ penalty, checkBonus }` record of `evaluateMoveConsequences`. -/
structure Consequence where
  penalty : Rat
  checkBonus : Rat
deriving DecidableEq, Repr

/-- The body of `evaluateMoveConsequences`'s `try` block (lines 1578-1621),
evaluated on the position `g1` with `move` already applied.  The inner
`try/catch` around the defender probe is the `Option`-handling of
`fromFen`; `pieceValues` has an entry for every piece (including `k: 0`),
so the `?? (reply.piece === 'k' ? KING_VALUE : 0)` fallback never fires. -/
def emcBody {G : Type} (ops : GameOps G) (g1 : G) (move : Move) : Consequence :=
  let checkBonus : Rat := if ops.inCheck g1 then 0.6 else 0
  let opponentMoves := ops.movesVerbose g1
  let attackers := opponentMoves.filter (fun r => r.mto = move.mto)
  let minAttacker : Option Rat :=
    attackers.foldl (fun acc r =>
      let value := pieceValues r.piece
      match acc with
      | none => some value
      | some v => if value < v then some value else some v) none
  let pawnThreat := attackers.any (fun r => r.piece = .p)
  let penalty : Rat :=
    match minAttacker with
    | none => 0
    | some attackValue =>
        let defenders : Nat :=
          match ops.fromFen (setFenTurn (ops.fen g1) move.color.letter) with
          | none => 0
          | some dg => ((ops.movesVerbose dg).filter (fun r => r.mto = move.mto)).length
        let movedValue := pieceValues move.piece
        let p1 : Rat :=
          if attackValue < movedValue - 0.05 then
            (movedValue - attackValue) * (if defenders > 0 then 0.55 else 1.15)
          else 0
        let p2 : Rat :=
          if pawnThreat ∧ movedValue > 1.5 then
            (if defenders > 0 then 0.25 else 0.6)
          else 0
        p1 + p2
  let kingPenalty : Rat :=
    match findKingSquare (ops.board g1) move.color with
    | none => 0
    | some kingSquare =>
        if opponentMoves.any (fun r => r.mto = kingSquare) then 0.9 else 0
  ⟨penalty + kingPenalty, checkBonus⟩

/-- `evaluateMoveConsequences(game, move)` (lines 1574-1626): applies the
move, evaluates the lookahead body, and undoes the move.  The source wraps
the body in `try { ... } finally { game.undo(); }`: whatever the body's
outcome, the game is undone exactly once — hence the second component is
`undo (applyMove g move)` unconditionally. -/
def evaluateMoveConsequences {G : Type} (ops : GameOps G) (g : G)
    (move : Move) : Consequence × G :=
  let g1 := ops.applyMove g move
  (emcBody ops g1 move, ops.undo g1)

end SanFen

namespace SanFen

/-- `movePriority(game, move, context, preferenceMap, searchMeta, ply)`
(lines 1628-1683).  The game is threaded because the safety lookahead
applies and undoes the move; the returned state is the game after that
apply/undo round-trip. -/
def movePriority {G : Type} (ops : GameOps G) (g : G) (move : Move)
    (context : EvalContext) (preferenceMap : Option (List (String × Nat)))
    (meta : SearchMeta) (ply : Nat) : Rat × G :=
  let s0 : Rat := 0
  let s1 : Rat := s0 +
    (match preferenceMap with
     | none => 0
     | some pm =>
        match aget (moveKey move) pm with
        | some pref => (60 : Rat) - (pref : Rat)
        | none => 0)
  let s2 : Rat := s1 + killerMoveScore meta ply move + historyScore meta move
  let s3 : Rat := s2 +
    (match move.captured with
     | none => 0
     | some cap =>
        let captureWeight : Rat :=
          match cap with
          | .p => 1 | .n => 2 | .b => 2 | .r => 3 | .q => 4 | .k => 6
        4 + captureWeight)
  let s4 : Rat := s3 + (if strContains move.flags 'c' then 1.5 else 0)
  let s5 : Rat := s4 +
    (if strContains move.san '+' || strContains move.san '#' then
      (if strContains move.san '#' then 5 else 2.5) else 0)
  let s6 : Rat := s5 + (if strContains move.flags 'p' then 6 else 0)
  let s7 : Rat := s6 +
    (if strContains move.flags 'k' || strContains move.flags 'q' then 3.2 else 0)
  let openingPhase := context.moveCount < 16
  let veryEarly := context.moveCount < 8
  let s8 : Rat := s7 +
    (if (move.piece = .n ∨ move.piece = .b) ∧
        minorPieceStartSquares.contains move.mfrom then
      (if openingPhase then 1.6 else 0.5) +
        (if coreCenterSquares.contains move.mto then 0.65
         else if extendedCenterSquares.contains move.mto then 0.45 else 0)
    else 0)
  let s9 : Rat :=
    if move.piece = .p then
      s8 + (if coreCenterSquares.contains move.mto then 0.7
            else if extendedCenterSquares.contains move.mto then 0.35 else 0)
        - (if (strAt move.mfrom 0).any (flankFiles.contains ·) then
            (if openingPhase then 1.1 else 0.3) + (if veryEarly then 0.7 else 0)
          else 0)
    else if coreCenterSquares.contains move.mto then s8 + 0.45
    else if extendedCenterSquares.contains move.mto then s8 + 0.27
    else s8
  let s10 : Rat := s9 +
    (if move.san = "O-O" ∨ move.san = "O-O-O" then 3.8 else 0)
  let cg := evaluateMoveConsequences ops g move
  (s10 + cg.1.checkBonus - cg.1.penalty, cg.2)

/-- Insertion into a descending-sorted list, placing the new element
before the first entry whose key is not larger: together with `sortByDesc`
this realises the (stable) `scored.sort((a, b) => b.value - a.value)`. -/
def insertByDesc {α : Type} (key : α → Rat) (x : α) : List α → List α
  | [] => [x]
  | y :: ys => if key y ≤ key x then x :: y :: ys else y :: insertByDesc key x ys

/-- Stable sort by descending key (JS `Array.prototype.sort` is stable and
the comparator `(a, b) => b.value - a.value` orders by descending value). -/
def sortByDesc {α : Type} (key : α → Rat) (l : List α) : List α :=
  l.foldr (insertByDesc key) []

/-- `orderedMoves(game, context, preferenceMap, searchMeta, ply,
captureOnly)` (lines 1685-1697).  Returns the best-first move list, the
search meta with this ply's ordering-score map rebuilt (the source's
`orderingMapFor` clears and refills it), and the threaded game state. -/
def orderedMoves {G : Type} (ops : GameOps G) (g : G) (context : EvalContext)
    (preferenceMap : Option (List (String × Nat))) (meta : SearchMeta)
    (ply : Nat) (captureOnly : Bool) : List Move × SearchMeta × G :=
  let moves := ops.movesVerbose g
  let step := fun (acc : List (Move × Rat) × List (String × Rat) × G) (move : Move) =>
    if captureOnly ∧ ¬isForcingMove move then acc
    else
      let (value, g') := movePriority ops acc.2.2 move context preferenceMap meta ply
      (acc.1 ++ [(move, value)], acc.2.1 ++ [(moveKey move, value)], g')
  let (scored, orderMap, g') := moves.foldl step ([], [], g)
  let meta' := { meta with orderingScores := aset ply orderMap meta.orderingScores }
  ((sortByDesc Prod.snd scored).map Prod.fst, meta', g')

/-- `evaluateTerminalState(game, perspective, plyCount, context)`
(lines 1699-1708): `±(1000 - plyCount)` on checkmate (negative when the
side to move is the perspective), 0 on stalemate, otherwise the
perspective-adjusted static evaluation. -/
def evaluateTerminalState {G : Type} (ops : GameOps G) (g : G)
    (perspective : Color) (plyCount : Nat) (context : Option EvalContext) : Rat :=
  if ops.inCheckmate g then
    let mateScore : Rat := 1000 - (plyCount : Rat)
    if ops.turn g = perspective then -mateScore else mateScore
  else if ops.inStalemate g then 0
  else evaluateForPerspective ops g perspective context

/-- JavaScript numbers as used by the search: finite values (`Rat`) plus
the `-Infinity` / `Infinity` sentinels used for search bounds. -/
inductive JVal where
  | ninf
  | fin (q : Rat)
  | inf
deriving DecidableEq, Repr

/-- Negation of a `JVal`. -/
def JVal.neg : JVal → JVal
  | .ninf => .inf
  | .fin q => .fin (-q)
  | .inf => .ninf

/-- Strict `<` on `JVal`. -/
def JVal.blt : JVal → JVal → Bool
  | .ninf, .ninf => false
  | .ninf, _ => true
  | .fin _, .ninf => false
  | .fin a, .fin b => a < b
  | .fin _, .inf => true
  | .inf, _ => false

/-- `≤` on `JVal`. -/
def JVal.ble (a b : JVal) : Bool := !(JVal.blt b a)

/-- Addition on `JVal`; the mixed-infinity cases (JS `NaN`) never occur in
the modelled runs. -/
def JVal.add : JVal → JVal → JVal
  | .fin a, .fin b => .fin (a + b)
  | .ninf, .inf => .fin 0
  | .inf, .ninf => .fin 0
  | .ninf, _ => .ninf
  | _, .ninf => .ninf
  | .inf, _ => .inf
  | .fin _, .inf => .inf

end SanFen

namespace SanFen

/-- `stats` as threaded through the search (`{ nodes, timeouts }`). -/
structure Stats where
  nodes : Nat
  timeouts : Nat
deriving DecidableEq, Repr

/-- Transposition-table bound flags (`'exact' | 'lower' | 'upper'`). -/
inductive TFlag where
  | exact
  | lower
  | upper
deriving DecidableEq, Repr

/-- The `best` child recorded in a table entry
(`{ from, to, promotion }`, line 1795). -/
structure BestChild where
  bfrom : String
  bto : String
  promotion : Option PieceType
deriving DecidableEq, Repr

/-- A transposition-table entry (`{ depth, value, flag, best }`); the
terminal store at line 1758 writes no `best` field (`none`). -/
structure TTEntry where
  depth : Nat
  value : JVal
  flag : TFlag
  best : Option BestChild
deriving DecidableEq, Repr

/-- Instrumentation record of one `table.set` executed by `negamax`:
the key, the entry previously stored under that key (at set time), the
entry written, and whether the position was terminal
(`game.game_over()`). -/
structure StoreEv where
  key : String
  old : Option TTEntry
  new : TTEntry
  terminal : Bool
deriving DecidableEq, Repr

/-- Cancellation environment: the caller-supplied `shouldStop` predicate
and the `deadline`/`nowFn` pair, each nullable as in the source.  The
oracles are indexed by a tick counter that advances once per
negamax/quiescence entry, modelling successive calls of the impure
`shouldStop()` / `nowFn()`. -/
structure SearchEnv where
  shouldStop : Option (Nat → Bool)
  deadline : Option Rat
  nowFn : Option (Nat → Rat)

/-- `(shouldStop && shouldStop()) || (deadline && nowFn && nowFn() > deadline)`
(lines 1711 and 1733). -/
def stopHit (env : SearchEnv) (tick : Nat) : Bool :=
  (match env.shouldStop with
   | some f => f tick
   | none => false) ||
  (match env.deadline, env.nowFn with
   | some d, some now => now tick > d
   | _, _ => false)

/-- The mutable search state threaded through `negamax`/`quiescence`:
the transposition table, the stats record, the killer/history/ordering
tables, the instrumentation log of table stores, and the tick counter. -/
structure SState where
  table : List (String × TTEntry)
  stats : Stats
  meta : SearchMeta
  log : List StoreEv
  tick : Nat

/-- The outcome of the transposition-table probe (lines 1740-1753):
either an early return with the cached value, or tightened bounds. -/
inductive ProbeOut where
  | ret (v : JVal)
  | go (alpha beta : JVal)

/-- The probe itself: a non-terminal hit of depth ≥ the requested depth
returns `exact` values outright, tightens `alpha` on a `lower` bound or
`beta` on an `upper` bound (the source's `if`/`else if`), and returns the
cached value if the bounds then collapse. -/
def probeTT (cached : Option TTEntry) (terminal : Bool) (depth : Nat)
    (alpha beta : JVal) : ProbeOut :=
  match cached with
  | none => .go alpha beta
  | some c =>
      if ¬terminal ∧ c.depth ≥ depth then
        if c.flag = .exact then .ret c.value
        else
          let alpha' := if c.flag = .lower ∧ JVal.blt alpha c.value then c.value else alpha
          let beta' :=
            if ¬(c.flag = .lower ∧ JVal.blt alpha c.value) ∧
                c.flag = .upper ∧ JVal.blt c.value beta then c.value
            else beta
          if JVal.ble beta' alpha' then .ret c.value else .go alpha' beta'
      else .go alpha beta

/-- The `for (const move of captureMoves)` loop of `quiescence`
(lines 1722-1728), parametrised by the recursive call `q` (the
quiescence search at the decremented budget): returns `alpha` when
exhausted, `beta` on a fail-high.  The fourth component is the maximal
recursion nesting among the child calls, plus one. -/
def qLoopWith {G : Type} (ops : GameOps G)
    (q : G → JVal → JVal → Nat → SState → JVal × SState × G × Nat) :
    List Move → JVal → JVal → Nat → SState → G → JVal × SState × G × Nat
  | [], alpha, _, _, σ, g => (alpha, σ, g, 0)
  | move :: rest, alpha, beta, plyCount, σ, g =>
      let g1 := ops.applyMove g move
      let (score0, σ', g1', n') := q g1 beta.neg alpha.neg (plyCount + 1) σ
      let score := score0.neg
      let g2 := ops.undo g1'
      if JVal.ble beta score then (beta, σ', g2, n' + 1)
      else
        let alpha := if JVal.blt alpha score then score else alpha
        let (v, σ'', g'', n'') :=
          qLoopWith ops q rest alpha beta plyCount σ' g2
        (v, σ'', g'', max (n' + 1) n'')

/-- `quiescence(game, alpha, beta, perspective, plyCount, stats, context,
deadline, nowFn, searchMeta, limit, shouldStop)` (lines 1710-1730).
Returns the score, the threaded search state and game, and (as
instrumentation) the recursion nesting depth of this call (0 when no
recursive call was made).  The recursion is structural on the source's
own `limit` parameter, which every recursive call decrements. -/
def quiescence {G : Type} (ops : GameOps G) (env : SearchEnv)
    (ctx : EvalContext) (persp : Color) (g : G) (alpha beta : JVal)
    (plyCount : Nat) (σ : SState) (limit : Nat) : JVal × SState × G × Nat :=
  let tick := σ.tick
  let σ := { σ with tick := tick + 1 }
  if stopHit env tick then
    (.fin (evaluateForPerspective ops g persp (some ctx)),
      { σ with stats := { σ.stats with timeouts := σ.stats.timeouts + 1 } }, g, 0)
  else
    let σ := { σ with stats := { σ.stats with nodes := σ.stats.nodes + 1 } }
    let standPat := evaluateTerminalState ops g persp plyCount (some ctx)
    if JVal.ble beta (.fin standPat) then (beta, σ, g, 0)
    else
      let alpha := if JVal.blt alpha (.fin standPat) then .fin standPat else alpha
      match limit with
      | 0 => (.fin standPat, σ, g, 0)
      | l + 1 =>
          let (captureMoves, meta', gq) := orderedMoves ops g ctx none σ.meta plyCount true
          let σ := { σ with meta := meta' }
          qLoopWith ops
            (fun g a b p σ => quiescence ops env ctx persp g a b p σ l)
            captureMoves alpha beta plyCount σ gq

end SanFen

namespace SanFen

/-- The `for (let i = 0; i < limit; i++)` loop of `negamax`
(lines 1773-1808), parametrised by the recursive call `rec` (the negamax
search at the remaining fuel): check extension, late-move reduction, the
checkmate-child short-circuit, alpha/best tracking, and the beta-cutoff
bookkeeping (killer + history). -/
def negamaxLoopWith {G : Type} (ops : GameOps G) (ctx : EvalContext)
    (persp : Color)
    (rec : G → Nat → JVal → JVal → Nat → SState → JVal × SState × G) :
    List Move → Nat → Nat → JVal → JVal → JVal → TFlag →
    Option BestChild → Nat → SState → G →
    JVal × TFlag × Option BestChild × SState × G
  | [], _, _, _, _, bestValue, bestFlag, bestChild, _, σ, g =>
      (bestValue, bestFlag, bestChild, σ, g)
  | move :: rest, i, depth, alpha, beta, bestValue, bestFlag, bestChild,
      plyCount, σ, g =>
      let g1 := ops.applyMove g move
      let nd0 := depth - 1
      let givesCheck := ops.inCheck g1
      let nextDepth := if givesCheck then min depth (nd0 + 1) else nd0
      let nextDepth :=
        if ¬isForcingMove move ∧ depth ≥ 3 ∧ i > 5 ∧ nextDepth > 1 then
          nextDepth - 1
        else nextDepth
      let (score, σ', g1') :=
        if ops.inCheckmate g1 then
          (JVal.fin (evaluateTerminalState ops g1 persp (plyCount + 1) (some ctx)),
            σ, g1)
        else
          let (v, σ', g1') := rec g1 nextDepth beta.neg alpha.neg (plyCount + 1) σ
          (v.neg, σ', g1')
      let g2 := ops.undo g1'
      let (bestValue, bestChild) :=
        if JVal.blt bestValue score then
          (score, some ⟨move.mfrom, move.mto, move.promotion⟩)
        else (bestValue, bestChild)
      let (alpha, bestFlag, σ') :=
        if JVal.blt alpha score then
          (score, TFlag.exact, { σ' with meta := updateHistoryScore σ'.meta move depth })
        else (alpha, bestFlag, σ')
      if JVal.ble beta alpha then
        let σ' :=
          { σ' with
            meta := updateHistoryScore (recordKillerMove σ'.meta plyCount move) move depth }
        (bestValue, TFlag.lower, bestChild, σ', g2)
      else
        negamaxLoopWith ops ctx persp rec rest (i + 1) depth alpha beta
          bestValue bestFlag bestChild plyCount σ' g2

/-- `negamax(game, depth, alpha, beta, perspective, table, plyCount,
stats, context, deadline, nowFn, searchMeta, shouldStop)`
(lines 1732-1817).  `fuel` bounds the recursion for Lean totality only:
the source recursion is bounded at runtime by the wall-clock deadline
(check extensions can keep `depth` constant), and every theorem below
quantifies over or supplies sufficient fuel.  Each `table.set` is logged
in `σ.log` together with the entry the key held at set time. -/
def negamax {G : Type} (ops : GameOps G) (env : SearchEnv)
    (ctx : EvalContext) (persp : Color) : Nat → G → Nat → JVal → JVal →
    Nat → SState → JVal × SState × G
  | 0, g, _, _, _, _, σ => (.fin 0, σ, g)
  | fuel + 1, g, depth, alpha, beta, plyCount, σ =>
    let tick := σ.tick
    let σ := { σ with tick := tick + 1 }
    if stopHit env tick then
      (.fin (evaluateForPerspective ops g persp (some ctx)),
        { σ with stats := { σ.stats with timeouts := σ.stats.timeouts + 1 } }, g)
    else
      let σ := { σ with stats := { σ.stats with nodes := σ.stats.nodes + 1 } }
      let terminal := ops.gameOver g
      let key := ops.fen g
      let cached := aget key σ.table
      match probeTT cached terminal depth alpha beta with
      | .ret v => (v, σ, g)
      | .go alpha beta =>
          if terminal then
            let result := evaluateTerminalState ops g persp plyCount (some ctx)
            let σ :=
              if cached.isNone ∨ cached.any (fun c => c.depth < depth) then
                let newEntry : TTEntry := ⟨depth, .fin result, .exact, none⟩
                { σ with
                  table := aset key newEntry σ.table
                  log := σ.log ++ [⟨key, cached, newEntry, true⟩] }
              else σ
            (.fin result, σ, g)
          else if depth = 0 then
            let (v, σ', gq, _) :=
              quiescence ops env ctx persp g alpha beta plyCount σ 6
            (v, σ', gq)
          else
            let (moves, meta', gm) := orderedMoves ops g ctx none σ.meta plyCount false
            let σ := { σ with meta := meta' }
            let limit := if depth ≥ 3 then min moves.length 14 else min moves.length 18
            let (bestValue, bestFlag, bestChild, σ2, gl) :=
              negamaxLoopWith ops ctx persp
                (fun g d a b p σ => negamax ops env ctx persp fuel g d a b p σ)
                (moves.take limit) 0 depth alpha beta .ninf .upper none plyCount σ gm
            let (bestValue, bestFlag) :=
              if moves.isEmpty then
                (JVal.fin (evaluateTerminalState ops gl persp plyCount (some ctx)),
                  TFlag.exact)
              else (bestValue, bestFlag)
            let oldNow := aget key σ2.table
            let newEntry : TTEntry := ⟨depth, bestValue, bestFlag, bestChild⟩
            let σ3 :=
              { σ2 with
                table := aset key newEntry σ2.table
                log := σ2.log ++ [⟨key, oldNow, newEntry, false⟩] }
            (bestValue, σ3, gl)

end SanFen

namespace SanFen

/-- Base-state data of the concrete transposition scenario used to settle
claim C1.  States are numbered 0..6; `2` is reachable both as the second
child of the root and as the second child of state `4`, with the same
fingerprint, so the search revisits it at a smaller remaining depth. -/
def toyFen : Nat → String
  | 0 => "f0"
  | 1 => "f1"
  | 2 => "fX"
  | 3 => "f3"
  | 4 => "f4"
  | 5 => "f5"
  | 6 => "f6"
  | _ => "f?"

/-- A quiet toy move (rook, no capture, no check). -/
def toyMove (f t s : String) : Move :=
  { color := .w, mfrom := f, mto := t, piece := .r, san := s,
    flags := "n", captured := none, promotion := none }

/-- The legal moves of each toy base state; states 1 and 3 are stalemates
and state 6 is a checkmate (Black to move, mated). -/
def toyMoves : Nat → List Move
  | 0 => [toyMove "q1" "q2" "Ra", toyMove "q3" "q4" "Rb", toyMove "q5" "q6" "Rc"]
  | 2 => [toyMove "r1" "r2" "Rd"]
  | 4 => [toyMove "s1" "s2" "Re", toyMove "s3" "s4" "Rf"]
  | 5 => [toyMove "t1" "t2" "Rg"]
  | _ => []

/-- Move targets, keyed by the (unique) origin square of each toy move. -/
def toyTarget (f : String) : Nat :=
  if f = "q1" then 1 else if f = "q3" then 2 else if f = "q5" then 4
  else if f = "r1" then 3 else if f = "s1" then 5 else if f = "s3" then 2
  else if f = "t1" then 6 else 6

/-- Toy game states: the path of visited base states, most recent first
(so `applyMove` pushes and `undo` pops, making apply/undo exact). -/
def ToyG := List Nat

/-- Current base state of a toy game. -/
def ToyG.cur (g : ToyG) : Nat := g.headD 0

/-- The `GameOps` instance for the toy game: states 1 and 3 are
stalemates, state 6 is a checkmate against Black (which steers the
search into the bound combination that exercises the transposition-table
overwrite); the boards are empty — no path of the analysed runs reads
them beyond king scans. -/
def toyOps : GameOps ToyG where
  fen g := toyFen g.cur
  turn g := if g.cur = 6 then .b else .w
  board _ := fun _ _ => none
  movesVerbose g := toyMoves g.cur
  applyMove g m := toyTarget m.mfrom :: g
  undo g := g.tail
  inCheck g := g.cur = 6
  inCheckmate g := g.cur = 6
  inStalemate g := g.cur = 1 ∨ g.cur = 3
  gameOver g := g.cur = 1 ∨ g.cur = 3 ∨ g.cur = 6
  historyVerbose _ := []
  fromFen _ := none
  moveFromTo _ _ _ _ := none

/-- A history-free evaluation context (as produced by
`createEvaluationContext` on a long game with no flank or king events). -/
def toyCtx : EvalContext :=
  { moveCount := 40, history := [], repeatedFlankW := 0, repeatedFlankB := 0,
    castledW := false, castledB := false, kingMovedW := false, kingMovedB := false }

/-- A search environment with no cancellation signal and no deadline. -/
def noStopEnv : SearchEnv := ⟨none, none, none⟩

/-- The initial search state. -/
def initialSState : SState :=
  { table := [], stats := ⟨0, 0⟩, meta := createSearchMeta, log := [], tick := 0 }

/-- The C1 scenario run: `negamax` from toy state 0 at depth 3 with the
root bounds `(-Infinity, Infinity)` used by `analyzeFallback`. -/
def c1Run : JVal × SState × ToyG :=
  negamax toyOps noStopEnv toyCtx .w 10 [0] 3 .ninf .inf 0 initialSState

/-- Claim C1's stated invariant, as a predicate on one logged store:
either the position was terminal, or the store did not shrink the depth
of an existing entry. -/
def storeMonotone (ev : StoreEv) : Bool :=
  ev.terminal ||
    (match ev.old with
     | none => true
     | some e0 => decide (ev.new.depth ≥ e0.depth))

end SanFen

namespace SanFen

/-- `chooseFallbackDepth(moveCount, legalCount)` (lines 1819-1829). -/
def chooseFallbackDepth (moveCount legalCount : Nat) : Nat :=
  let depth : Int := 4
  let depth := if moveCount < 10 then depth + 2
    else if moveCount < 20 then depth + 1 else depth
  let depth := if legalCount ≤ 12 then depth + 1 else depth
  let depth := if legalCount ≤ 8 then depth + 1 else depth
  let depth := if legalCount ≥ 28 then depth - 1 else depth
  let depth := if legalCount ≥ 36 then depth - 1 else depth
  let depth := if moveCount > 60 then max 3 (depth - 1) else depth
  (max 3 (min depth 7)).toNat

/-- The walk of `principalVariationFromTable`'s `for` loop
(lines 1841-1855), with the remaining iteration count as the (source's
own) bound. -/
def pvLoop {G : Type} (ops : GameOps G) (table : List (String × TTEntry))
    (g : G) (seen : List String) : Nat → List Move
  | 0 => []
  | n + 1 =>
      let key := ops.fen g
      if seen.contains key then []
      else
        match aget key table with
        | none => []
        | some entry =>
            match entry.best with
            | none => []
            | some bc =>
                match ops.moveFromTo g bc.bfrom bc.bto
                    (bc.promotion.map PieceType.letter) with
                | none => []
                | some (move, g') =>
                    move ::
                      (if ops.gameOver g' then []
                       else pvLoop ops table g' (key :: seen) n)

/-- `principalVariationFromTable(fen, table, maxLength)` (lines 1831-1857). -/
def principalVariationFromTable {G : Type} (ops : GameOps G) (fen : String)
    (table : List (String × TTEntry)) (maxLength : Nat) : List Move :=
  if fen = "" then []
  else
    match ops.fromFen fen with
    | none => []
    | some g => pvLoop ops table g [] maxLength

/-- The options bag of `analyzeFallback` (`depth`, `maxDepth`, `minDepth`,
`timeBudget`, `shouldStop`), each field absent (`undefined`) or a number. -/
structure FallbackOptions where
  depth : Option Rat
  maxDepth : Option Rat
  minDepth : Option Rat
  timeBudget : Option Rat
  shouldStop : Option (Nat → Bool)

/-- One entry of `analyzeFallback`'s `details` list
(`{ move, score, pv, pvSan }`, lines 1956-1971). -/
structure DetailEntry where
  move : Move
  score : JVal
  pv : List Move
  pvSan : List String

/-- The result shape of `analyzeFallback`; `timeouts` is `none` on the
zero-legal-moves early return (line 1864 writes no such field) and
`some _` on the normal path (line 1983). -/
structure FallbackResult where
  best : Option DetailEntry
  details : List DetailEntry
  depth : Nat
  considered : Nat
  elapsed : Rat
  aborted : Bool
  timeouts : Option Nat

/-- Insertion step of the stable descending sort on `JVal` keys. -/
def insertByDescJ {α : Type} (key : α → JVal) (x : α) : List α → List α
  | [] => [x]
  | y :: ys =>
      if JVal.ble (key y) (key x) then x :: y :: ys
      else y :: insertByDescJ key x ys

/-- Stable descending sort on `JVal` keys
(`iteration.sort((a, b) => b.score - a.score)`, line 1938). -/
def sortByDescJ {α : Type} (key : α → JVal) (l : List α) : List α :=
  l.foldr (insertByDescJ key) []

/-- `shouldStop && shouldStop()` at a given tick. -/
def shouldStopHit (s : Option (Nat → Bool)) (tick : Nat) : Bool :=
  match s with
  | some f => f tick
  | none => false

end SanFen

namespace SanFen

/-- The state carried across `analyzeFallback`'s iterative-deepening loop
(lines 1892-1951): search state, threaded game, previous-iteration
preference map, current results, reached depth and the aborted flag. -/
structure FbState (G : Type) where
  sst : SState
  g : G
  pref : List (String × Nat)
  finalResults : List (Move × JVal)
  reachedDepth : Nat
  aborted : Bool

/-- The root move loop of one deepening iteration (lines 1908-1932):
entry/exit cancellation checks, the checkmate-child short-circuit, the
negamax recursion, the check bonus and ordering boost, and the running
`alpha`. -/
def fbInner {G : Type} (ops : GameOps G) (envF : SearchEnv)
    (ctx : EvalContext) (persp : Color) (fuel : Nat) (depth : Nat) :
    List Move → JVal → List (Move × JVal × JVal) → SState → G →
    List (Move × JVal × JVal) × SState × G × Bool
  | [], _, iter, σ, g => (iter, σ, g, false)
  | move :: rest, alpha, iter, σ, g =>
      let hit := stopHit envF σ.tick
      let σ := { σ with tick := σ.tick + 1 }
      if hit then (iter, σ, g, true)
      else
        let g1 := ops.applyMove g move
        let (score, σ', g1') :=
          if ops.inCheckmate g1 then
            (JVal.fin (evaluateTerminalState ops g1 persp 1 (some ctx)), σ, g1)
          else
            let (v, σ', g1') :=
              negamax ops envF ctx persp fuel g1 (depth - 1) JVal.inf.neg
                alpha.neg 1 σ
            (v.neg, σ', g1')
        let checkBonus : JVal := if ops.inCheck g1' then .fin 0.25 else .fin 0
        let g2 := ops.undo g1'
        let orderBoost := lookupOrderingScore σ'.meta 0 move * 0.02
        let normalized := JVal.add (JVal.add score checkBonus) (.fin orderBoost)
        let iter' := iter ++ [(move, score, normalized)]
        let alpha := if JVal.blt alpha score then score else alpha
        let hit2 := stopHit envF σ'.tick
        let σ'' := { σ' with tick := σ'.tick + 1 }
        if hit2 then (iter', σ'', g2, true)
        else fbInner ops envF ctx persp fuel depth rest alpha iter' σ'' g2

/-- The `for (let depth = 1; depth <= targetDepth; depth++)` loop of
`analyzeFallback` (lines 1897-1951). -/
def fbOuter {G : Type} (ops : GameOps G) (envF : SearchEnv)
    (ctx : EvalContext) (persp : Color) (fuel : Nat)
    (sstop : Option (Nat → Bool)) : List Nat → FbState G → FbState G
  | [], st => st
  | depth :: rest, st =>
      let hit0 := shouldStopHit sstop st.sst.tick
      let σ := { st.sst with tick := st.sst.tick + 1 }
      if hit0 then { st with sst := σ, aborted := true }
      else
        let (candidateMoves, meta', g') :=
          orderedMoves ops st.g ctx (some st.pref) σ.meta 0 false
        let σ := { σ with meta := meta' }
        let limit := min candidateMoves.length (if depth ≥ 4 then 20 else 24)
        let (iteration, σ', g'', abortedI) :=
          fbInner ops envF ctx persp fuel depth (candidateMoves.take limit)
            .ninf [] σ g'
        if iteration.isEmpty then { st with sst := σ', g := g'' }
        else
          let sorted := sortByDescJ (fun e => e.2.2) iteration
          let finalResults := sorted.map (fun e => (e.1, e.2.1))
          let pref' := sorted.enum.map (fun p => (moveKey p.2.1, p.1))
          let st' : FbState G :=
            { sst := σ', g := g'', pref := pref', finalResults := finalResults,
              reachedDepth := depth, aborted := st.aborted || abortedI }
          if st'.aborted then st'
          else fbOuter ops envF ctx persp fuel sstop rest st'

/-- `analyzeFallback(game, options)` (lines 1859-1985).  `fuel` bounds the
embedded negamax recursion (see `negamax`); `nowOracle` models the
clock (`performance.now`/`Date.now`), indexed by the tick counter;
`windowFallbackTime` models `window.__CHESS_FALLBACK_TIME`. -/
def analyzeFallback {G : Type} (ops : GameOps G) (fuel : Nat)
    (nowOracle : Nat → Rat) (windowFallbackTime : Option Rat) (g : G)
    (options : FallbackOptions) : FallbackResult × SState × G :=
  let evalContext := createEvaluationContext ops g
  let σ0 : SState :=
    { table := [], stats := ⟨0, 0⟩, meta := createSearchMeta, log := [], tick := 0 }
  let (initialMoves, meta1, g1) :=
    orderedMoves ops g evalContext none σ0.meta 0 false
  if initialMoves.isEmpty then
    ({ best := none, details := [], depth := 0, considered := 0, elapsed := 0,
       aborted := false, timeouts := none }, { σ0 with meta := meta1 }, g1)
  else
    let perspective := ops.turn g1
    let moveCount := evalContext.moveCount
    let preferredDepth : Option Int := options.depth.map (fun d => max 1 d.floor)
    let depthCap : Option Int := options.maxDepth.map (fun d => max 1 d.floor)
    let depthFloor : Option Int := options.minDepth.map (fun d => max 1 d.floor)
    let targetDepth : Int :=
      preferredDepth.getD (chooseFallbackDepth moveCount initialMoves.length : Int)
    let targetDepth := match depthCap with | some c => min targetDepth c | none => targetDepth
    let targetDepth := match depthFloor with | some f => max targetDepth f | none => targetDepth
    let targetDepthN := targetDepth.toNat
    let timeBudget : Rat :=
      match options.timeBudget with
      | some tb => max 0 tb
      | none =>
          match windowFallbackTime with
          | some wt => max 250 wt
          | none => 1700
    let startTime := nowOracle 0
    let deadline : Option Rat :=
      if timeBudget > 0 then some (startTime + timeBudget) else none
    let envF : SearchEnv :=
      { shouldStop := options.shouldStop, deadline := deadline,
        nowFn := some nowOracle }
    let st0 : FbState G :=
      { sst := { σ0 with meta := meta1, tick := 1 }, g := g1, pref := [],
        finalResults := initialMoves.map (fun m => (m, JVal.fin 0)),
        reachedDepth := 0, aborted := false }
    let stF := fbOuter ops envF evalContext perspective fuel options.shouldStop
      (List.range' 1 targetDepthN) st0
    let σF := stF.sst
    let elapsed := nowOracle σF.tick - startTime
    let σF := { σF with tick := σF.tick + 1 }
    let rootFen := ops.fen stF.g
    let detailed := stF.finalResults.map (fun e =>
      match ops.fromFen rootFen with
      | none => ({ move := e.1, score := e.2, pv := [], pvSan := [] } : DetailEntry)
      | some clone =>
          match ops.moveFromTo clone e.1.mfrom e.1.mto
              (e.1.promotion.map PieceType.letter) with
          | none => ({ move := e.1, score := e.2, pv := [], pvSan := [] } : DetailEntry)
          | some (fm, clone') =>
              let continuation :=
                principalVariationFromTable ops (ops.fen clone') σF.table
                  (targetDepthN + 4)
              let pvMoves := fm :: continuation
              ({ move := e.1, score := e.2, pv := pvMoves,
                 pvSan := pvMoves.map (fun m => m.san) } : DetailEntry))
    ({ best := detailed.head?, details := detailed, depth := stF.reachedDepth,
       considered := σF.stats.nodes, elapsed := elapsed, aborted := stF.aborted,
       timeouts := some σF.stats.timeouts }, σF, stF.g)

end SanFen

namespace SanFen

/-- A registered waiter of `StockfishEngine` (lines 393-406): an id (for
tracking identity; JS uses object identity), and the predicate.  A
predicate that throws (caught at lines 372-376 and treated as no match)
is modelled by `.error`. -/
structure Waiter where
  id : Nat
  pred : String → Except Unit Bool

/-- `waiter.predicate(line)` under the `try/catch` of `handleMessage`. -/
def waiterMatches (w : Waiter) (line : String) : Bool :=
  match w.pred line with
  | .ok b => b
  | .error _ => false

/-- The waiter list plus an id supply (`this.waiters`; `push` appends). -/
structure EngineState where
  waiters : List Waiter
  nextId : Nat

/-- Promise settlements observed during a run. -/
inductive WaiterEvent where
  | resolved (id : Nat) (line : String)
  | rejectedTimeout (id : Nat)
deriving DecidableEq

/-- The `for (let i = this.waiters.length - 1; i >= 0; i--)` scan of
`handleMessage` (lines 369-382): waiters are tested newest-first, every
match is spliced out, its timer cleared, and its promise resolved with the
line.  Downward iteration with splicing visits every element exactly once,
which this right-to-left recursion reproduces. -/
def handleScan (line : String) : List Waiter → List Waiter × List WaiterEvent
  | [] => ([], [])
  | w :: rest =>
      let (rest', evs) := handleScan line rest
      if waiterMatches w line then (rest', evs ++ [.resolved w.id line])
      else (w :: rest', evs)

/-- `handleMessage(payload)` (lines 365-391) restricted to the waiter
bookkeeping; the passive `handlers` loop does not touch waiters.
`if (!line) return;` drops empty lines. -/
def handleMessage (s : EngineState) (line : String) :
    EngineState × List WaiterEvent :=
  if line = "" then (s, [])
  else
    ({ s with waiters := (handleScan line s.waiters).1 },
      (handleScan line s.waiters).2)

/-- Registration performed by `waitFor` (line 405): push a fresh waiter. -/
def registerWaiter (s : EngineState) (pred : String → Except Unit Bool) :
    EngineState × Nat :=
  ({ waiters := s.waiters ++ [⟨s.nextId, pred⟩], nextId := s.nextId + 1 },
    s.nextId)

/-- The timer callback of `waitFor` (lines 399-403): remove the waiter and
reject its promise with the timeout error.  The runtime runs the callback
only while the timer is uncleared, and the timer is cleared exactly when
the waiter is resolved (line 379) — hence the callback fires only while
the waiter is still pending, in which case `indexOf` finds it. -/
def fireTimeout (s : EngineState) (id : Nat) :
    EngineState × List WaiterEvent :=
  if s.waiters.any (fun w => w.id = id) then
    ({ s with waiters := s.waiters.filter (fun w => w.id ≠ id) },
      [.rejectedTimeout id])
  else (s, [])

/-- External events driving the engine session: an incoming line, a timer
expiry for a waiter, or a new `waitFor` registration. -/
inductive EngAction where
  | line (s : String)
  | fire (id : Nat)
  | register (pred : String → Except Unit Bool)

/-- One step of the session. -/
def engStep (s : EngineState) : EngAction → EngineState × List WaiterEvent
  | .line l => handleMessage s l
  | .fire id => fireTimeout s id
  | .register p => ((registerWaiter s p).1, [])

/-- A run over an action sequence, collecting all events in order. -/
def engRun (s : EngineState) : List EngAction → EngineState × List WaiterEvent
  | [] => (s, [])
  | a :: rest =>
      ((engRun (engStep s a).1 rest).1,
        (engStep s a).2 ++ (engRun (engStep s a).1 rest).2)

/-- The waiter id an event settles. -/
def WaiterEvent.evId : WaiterEvent → Nat
  | .resolved i _ => i
  | .rejectedTimeout i => i

/-- The events concerning one waiter id. -/
def eventsFor (id : Nat) (evs : List WaiterEvent) : List WaiterEvent :=
  evs.filter (fun ev => ev.evId = id)

/-- Well-formedness of an engine state: waiter ids are distinct and below
the id supply (maintained by construction, since `registerWaiter` is the
only source of waiters). -/
def EngineState.wf (s : EngineState) : Prop :=
  (s.waiters.map (fun w => w.id)).Nodup ∧
    ∀ w ∈ s.waiters, w.id < s.nextId

/-- An action that neither settles nor removes the given waiter: a line
that is empty or does not match its predicate, a timer expiry of a
different waiter, or a fresh registration. -/
def neutralFor (w : Waiter) : EngAction → Prop
  | .line l => l = "" ∨ waiterMatches w l = false
  | .fire j => j ≠ w.id
  | .register _ => True

/-- `uciToSan(fen, uciMove)` (lines 677-689). -/
def uciToSan {G : Type} (ops : GameOps G) (fen uciMove : String) :
    Option String :=
  if uciMove = "" then none
  else
    match ops.fromFen fen with
    | none => some uciMove
    | some chess =>
        match ops.moveFromTo chess (strTake uciMove 2) (strTake (strDrop uciMove 2) 2)
            (if strLen uciMove > 4 then some (strDrop uciMove 4) else none) with
        | some (move, _) => some move.san
        | none => some uciMove

/-- A one-state game whose FEN always loads and whose move lookup always
succeeds with a fixed SAN, exercising the legal-application branch of
`uciToSan`. -/
def sanOps : GameOps Unit where
  fen _ := ""
  turn _ := .w
  board _ := fun _ _ => none
  movesVerbose _ := []
  applyMove g _ := g
  undo g := g
  inCheck _ := false
  inCheckmate _ := false
  inStalemate _ := false
  gameOver _ := false
  historyVerbose _ := []
  fromFen _ := some ()
  moveFromTo _ _ _ _ := some (toyMove "e2" "e4" "e4", ())

end SanFen

namespace SanFen

/-- JS `line.split(/\s+/)`: split on whitespace runs; a leading run
contributes one leading empty string. -/
def splitWs (s : String) : List String :=
  let isWsChar := fun c => c = ' ' ∨ c = '\t' ∨ c = '\n' ∨ c = '\r'
  let parts := ((s.data.foldr
    (fun c acc =>
      if isWsChar c then [] :: acc
      else
        match acc with
        | [] => [[c]]
        | h :: t => (c :: h) :: t)
    [[]]).map String.mk).filter (fun p => p ≠ "")
  match s.data.head? with
  | some c => if isWsChar c then "" :: parts else parts
  | none => [""]

/-- The observable protocol side of one `analyzeWithStockfish` call:
commands sent (in order), whether the passive info listener was
registered/removed, how many `waitFor`s were consumed, and the outcome of
the post-stop readiness attempt (`none` when never reached). -/
structure SfSession where
  cmds : List String
  listenerAdded : Bool
  listenerRemoved : Bool
  waits : Nat
  postStopReadyOk : Option Bool

/-- The best-move part of `analyzeWithStockfish`'s result
(lines 793-815); the ranked `lines` array is assembled from the passive
info-line collection, whose regex parsing no claim touches, so it is not
modelled. -/
structure SfAnalysis where
  depth : Nat
  best : Option (Option String × String)

/-- `engine.isReady()` (lines 430-433): send `isready`, wait for
`readyok`.  The oracle answers the k-th `waitFor` of the call with the
resolved line or a timeout. -/
def sfIsReady (oracle : Nat → Except Unit String) (s : SfSession) :
    Except Unit Unit × SfSession :=
  let s := { s with cmds := s.cmds ++ ["isready"] }
  match oracle s.waits with
  | .ok _ => (.ok (), { s with waits := s.waits + 1 })
  | .error _ => (.error (), { s with waits := s.waits + 1 })

/-- `analyzeWithStockfish(engine, game)` (lines 720-816), as a function of
the response oracle.  The unprotected `await engine.isReady()` calls
(lines 767 and 769) propagate a timeout out of the function (`.error`);
the `setMultiPv` attempt (726-730) and the `bestmove` wait (777-781)
swallow theirs. -/
def analyzeWithStockfish {G : Type} (ops : GameOps G)
    (oracle : Nat → Except Unit String) (g : G) :
    Except Unit (Option SfAnalysis) × SfSession :=
  let s0 : SfSession :=
    { cmds := [], listenerAdded := false, listenerRemoved := false,
      waits := 0, postStopReadyOk := none }
  let fen := ops.fen g
  let legalMoves := ops.movesVerbose g
  if legalMoves.isEmpty then (.ok none, s0)
  else
    let multiPv := min 5 (max 1 legalMoves.length)
    let s1 := { s0 with
      cmds := s0.cmds ++ ["setoption name MultiPV value " ++ toString multiPv] }
    let (_r, s2) := sfIsReady oracle s1
    let s3 := { s2 with listenerAdded := true }
    match sfIsReady oracle s3 with
    | (.error _, s4) => (.error (), s4)
    | (.ok _, s4) =>
        let s5 := { s4 with cmds := s4.cmds ++ ["ucinewgame"] }
        match sfIsReady oracle s5 with
        | (.error _, s6) => (.error (), s6)
        | (.ok _, s6) =>
            let s7 := { s6 with cmds := s6.cmds ++ ["position fen " ++ fen] }
            let totalMoves := (ops.historyVerbose g).length
            let desiredDepth := min 18 (12 + totalMoves / 6)
            let s8 := { s7 with
              cmds := s7.cmds ++ ["go depth " ++ toString desiredDepth] }
            let bestLine : Option String :=
              match oracle s8.waits with
              | .ok l => some l
              | .error _ => none
            let s9 := { s8 with waits := s8.waits + 1 }
            let s10 := { s9 with
              cmds := s9.cmds ++ ["stop"]
              listenerRemoved := true }
            let (rfin, s11) := sfIsReady oracle s10
            let s11 := { s11 with
              postStopReadyOk := some (match rfin with | .ok _ => true | .error _ => false) }
            match bestLine with
            | none => (.ok none, s11)
            | some bl =>
                let bestParts := splitWs bl
                let bestUci := (bestParts.get? 1).getD ""
                let validBest := bestUci ≠ "" ∧ bestUci ≠ "(none)"
                let bestSan :=
                  if validBest then uciToSan ops fen bestUci else none
                (.ok (some
                  { depth := desiredDepth
                    best := if validBest then some (bestSan, bestUci) else none }),
                  s11)

end SanFen

namespace SanFen

/-- A minimal Position instance on `Unit` used to witness theorems about
interface-generic functions: one checkmated state. -/
def mateOps : GameOps Unit :=
  { fen := fun _ => "m", turn := fun _ => .b, board := fun _ => fun _ _ => none,
    movesVerbose := fun _ => [], applyMove := fun g _ => g, undo := fun g => g,
    inCheck := fun _ => true, inCheckmate := fun _ => true,
    inStalemate := fun _ => false, gameOver := fun _ => true,
    historyVerbose := fun _ => [], fromFen := fun _ => none,
    moveFromTo := fun _ _ _ _ => none }

/-- A minimal stalemated Position instance on `Unit`. -/
def staleOps : GameOps Unit :=
  { fen := fun _ => "s", turn := fun _ => .w, board := fun _ => fun _ _ => none,
    movesVerbose := fun _ => [], applyMove := fun g _ => g, undo := fun g => g,
    inCheck := fun _ => false, inCheckmate := fun _ => false,
    inStalemate := fun _ => true, gameOver := fun _ => true,
    historyVerbose := fun _ => [], fromFen := fun _ => none,
    moveFromTo := fun _ _ _ _ => none }

/-- The color swap of the C3 mirror transform. -/
def Piece.swap (pc : Piece) : Piece := ⟨pc.ptype, pc.color.other⟩

/-- The vertical board mirror with swapped piece colors: square `(r, c)`
of the mirrored board holds the color-swapped piece of square `(7-r, c)`. -/
def mirrorBoard (b : Board) : Board := fun r c => (b r.rev c).map Piece.swap

/-- The square-level mirror. -/
def mirrorSq (rc : Fin 8 × Fin 8) : Fin 8 × Fin 8 := (rc.1.rev, rc.2)

/-- C5.  Move-ordering lookahead frame property: `evaluateMoveConsequences`
always hands back the state `undo(applyMove(g, move))` — the source's
`try { ... } finally { game.undo(); }` undoes the applied move on every
path, including when the lookahead body raises — so under the §3
Position invariant (undoing the just-applied move restores the previous
fingerprint) the FEN after the call equals the FEN before it. -/
theorem evaluateMoveConsequences_frame {G : Type} (ops : GameOps G) (g : G)
    (move : Move)
    (h : ops.fen (ops.undo (ops.applyMove g move)) = ops.fen g) :
    (evaluateMoveConsequences ops g move).2 = ops.undo (ops.applyMove g move) ∧
      ops.fen (evaluateMoveConsequences ops g move).2 = ops.fen g := by
  exact ⟨rfl, h⟩

/-- Witness for C5 on the concrete toy game: applying and undoing the
first root move restores the starting fingerprint. -/
theorem evaluateMoveConsequences_frame_witness :
    toyOps.fen (toyOps.undo (toyOps.applyMove [0] (toyMove "q1" "q2" "Ra"))) =
        toyOps.fen [0] ∧
      (evaluateMoveConsequences toyOps [0] (toyMove "q1" "q2" "Ra")).2 =
          toyOps.undo (toyOps.applyMove [0] (toyMove "q1" "q2" "Ra")) ∧
        toyOps.fen (evaluateMoveConsequences toyOps [0] (toyMove "q1" "q2" "Ra")).2 =
          toyOps.fen [0] :=
  ⟨rfl, evaluateMoveConsequences_frame toyOps [0] (toyMove "q1" "q2" "Ra") rfl⟩

/-- C10.  `uciToSan` totality and fallback: an empty move yields `null`;
a non-empty move always yields a string — exactly the SAN of the executed
move when the FEN loads and the move applies legally, and exactly the
original UCI string otherwise (unparseable FEN, or illegal/malformed
move).  The function is total (the `try/catch` absorbs the only throwing
call). -/
theorem uciToSan_total_fallback {G : Type} (ops : GameOps G)
    (fen uci : String) (h : uci ≠ "") :
    uciToSan ops fen "" = none ∧
      (∃ s, uciToSan ops fen uci = some s) ∧
      (ops.fromFen fen = none → uciToSan ops fen uci = some uci) ∧
      ∀ chess, ops.fromFen fen = some chess →
        (∀ move g',
          ops.moveFromTo chess (strTake uci 2) (strTake (strDrop uci 2) 2)
              (if strLen uci > 4 then some (strDrop uci 4) else none)
            = some (move, g') →
          uciToSan ops fen uci = some move.san) ∧
        (ops.moveFromTo chess (strTake uci 2) (strTake (strDrop uci 2) 2)
              (if strLen uci > 4 then some (strDrop uci 4) else none)
            = none →
          uciToSan ops fen uci = some uci) := by
  have hne : uciToSan ops fen uci
      = (match ops.fromFen fen with
        | none => some uci
        | some chess =>
            match ops.moveFromTo chess (strTake uci 2) (strTake (strDrop uci 2) 2)
                (if strLen uci > 4 then some (strDrop uci 4) else none) with
            | some (move, _) => some move.san
            | none => some uci) := by
    unfold uciToSan
    rw [if_neg h]
  refine ⟨by simp [uciToSan], ?_, ?_, ?_⟩
  · cases hf : ops.fromFen fen with
    | none =>
        refine ⟨uci, ?_⟩
        simp only [hne, hf]
    | some chess =>
        cases hm : ops.moveFromTo chess (strTake uci 2) (strTake (strDrop uci 2) 2)
            (if strLen uci > 4 then some (strDrop uci 4) else none) with
        | none =>
            refine ⟨uci, ?_⟩
            simp only [hne, hf, hm]
        | some p =>
            obtain ⟨move, g2⟩ := p
            refine ⟨move.san, ?_⟩
            simp only [hne, hf, hm]
  · intro hf
    simp only [hne, hf]
  · intro chess hf
    constructor
    · intro move g2 hm
      simp only [hne, hf, hm]
    · intro hm
      simp only [hne, hf, hm]

/-- Witness for C10 at a concrete non-empty move on `sanOps` (whose FEN
loads and whose move lookup succeeds), exercising the legal-application
direction: the theorem forces `uciToSan` to return the move's SAN. -/
theorem uciToSan_total_fallback_witness :
    ("e2e4" : String) ≠ "" ∧
      (uciToSan sanOps "f" "" = none ∧
        (∃ s, uciToSan sanOps "f" "e2e4" = some s) ∧
        (sanOps.fromFen "f" = none → uciToSan sanOps "f" "e2e4" = some "e2e4") ∧
        ∀ chess, sanOps.fromFen "f" = some chess →
          (∀ move g',
            sanOps.moveFromTo chess (strTake "e2e4" 2) (strTake (strDrop "e2e4" 2) 2)
                (if strLen "e2e4" > 4 then some (strDrop "e2e4" 4) else none)
              = some (move, g') →
            uciToSan sanOps "f" "e2e4" = some move.san) ∧
          (sanOps.moveFromTo chess (strTake "e2e4" 2) (strTake (strDrop "e2e4" 2) 2)
                (if strLen "e2e4" > 4 then some (strDrop "e2e4" 4) else none)
              = none →
            uciToSan sanOps "f" "e2e4" = some "e2e4")) :=
  ⟨by decide, uciToSan_total_fallback sanOps "f" "e2e4" (by decide)⟩

end SanFen

namespace SanFen

/-- C9.  Zero-legal-moves short-circuit: with an empty legal-move list,
`analyzeWithStockfish` returns `null` having sent no command and touched
no listener, and `analyzeFallback` returns the empty result record
`{ best: null, details: [], depth: 0, considered: 0, elapsed: 0,
aborted: false }` (with no `timeouts` field) without entering the
iterative-deepening loop. -/
theorem zero_moves_short_circuit {G : Type} (ops : GameOps G)
    (oracle : Nat → Except Unit String) (fuel : Nat) (nowO : Nat → Rat)
    (wft : Option Rat) (g : G) (opts : FallbackOptions)
    (h : ops.movesVerbose g = []) :
    analyzeWithStockfish ops oracle g =
        (.ok none,
          { cmds := [], listenerAdded := false, listenerRemoved := false,
            waits := 0, postStopReadyOk := none }) ∧
      (analyzeFallback ops fuel nowO wft g opts).1 =
        { best := none, details := [], depth := 0, considered := 0,
          elapsed := 0, aborted := false, timeouts := none } := by
  constructor
  · simp [analyzeWithStockfish, h]
  · simp [analyzeFallback, orderedMoves, h, sortByDesc]

/-- Witness for C9 on the concrete toy game at its stalemate state `1`
(whose legal-move list is empty). -/
theorem zero_moves_short_circuit_witness :
    toyOps.movesVerbose [1] = [] ∧
      (analyzeWithStockfish toyOps (fun _ => .error ()) [1] =
          (.ok none,
            { cmds := [], listenerAdded := false, listenerRemoved := false,
              waits := 0, postStopReadyOk := none }) ∧
        (analyzeFallback toyOps 5 (fun _ => 0) none [1]
            ⟨none, none, none, none, none⟩).1 =
          { best := none, details := [], depth := 0, considered := 0,
            elapsed := 0, aborted := false, timeouts := none }) :=
  ⟨rfl, zero_moves_short_circuit toyOps (fun _ => .error ()) 5 (fun _ => 0)
    none [1] ⟨none, none, none, none, none⟩ rfl⟩

/-- C4.  Cancellation short-circuit: when the stop predicate fires or the
deadline has passed at entry, both `negamax` and `quiescence` return the
perspective-adjusted static evaluation, bump only the timeout counter and
the tick, and leave the table, node count, move-ordering state, store log
and game untouched — no recursion, no move application. -/
theorem cancellation_short_circuit :
    (∀ {G : Type} (ops : GameOps G) (env : SearchEnv) (ctx : EvalContext)
        (persp : Color) (fuel : Nat) (g : G) (depth : Nat) (alpha beta : JVal)
        (ply : Nat) (σ : SState), stopHit env σ.tick = true →
      negamax ops env ctx persp (fuel + 1) g depth alpha beta ply σ =
        (.fin (evaluateForPerspective ops g persp (some ctx)),
          ⟨σ.table, ⟨σ.stats.nodes, σ.stats.timeouts + 1⟩, σ.meta, σ.log,
            σ.tick + 1⟩, g)) ∧
    (∀ {G : Type} (ops : GameOps G) (env : SearchEnv) (ctx : EvalContext)
        (persp : Color) (g : G) (alpha beta : JVal) (ply : Nat) (σ : SState)
        (limit : Nat), stopHit env σ.tick = true →
      quiescence ops env ctx persp g alpha beta ply σ limit =
        (.fin (evaluateForPerspective ops g persp (some ctx)),
          ⟨σ.table, ⟨σ.stats.nodes, σ.stats.timeouts + 1⟩, σ.meta, σ.log,
            σ.tick + 1⟩, g, 0)) := by
  constructor
  · intro G ops env ctx persp fuel g depth alpha beta ply σ h
    simp [negamax, h]
  · intro G ops env ctx persp g alpha beta ply σ limit h
    simp [quiescence, h]

/-- Witness for C4: a concrete environment whose stop predicate is
constantly `true` short-circuits both functions on the toy game. -/
theorem cancellation_short_circuit_witness :
    stopHit ⟨some (fun _ => true), none, none⟩ initialSState.tick = true ∧
      negamax toyOps ⟨some (fun _ => true), none, none⟩ toyCtx .w 3 [0] 2
          .ninf .inf 0 initialSState =
        (.fin (evaluateForPerspective toyOps [0] .w (some toyCtx)),
          ⟨initialSState.table,
            ⟨initialSState.stats.nodes, initialSState.stats.timeouts + 1⟩,
            initialSState.meta, initialSState.log, initialSState.tick + 1⟩,
          [0]) ∧
      quiescence toyOps ⟨some (fun _ => true), none, none⟩ toyCtx .w [0]
          .ninf .inf 0 initialSState 6 =
        (.fin (evaluateForPerspective toyOps [0] .w (some toyCtx)),
          ⟨initialSState.table,
            ⟨initialSState.stats.nodes, initialSState.stats.timeouts + 1⟩,
            initialSState.meta, initialSState.log, initialSState.tick + 1⟩,
          [0], 0) :=
  ⟨rfl,
    cancellation_short_circuit.1 toyOps ⟨some (fun _ => true), none, none⟩
      toyCtx .w 2 [0] 2 .ninf .inf 0 initialSState rfl,
    cancellation_short_circuit.2 toyOps ⟨some (fun _ => true), none, none⟩
      toyCtx .w [0] .ninf .inf 0 initialSState 6 rfl⟩

end SanFen

namespace SanFen

/-- Nesting bound for the quiescence move loop, given a bound for the
recursive call it makes. -/
theorem qLoopWith_nest_le {G : Type} (ops : GameOps G) (l : Nat)
    (q : G → JVal → JVal → Nat → SState → JVal × SState × G × Nat)
    (Hq : ∀ (g : G) (a b : JVal) (p : Nat) (σ : SState),
      (q g a b p σ).2.2.2 ≤ l) :
    ∀ (moves : List Move) (a b : JVal) (p : Nat) (σ : SState) (g : G),
      (qLoopWith ops q moves a b p σ g).2.2.2 ≤ l + 1 := by
  intro moves
  induction moves with
  | nil => intro a b p σ g; simp [qLoopWith]
  | cons m rest ih =>
      intro a b p σ g
      have h1 := Hq (ops.applyMove g m) b.neg a.neg (p + 1) σ
      simp only [qLoopWith]
      split
      · simpa using Nat.succ_le_succ h1
      · simpa [Nat.max_le] using And.intro (Nat.succ_le_succ h1) (ih _ _ _ _ _)

end SanFen

namespace SanFen

/-- C6.  Quiescence termination and budget: the function is total by
structural recursion on the source's own `limit` parameter (each
recursive call passes `limit - 1`); its recursion nesting never exceeds
the initial budget; and once `limit ≤ 0` is reached (with no
cancellation and no fail-high) it returns the stand-pat score instead of
recursing.  The default budget at every call site is 6. -/
theorem quiescence_budget :
    (∀ {G : Type} (ops : GameOps G) (env : SearchEnv) (ctx : EvalContext)
        (persp : Color) (limit : Nat) (g : G) (alpha beta : JVal) (ply : Nat)
        (σ : SState),
      (quiescence ops env ctx persp g alpha beta ply σ limit).2.2.2 ≤ limit) ∧
    (∀ {G : Type} (ops : GameOps G) (env : SearchEnv) (ctx : EvalContext)
        (persp : Color) (g : G) (alpha beta : JVal) (ply : Nat) (σ : SState),
      stopHit env σ.tick = false →
      JVal.ble beta (.fin (evaluateTerminalState ops g persp ply (some ctx))) =
        false →
      (quiescence ops env ctx persp g alpha beta ply σ 0).1 =
        .fin (evaluateTerminalState ops g persp ply (some ctx))) := by
  constructor
  · intro G ops env ctx persp limit
    induction limit with
    | zero =>
        intro g alpha beta ply σ
        rw [quiescence]
        dsimp only
        split
        · simp
        · split
          · simp
          · simp
    | succ l ih =>
        intro g alpha beta ply σ
        rw [quiescence]
        dsimp only
        split
        · simp
        · split
          · simp
          · exact qLoopWith_nest_le ops l _ (fun g a b p σ => ih g a b p σ)
              _ _ _ _ _ _
  · intro G ops env ctx persp g alpha beta ply σ h1 h2
    rw [quiescence]
    simp [h1, h2]

/-- Witness for C6: concrete budget-0 toy run returning the stand-pat
score, with the cancellation and fail-high hypotheses discharged by
computation. -/
theorem quiescence_budget_witness :
    stopHit noStopEnv initialSState.tick = false ∧
      JVal.ble .inf
          (.fin (evaluateTerminalState toyOps [0] .w 0 (some toyCtx))) = false ∧
      (quiescence toyOps noStopEnv toyCtx .w [0] .ninf .inf 0 initialSState
          6).2.2.2 ≤ 6 ∧
      (quiescence toyOps noStopEnv toyCtx .w [0] .ninf .inf 0 initialSState
          0).1 = .fin (evaluateTerminalState toyOps [0] .w 0 (some toyCtx)) :=
  ⟨rfl, by decide,
    quiescence_budget.1 toyOps noStopEnv toyCtx .w 6 [0] .ninf .inf 0
      initialSState,
    quiescence_budget.2 toyOps noStopEnv toyCtx .w [0] .ninf .inf 0
      initialSState rfl (by decide)⟩

end SanFen

namespace SanFen

/-- The quiescence loop never touches the store log (given that its
recursive call does not). -/
theorem qLoopWith_log {G : Type} (ops : GameOps G)
    (q : G → JVal → JVal → Nat → SState → JVal × SState × G × Nat)
    (Hq : ∀ (g : G) (a b : JVal) (p : Nat) (σ : SState),
      ((q g a b p σ).2.1).log = σ.log) :
    ∀ (moves : List Move) (a b : JVal) (p : Nat) (σ : SState) (g : G),
      ((qLoopWith ops q moves a b p σ g).2.1).log = σ.log := by
  intro moves
  induction moves with
  | nil => intro a b p σ g; simp [qLoopWith]
  | cons m rest ih =>
      intro a b p σ g
      simp only [qLoopWith]
      split
      · exact Hq _ _ _ _ _
      · rw [ih, Hq]

/-- `quiescence` never touches the store log. -/
theorem quiescence_log {G : Type} (ops : GameOps G) (env : SearchEnv)
    (ctx : EvalContext) (persp : Color) :
    ∀ (limit : Nat) (g : G) (a b : JVal) (p : Nat) (σ : SState),
      ((quiescence ops env ctx persp g a b p σ limit).2.1).log = σ.log := by
  intro limit
  induction limit with
  | zero =>
      intro g a b p σ
      rw [quiescence]
      dsimp only
      split
      · rfl
      · split
        · rfl
        · rfl
  | succ l ih =>
      intro g a b p σ
      rw [quiescence]
      dsimp only
      split
      · rfl
      · split
        · rfl
        · exact qLoopWith_log ops _ (fun g a b p σ => ih g a b p σ) _ _ _ _ _ _

/-- Every event in a search state's log satisfies `P`. -/
def LogPred (P : StoreEv → Prop) (σ : SState) : Prop :=
  ∀ ev ∈ σ.log, P ev

set_option maxHeartbeats 2000000 in
/-- The negamax move loop preserves a log predicate, given that its
recursive call does. -/
theorem negamaxLoopWith_logPred {G : Type} (ops : GameOps G)
    (ctx : EvalContext) (persp : Color) (P : StoreEv → Prop)
    (rec : G → Nat → JVal → JVal → Nat → SState → JVal × SState × G)
    (Hrec : ∀ (g : G) (d : Nat) (a b : JVal) (p : Nat) (σ : SState),
      LogPred P σ → LogPred P ((rec g d a b p σ).2.1)) :
    ∀ (moves : List Move) (i depth : Nat) (a b bv : JVal) (bf : TFlag)
      (bc : Option BestChild) (p : Nat) (σ : SState) (g : G),
      LogPred P σ →
      LogPred P ((negamaxLoopWith ops ctx persp rec moves i depth a b bv bf
        bc p σ g).2.2.2.1) := by
  intro moves
  induction moves with
  | nil => intro i depth a b bv bf bc p σ g h; exact h
  | cons m rest ih =>
      intro i depth a b bv bf bc p σ g h
      cases hc : ops.inCheckmate (ops.applyMove g m) with
      | true =>
          simp only [negamaxLoopWith, hc]
          split_ifs <;>
            first
              | exact h
              | exact ih _ _ _ _ _ _ _ _ _ _ h
      | false =>
          simp only [negamaxLoopWith, hc]
          split_ifs <;>
            first
              | exact h
              | exact ih _ _ _ _ _ _ _ _ _ _ h
              | exact Hrec _ _ _ _ _ _ h
              | exact ih _ _ _ _ _ _ _ _ _ _ (Hrec _ _ _ _ _ _ h)

end SanFen

namespace SanFen

/-- The terminal-store discipline `negamax` actually enforces: a terminal
result only ever overwrites a strictly shallower entry (the guard at
line 1757). -/
def termStoreOK (ev : StoreEv) : Prop :=
  ev.terminal = true → ∀ e0, ev.old = some e0 → e0.depth < ev.new.depth

/-- C1, amended, proved: in every `negamax` run, every logged `table.set`
for a TERMINAL position either found no existing entry or strictly
increased the stored depth; non-terminal stores are unconditional (see
the counterexample for an overwrite that shrinks the depth). -/
theorem negamax_terminal_store_monotone {G : Type} (ops : GameOps G)
    (env : SearchEnv) (ctx : EvalContext) (persp : Color) :
    ∀ (fuel : Nat) (g : G) (depth : Nat) (alpha beta : JVal) (ply : Nat)
      (σ : SState), LogPred termStoreOK σ →
      LogPred termStoreOK
        ((negamax ops env ctx persp fuel g depth alpha beta ply σ).2.1) := by
  intro fuel
  induction fuel with
  | zero => intro g depth a b p σ h; exact h
  | succ f ih =>
      intro g depth a b p σ h
      rw [negamax]
      dsimp only
      split
      · exact h
      · split
        · exact h
        · split
          · -- terminal branch
            split
            next hguard =>
              intro ev hev
              rcases List.mem_append.mp hev with h1 | h2
              · exact h ev h1
              · have hev2 : ev = ⟨ops.fen g, aget (ops.fen g) σ.table,
                    ⟨depth, .fin (evaluateTerminalState ops g persp p (some ctx)),
                      .exact, none⟩, true⟩ := by simpa using h2
                subst hev2
                intro _ e0 he0
                have he0' : aget (ops.fen g) σ.table = some e0 := he0
                show e0.depth < depth
                rcases hguard with hnone | hany
                · rw [Option.isNone_iff_eq_none.mp hnone] at he0'
                  cases he0'
                · rw [he0'] at hany
                  simpa using hany
            next => exact h
          · split
            · -- depth = 0: quiescence does not touch the log
              intro ev hev
              apply h
              rw [quiescence_log ops env ctx persp] at hev
              exact hev
            · -- main branch: the loop (via ih), then a non-terminal store
              intro ev hev
              rcases List.mem_append.mp hev with h1 | h2
              · refine negamaxLoopWith_logPred ops ctx persp termStoreOK _
                  (fun g d a b p σ hσ => ih g d a b p σ hσ)
                  _ _ _ _ _ _ _ _ _ _ _ ?_ ev h1
                exact h
              · have hev2 : ev.terminal = false := by
                  have h3 := List.mem_singleton.mp h2
                  rw [h3]
                intro hT
                rw [hev2] at hT
                cases hT

end SanFen

namespace SanFen

set_option maxHeartbeats 2000000 in
unseal Rat.add Rat.mul Rat.sub Rat.inv Rat.ofScientific in
/-- C1 counterexample: in the concrete run `c1Run` (depth-3 negamax from
toy state 0 with the root bounds used by `analyzeFallback`), the search
first stores fingerprint `"fX"` at depth 2 with a `lower` bound, then —
reaching the same fingerprint through the other move order at remaining
depth 1, with bounds the cached entry cannot collapse — overwrites it
with a depth-1 `upper` entry.  The position is not terminal, so the
claimed invariant (`storeMonotone` at every logged `table.set`) is
false. -/
theorem negamax_overwrite_cex :
    ¬ (∀ ev ∈ c1Run.2.1.log, storeMonotone ev = true) ∧
      c1Run.2.1.log.filter (fun ev => !storeMonotone ev) =
        [⟨"fX",
          some ⟨2, .fin 0, .lower, some ⟨"r1", "r2", none⟩⟩,
          ⟨1, .fin 0, .upper, some ⟨"r1", "r2", none⟩⟩, false⟩] := by
  constructor
  · decide
  · decide

/-- Witness for the amended C1 theorem at a concrete run (the toy search
itself), with the empty-log hypothesis discharged by computation. -/
theorem negamax_terminal_store_monotone_witness :
    LogPred termStoreOK initialSState ∧
      LogPred termStoreOK
        ((negamax toyOps noStopEnv toyCtx .w 10 [0] 3 .ninf .inf 0
          initialSState).2.1) :=
  ⟨by simp [LogPred, initialSState],
    negamax_terminal_store_monotone toyOps noStopEnv toyCtx .w 10 [0] 3
      .ninf .inf 0 initialSState (by simp [LogPred, initialSState])⟩

end SanFen

namespace SanFen

/-- `eventsFor` distributes over concatenation. -/
theorem eventsFor_append (id : Nat) (a b : List WaiterEvent) :
    eventsFor id (a ++ b) = eventsFor id a ++ eventsFor id b := by
  simp [eventsFor]

/-- The kept waiters of a `handleMessage` scan form a sublist. -/
theorem handleScan_kept_sublist (line : String) :
    ∀ ws : List Waiter, (handleScan line ws).1.Sublist ws := by
  intro ws
  induction ws with
  | nil => simp [handleScan]
  | cons w rest ih =>
      simp only [handleScan]
      split
      · exact ih.cons w
      · exact ih.cons₂ w

/-- Every event a scan emits settles the id of some matching waiter. -/
theorem handleScan_events_ids (line : String) :
    ∀ ws : List Waiter, ∀ ev ∈ (handleScan line ws).2,
      ∃ w ∈ ws, waiterMatches w line = true ∧ ev = .resolved w.id line := by
  intro ws
  induction ws with
  | nil => simp [handleScan]
  | cons w rest ih =>
      intro ev hev
      simp only [handleScan] at hev
      split at hev
      next hm =>
        rcases List.mem_append.mp hev with h1 | h2
        · obtain ⟨w', hw', hm', he⟩ := ih ev h1
          exact ⟨w', List.mem_cons_of_mem w hw', hm', he⟩
        · exact ⟨w, List.mem_cons_self w rest, hm,
            List.mem_singleton.mp h2⟩
      next =>
        obtain ⟨w', hw', hm', he⟩ := ih ev hev
        exact ⟨w', List.mem_cons_of_mem w hw', hm', he⟩

/-- A scan emits no event for an id that no waiter carries. -/
theorem handleScan_no_event (line : String) (ws : List Waiter) (id : Nat)
    (h : id ∉ ws.map (fun w => w.id)) :
    eventsFor id (handleScan line ws).2 = [] := by
  rw [eventsFor, List.filter_eq_nil_iff]
  intro ev hev
  obtain ⟨w, hw, _, he⟩ := handleScan_events_ids line ws ev hev
  subst he
  simp only [WaiterEvent.evId, decide_eq_true_eq]
  intro hid
  exact h (hid ▸ List.mem_map_of_mem (fun w => w.id) hw)

/-- A non-matching waiter survives the scan. -/
theorem handleScan_keeps (line : String) (w : Waiter) :
    ∀ ws : List Waiter, w ∈ ws → waiterMatches w line = false →
      w ∈ (handleScan line ws).1 := by
  intro ws
  induction ws with
  | nil => simp
  | cons w' rest ih =>
      intro hw hm
      simp only [handleScan]
      split
      next hm' =>
        rcases List.mem_cons.mp hw with h1 | h2
        · subst h1; rw [hm] at hm'; cases hm'
        · exact ih h2 hm
      next =>
        rcases List.mem_cons.mp hw with h1 | h2
        · exact h1 ▸ List.mem_cons_self _ _
        · exact List.mem_cons_of_mem _ (ih h2 hm)

/-- A matching waiter resolves exactly once with the scanned line and is
removed, provided waiter ids are distinct. -/
theorem handleScan_resolves (line : String) (w : Waiter) :
    ∀ ws : List Waiter, w ∈ ws → waiterMatches w line = true →
      (ws.map (fun x => x.id)).Nodup →
      eventsFor w.id (handleScan line ws).2 = [.resolved w.id line] ∧
        w.id ∉ (handleScan line ws).1.map (fun x => x.id) := by
  intro ws
  induction ws with
  | nil => simp
  | cons w' rest ih =>
      intro hw hm hnd
      have hnd' : (rest.map (fun x => x.id)).Nodup := (List.nodup_cons.mp hnd).2
      have hnotin : w'.id ∉ rest.map (fun x => x.id) := (List.nodup_cons.mp hnd).1
      rcases List.mem_cons.mp hw with h1 | h2
      · subst h1
        have hscan : handleScan line (w :: rest) =
            ((handleScan line rest).1,
              (handleScan line rest).2 ++ [.resolved w.id line]) := by
          simp [handleScan, hm]
        rw [hscan]
        constructor
        · rw [eventsFor_append, handleScan_no_event line rest w.id hnotin]
          simp [eventsFor, WaiterEvent.evId]
        · intro hmem
          exact hnotin (((handleScan_kept_sublist line rest).map
            (fun x => x.id)).mem hmem)
      · have hwid : w.id ∈ rest.map (fun x => x.id) :=
          List.mem_map_of_mem (fun x => x.id) h2
        have hne : w'.id ≠ w.id := fun he => hnotin (he ▸ hwid)
        obtain ⟨ihev, ihkept⟩ := ih h2 hm hnd'
        by_cases hm' : waiterMatches w' line = true
        · have hscan : handleScan line (w' :: rest) =
              ((handleScan line rest).1,
                (handleScan line rest).2 ++ [.resolved w'.id line]) := by
            simp [handleScan, hm']
          rw [hscan]
          refine ⟨?_, ihkept⟩
          rw [eventsFor_append, ihev]
          simp [eventsFor, WaiterEvent.evId, hne]
        · have hscan : handleScan line (w' :: rest) =
              (w' :: (handleScan line rest).1, (handleScan line rest).2) := by
            simp [handleScan, hm']
          rw [hscan]
          refine ⟨ihev, ?_⟩
          simp only [List.map_cons, List.mem_cons]
          rintro (h | h)
          · exact hne h.symm
          · exact ihkept h

/-- Waiter ids determine waiters in a list with distinct ids. -/
theorem waiter_id_unique (ws : List Waiter)
    (hnd : (ws.map (fun x => x.id)).Nodup) (w w' : Waiter)
    (hw : w ∈ ws) (hw' : w' ∈ ws) (he : w.id = w'.id) : w = w' :=
  List.inj_on_of_nodup_map hnd hw hw' he

/-- A present but non-matching waiter generates no scan event for its id,
provided ids are distinct. -/
theorem handleScan_no_event_of_nomatch (line : String) (ws : List Waiter)
    (w : Waiter) (hnd : (ws.map (fun x => x.id)).Nodup) (hw : w ∈ ws)
    (hm : waiterMatches w line = false) :
    eventsFor w.id (handleScan line ws).2 = [] := by
  rw [eventsFor, List.filter_eq_nil_iff]
  intro ev hev
  obtain ⟨w', hw', hm', he⟩ := handleScan_events_ids line ws ev hev
  subst he
  simp only [WaiterEvent.evId, decide_eq_true_eq]
  intro hid
  have hww : w' = w := waiter_id_unique ws hnd w' w hw' hw hid
  rw [hww, hm] at hm'
  exact absurd hm' (by decide)

/-- One neutral step keeps the waiter pending, emits nothing for its id,
preserves well-formedness, and never shrinks the id supply. -/
theorem engStep_neutral (s : EngineState) (w : Waiter) (a : EngAction)
    (hwf : s.wf) (hw : w ∈ s.waiters) (ha : neutralFor w a) :
    w ∈ (engStep s a).1.waiters ∧ eventsFor w.id (engStep s a).2 = [] ∧
      (engStep s a).1.wf ∧ s.nextId ≤ (engStep s a).1.nextId := by
  obtain ⟨hnd, hb⟩ := hwf
  cases a with
  | line l =>
      by_cases hl : l = ""
      · subst hl
        exact ⟨hw, rfl, ⟨hnd, hb⟩, le_refl _⟩
      · have hm : waiterMatches w l = false := by
          rcases ha with h | h
          · exact absurd h hl
          · exact h
        have hmsg : engStep s (.line l)
            = ({ s with waiters := (handleScan l s.waiters).1 },
                (handleScan l s.waiters).2) := by
          show handleMessage s l = _
          rw [handleMessage, if_neg hl]
        rw [hmsg]
        refine ⟨handleScan_keeps l w s.waiters hw hm,
          handleScan_no_event_of_nomatch l s.waiters w hnd hw hm,
          ⟨?_, ?_⟩, le_refl _⟩
        · show ((handleScan l s.waiters).1.map (fun x => x.id)).Nodup
          exact List.Nodup.sublist
            ((handleScan_kept_sublist l s.waiters).map (fun x => x.id)) hnd
        · show ∀ x ∈ (handleScan l s.waiters).1, x.id < s.nextId
          exact fun x hx =>
            hb x ((handleScan_kept_sublist l s.waiters).subset hx)
  | fire j =>
      have hj : j ≠ w.id := ha
      by_cases hany : (s.waiters.any fun x => x.id = j) = true
      · have hstep : engStep s (.fire j)
            = ({ s with waiters := s.waiters.filter (fun x => x.id ≠ j) },
                [.rejectedTimeout j]) := by
          show fireTimeout s j = _
          rw [fireTimeout, if_pos hany]
        rw [hstep]
        refine ⟨?_, ?_, ⟨?_, ?_⟩, ?_⟩
        · show w ∈ s.waiters.filter (fun x => x.id ≠ j)
          exact List.mem_filter.mpr ⟨hw, decide_eq_true (fun he => hj he.symm)⟩
        · show eventsFor w.id [.rejectedTimeout j] = []
          simp [eventsFor, WaiterEvent.evId, hj]
        · show ((s.waiters.filter (fun x => x.id ≠ j)).map
            (fun x => x.id)).Nodup
          exact List.Nodup.sublist
            ((List.filter_sublist s.waiters).map (fun x => x.id)) hnd
        · show ∀ x ∈ s.waiters.filter (fun x => x.id ≠ j), x.id < s.nextId
          exact fun x hx => hb x (List.mem_of_mem_filter hx)
        · exact le_refl _
      · have hstep : engStep s (.fire j) = (s, []) := by
          show fireTimeout s j = _
          rw [fireTimeout, if_neg hany]
        rw [hstep]
        exact ⟨hw, rfl, ⟨hnd, hb⟩, le_refl _⟩
  | register p =>
      refine ⟨List.mem_append_left _ hw, rfl, ⟨?_, ?_⟩, Nat.le_succ _⟩
      · show ((s.waiters ++ ([⟨s.nextId, p⟩] : List Waiter)).map
          (fun x => x.id)).Nodup
        rw [List.map_append]
        refine List.Nodup.append hnd (by simp) ?_
        intro x hx hx'
        simp at hx'
        subst hx'
        obtain ⟨y, hy, hyid⟩ := List.mem_map.mp hx
        exact absurd (hyid ▸ hb y hy) (lt_irrefl _)
      · show ∀ x ∈ s.waiters ++ ([⟨s.nextId, p⟩] : List Waiter),
          x.id < s.nextId + 1
        intro x hx
        rcases List.mem_append.mp hx with h1 | h2
        · exact Nat.lt_succ_of_lt (hb x h1)
        · simp at h2
          subst h2
          exact Nat.lt_succ_self _

/-- Neutral runs keep the waiter pending and silent. -/
theorem engRun_neutral (w : Waiter) :
    ∀ (acts : List EngAction) (s : EngineState), s.wf → w ∈ s.waiters →
      (∀ a ∈ acts, neutralFor w a) →
      w ∈ (engRun s acts).1.waiters ∧
        eventsFor w.id (engRun s acts).2 = [] ∧
        (engRun s acts).1.wf ∧ s.nextId ≤ (engRun s acts).1.nextId := by
  intro acts
  induction acts with
  | nil =>
      intro s hwf hw _
      exact ⟨hw, rfl, hwf, le_refl _⟩
  | cons a rest ih =>
      intro s hwf hw hacts
      obtain ⟨hw1, hev1, hwf1, hle1⟩ :=
        engStep_neutral s w a hwf hw (hacts a (List.mem_cons_self a rest))
      obtain ⟨hw2, hev2, hwf2, hle2⟩ :=
        ih (engStep s a).1 hwf1 hw1
          (fun b hb => hacts b (List.mem_cons_of_mem a hb))
      refine ⟨hw2, ?_, hwf2, le_trans hle1 hle2⟩
      show eventsFor w.id
        ((engStep s a).2 ++ (engRun (engStep s a).1 rest).2) = []
      rw [eventsFor_append, hev1, hev2]
      rfl

/-- Once an id below the supply is absent from the waiter list, it never
reappears and no run ever emits an event for it. -/
theorem engRun_absent (id : Nat) :
    ∀ (acts : List EngAction) (s : EngineState), s.wf →
      id ∉ s.waiters.map (fun x => x.id) → id < s.nextId →
      eventsFor id (engRun s acts).2 = [] ∧
        id ∉ (engRun s acts).1.waiters.map (fun x => x.id) ∧
        (engRun s acts).1.wf ∧ id < (engRun s acts).1.nextId := by
  intro acts
  induction acts with
  | nil =>
      intro s hwf habs hlt
      exact ⟨rfl, habs, hwf, hlt⟩
  | cons a rest ih =>
      intro s hwf habs hlt
      obtain ⟨hnd, hb⟩ := hwf
      have hstep : eventsFor id (engStep s a).2 = [] ∧
          id ∉ (engStep s a).1.waiters.map (fun x => x.id) ∧
          (engStep s a).1.wf ∧ id < (engStep s a).1.nextId := by
        cases a with
        | line l =>
            by_cases hl : l = ""
            · subst hl
              exact ⟨rfl, habs, ⟨hnd, hb⟩, hlt⟩
            · have hmsg : engStep s (.line l)
                  = ({ s with waiters := (handleScan l s.waiters).1 },
                      (handleScan l s.waiters).2) := by
                show handleMessage s l = _
                rw [handleMessage, if_neg hl]
              rw [hmsg]
              refine ⟨handleScan_no_event l s.waiters id habs, ?_,
                ⟨?_, ?_⟩, hlt⟩
              · show id ∉ (handleScan l s.waiters).1.map (fun x => x.id)
                intro hmem
                exact habs (((handleScan_kept_sublist l s.waiters).map
                  (fun x => x.id)).subset hmem)
              · show ((handleScan l s.waiters).1.map (fun x => x.id)).Nodup
                exact List.Nodup.sublist
                  ((handleScan_kept_sublist l s.waiters).map (fun x => x.id)) hnd
              · show ∀ x ∈ (handleScan l s.waiters).1, x.id < s.nextId
                exact fun x hx =>
                  hb x ((handleScan_kept_sublist l s.waiters).subset hx)
        | fire j =>
            by_cases hany : (s.waiters.any fun x => x.id = j) = true
            · have hj : ¬(j = id) := by
                intro he
                subst he
                obtain ⟨x, hx, hxid⟩ := List.any_eq_true.mp hany
                exact habs (of_decide_eq_true hxid ▸
                  List.mem_map_of_mem (fun x => x.id) hx)
              have hfire : engStep s (.fire j)
                  = ({ s with waiters := s.waiters.filter (fun x => x.id ≠ j) },
                      [.rejectedTimeout j]) := by
                show fireTimeout s j = _
                rw [fireTimeout, if_pos hany]
              rw [hfire]
              refine ⟨?_, ?_, ⟨?_, ?_⟩, hlt⟩
              · show eventsFor id [.rejectedTimeout j] = []
                simp [eventsFor, WaiterEvent.evId, hj]
              · show id ∉ (s.waiters.filter (fun x => x.id ≠ j)).map
                  (fun x => x.id)
                intro hmem
                exact habs
                  (((List.filter_sublist s.waiters).map (fun x => x.id)).subset hmem)
              · show ((s.waiters.filter (fun x => x.id ≠ j)).map
                  (fun x => x.id)).Nodup
                exact List.Nodup.sublist
                  ((List.filter_sublist s.waiters).map (fun x => x.id)) hnd
              · show ∀ x ∈ s.waiters.filter (fun x => x.id ≠ j),
                  x.id < s.nextId
                exact fun x hx => hb x (List.mem_of_mem_filter hx)
            · have hfire : engStep s (.fire j) = (s, []) := by
                show fireTimeout s j = _
                rw [fireTimeout, if_neg hany]
              rw [hfire]
              exact ⟨rfl, habs, ⟨hnd, hb⟩, hlt⟩
        | register p =>
            refine ⟨rfl, ?_, ⟨?_, ?_⟩, Nat.lt_succ_of_lt hlt⟩
            · show id ∉ (s.waiters ++ ([⟨s.nextId, p⟩] : List Waiter)).map
                (fun x => x.id)
              rw [List.map_append]
              intro hmem
              rcases List.mem_append.mp hmem with h1 | h2
              · exact habs h1
              · simp at h2
                exact absurd h2 (Nat.ne_of_lt hlt)
            · show ((s.waiters ++ ([⟨s.nextId, p⟩] : List Waiter)).map
                (fun x => x.id)).Nodup
              rw [List.map_append]
              refine List.Nodup.append hnd (by simp) ?_
              intro x hx hx'
              simp at hx'
              subst hx'
              obtain ⟨y, hy, hyid⟩ := List.mem_map.mp hx
              exact absurd (hyid ▸ hb y hy) (lt_irrefl _)
            · show ∀ x ∈ s.waiters ++ ([⟨s.nextId, p⟩] : List Waiter),
                x.id < s.nextId + 1
              intro x hx
              rcases List.mem_append.mp hx with h1 | h2
              · exact Nat.lt_succ_of_lt (hb x h1)
              · simp at h2
                subst h2
                exact Nat.lt_succ_self _
      obtain ⟨he1, ha1, hwf1, hlt1⟩ := hstep
      obtain ⟨he2, ha2, hwf2, hlt2⟩ := ih (engStep s a).1 hwf1 ha1 hlt1
      refine ⟨?_, ha2, hwf2, hlt2⟩
      show eventsFor id
        ((engStep s a).2 ++ (engRun (engStep s a).1 rest).2) = []
      rw [eventsFor_append, he1, he2]
      rfl

/-- Splitting a run over concatenated action lists: final state. -/
theorem engRun_append_fst (a b : List EngAction) :
    ∀ s : EngineState,
      (engRun s (a ++ b)).1 = (engRun (engRun s a).1 b).1 := by
  induction a with
  | nil => intro s; rfl
  | cons x xs ih =>
      intro s
      show (engRun (engStep s x).1 (xs ++ b)).1 = _
      rw [ih (engStep s x).1]
      rfl

/-- Splitting a run over concatenated action lists: event log. -/
theorem engRun_append_snd (a b : List EngAction) :
    ∀ s : EngineState,
      (engRun s (a ++ b)).2
        = (engRun s a).2 ++ (engRun (engRun s a).1 b).2 := by
  induction a with
  | nil => intro s; rfl
  | cons x xs ih =>
      intro s
      show (engStep s x).2 ++ (engRun (engStep s x).1 (xs ++ b)).2
          = ((engStep s x).2 ++ (engRun (engStep s x).1 xs).2)
            ++ (engRun (engRun (engStep s x).1 xs).1 b).2
      rw [ih (engStep s x).1, List.append_assoc]

/-- `waitFor` registration preserves well-formedness and installs the
fresh waiter. -/
theorem registerWaiter_wf (s : EngineState) (p : String → Except Unit Bool)
    (hwf : s.wf) :
    (registerWaiter s p).1.wf ∧
      (⟨s.nextId, p⟩ : Waiter) ∈ (registerWaiter s p).1.waiters := by
  obtain ⟨hnd, hb⟩ := hwf
  refine ⟨⟨?_, ?_⟩, by simp [registerWaiter]⟩
  · show ((s.waiters ++ ([⟨s.nextId, p⟩] : List Waiter)).map
      (fun x => x.id)).Nodup
    rw [List.map_append]
    refine List.Nodup.append hnd (by simp) ?_
    intro x hx hx'
    simp at hx'
    subst hx'
    obtain ⟨y, hy, hyid⟩ := List.mem_map.mp hx
    exact absurd (hyid ▸ hb y hy) (lt_irrefl _)
  · show ∀ x ∈ s.waiters ++ ([⟨s.nextId, p⟩] : List Waiter),
      x.id < s.nextId + 1
    intro x hx
    rcases List.mem_append.mp hx with h1 | h2
    · exact Nat.lt_succ_of_lt (hb x h1)
    · simp at h2
      subst h2
      exact Nat.lt_succ_self _

/-- From a well-formed state containing the waiter, a matching nonempty
line resolves it exactly once; the rest of the run is silent for it. -/
theorem engRun_line_resolves (w : Waiter) (l : String) (post : List EngAction)
    (s : EngineState) (hwf : s.wf) (hw : w ∈ s.waiters) (hl : l ≠ "")
    (hm : waiterMatches w l = true) :
    eventsFor w.id (engRun s (.line l :: post)).2 = [.resolved w.id l] := by
  have hmsg : engStep s (.line l)
      = ({ s with waiters := (handleScan l s.waiters).1 },
          (handleScan l s.waiters).2) := by
    show handleMessage s l = _
    rw [handleMessage, if_neg hl]
  obtain ⟨hres, hgone⟩ := handleScan_resolves l w s.waiters hw hm hwf.1
  have hwf' : EngineState.wf { s with waiters := (handleScan l s.waiters).1 } :=
    ⟨List.Nodup.sublist ((handleScan_kept_sublist l s.waiters).map
        (fun x => x.id)) hwf.1,
      fun x hx => hwf.2 x ((handleScan_kept_sublist l s.waiters).subset hx)⟩
  have habs := engRun_absent w.id post
    { s with waiters := (handleScan l s.waiters).1 } hwf' hgone (hwf.2 w hw)
  show eventsFor w.id ((engStep s (.line l)).2
      ++ (engRun (engStep s (.line l)).1 post).2) = [.resolved w.id l]
  rw [hmsg]
  dsimp only
  rw [eventsFor_append, hres, habs.1]
  rfl

/-- From a well-formed state containing the waiter, its timer expiry
rejects it exactly once, removes it, and it never reappears. -/
theorem engRun_fire_rejects (w : Waiter) (post : List EngAction)
    (s : EngineState) (hwf : s.wf) (hw : w ∈ s.waiters) :
    eventsFor w.id (engRun s (.fire w.id :: post)).2
        = [.rejectedTimeout w.id] ∧
      w.id ∉ (engRun s (.fire w.id :: post)).1.waiters.map (fun x => x.id) := by
  have hany : (s.waiters.any fun x => x.id = w.id) = true :=
    List.any_eq_true.mpr ⟨w, hw, decide_eq_true rfl⟩
  have hfire : engStep s (.fire w.id)
      = ({ s with waiters := s.waiters.filter (fun x => x.id ≠ w.id) },
          [.rejectedTimeout w.id]) := by
    show fireTimeout s w.id = _
    rw [fireTimeout, if_pos hany]
  have hgone : w.id ∉ (s.waiters.filter
      (fun x => x.id ≠ w.id)).map (fun x => x.id) := by
    intro hmem
    obtain ⟨y, hy, hyid⟩ := List.mem_map.mp hmem
    have hy' := List.of_mem_filter hy
    exact absurd hyid (of_decide_eq_true hy')
  have hwf' : EngineState.wf
      { s with waiters := s.waiters.filter (fun x => x.id ≠ w.id) } :=
    ⟨List.Nodup.sublist ((List.filter_sublist s.waiters).map (fun x => x.id)) hwf.1,
      fun x hx => hwf.2 x (List.mem_of_mem_filter hx)⟩
  have habs := engRun_absent w.id post
    { s with waiters := s.waiters.filter (fun x => x.id ≠ w.id) }
    hwf' hgone (hwf.2 w hw)
  constructor
  · show eventsFor w.id ((engStep s (.fire w.id)).2
        ++ (engRun (engStep s (.fire w.id)).1 post).2) = _
    rw [hfire]
    dsimp only
    rw [eventsFor_append, habs.1]
    simp [eventsFor, WaiterEvent.evId]
  · show w.id ∉
      (engRun (engStep s (.fire w.id)).1 post).1.waiters.map (fun x => x.id)
    rw [hfire]
    exact habs.2.1

set_option maxHeartbeats 1000000 in
/-- **C7.** `waitFor` semantics (lines 393-407 with `handleMessage`
365-391): after a `waitFor` registration, along any run whose earlier
actions neither match the waiter's predicate (or are empty lines, which
`handleMessage` drops) nor expire its timer, (a) the first matching
nonempty line settles the waiter exactly once, resolving it with that
line, and (b) if instead its timer fires first, the waiter is rejected
with the timeout error exactly once and is removed from the waiter list,
never to settle again. -/
theorem waitFor_semantics (s0 : EngineState) (pred : String → Except Unit Bool)
    (pre post : List EngAction) (l : String)
    (hwf : s0.wf) (hpre : ∀ a ∈ pre, neutralFor ⟨s0.nextId, pred⟩ a)
    (hl : l ≠ "") (hm : waiterMatches ⟨s0.nextId, pred⟩ l = true) :
    eventsFor s0.nextId
        (engRun (registerWaiter s0 pred).1 (pre ++ .line l :: post)).2
      = [.resolved s0.nextId l] ∧
    eventsFor s0.nextId
        (engRun (registerWaiter s0 pred).1 (pre ++ .fire s0.nextId :: post)).2
      = [.rejectedTimeout s0.nextId] ∧
    s0.nextId ∉ ((engRun (registerWaiter s0 pred).1
        (pre ++ .fire s0.nextId :: post)).1.waiters.map (fun x => x.id)) := by
  obtain ⟨hwf1, hmem1⟩ := registerWaiter_wf s0 pred hwf
  obtain ⟨hw2, hev2, hwf2, hle2⟩ :=
    engRun_neutral ⟨s0.nextId, pred⟩ pre (registerWaiter s0 pred).1
      hwf1 hmem1 hpre
  have hev2' : eventsFor s0.nextId
      (engRun (registerWaiter s0 pred).1 pre).2 = [] := hev2
  refine ⟨?_, ?_, ?_⟩
  · rw [engRun_append_snd, eventsFor_append, hev2', List.nil_append]
    exact engRun_line_resolves ⟨s0.nextId, pred⟩ l post _ hwf2 hw2 hl hm
  · rw [engRun_append_snd, eventsFor_append, hev2', List.nil_append]
    exact (engRun_fire_rejects ⟨s0.nextId, pred⟩ post _ hwf2 hw2).1
  · rw [engRun_append_fst]
    exact (engRun_fire_rejects ⟨s0.nextId, pred⟩ post _ hwf2 hw2).2

/-- **C7 witness.** A concrete session: a registered `readyok` waiter
ignores an `info` line, resolves on the first `readyok`, and on a timer
expiry instead is rejected and removed for good. -/
theorem waitFor_semantics_witness :
    eventsFor 0 (engRun (registerWaiter ⟨[], 0⟩
        (fun s => .ok (decide (s = "readyok")))).1
        ([.line "info"] ++ .line "readyok" :: [.line "readyok"])).2
      = [.resolved 0 "readyok"] ∧
    eventsFor 0 (engRun (registerWaiter ⟨[], 0⟩
        (fun s => .ok (decide (s = "readyok")))).1
        ([.line "info"] ++ .fire 0 :: [.line "readyok"])).2
      = [.rejectedTimeout 0] ∧
    0 ∉ ((engRun (registerWaiter ⟨[], 0⟩
        (fun s => .ok (decide (s = "readyok")))).1
        ([.line "info"] ++ .fire 0 :: [.line "readyok"])).1.waiters.map
          (fun x => x.id)) :=
  waitFor_semantics ⟨[], 0⟩ (fun s => .ok (decide (s = "readyok")))
    [.line "info"] [.line "readyok"] "readyok"
    ⟨by simp, by simp⟩
    (by
      intro a ha
      rw [List.mem_singleton] at ha
      subst ha
      exact Or.inr rfl)
    (by decide) rfl



set_option maxHeartbeats 1000000 in
/-- **C8.** Adapter search-timeout cleanup (lines 774-796): when the
`bestmove` wait times out (and the session reached the search, i.e. the
two unprotected readiness waits succeeded), `analyzeWithStockfish` still
sends `stop`, removes the passive info listener, and sends a final
`isready` whose outcome — confirmed or itself timed out, the `try/catch`
of lines 785-789 swallowing the failure — is awaited before the function
returns null. -/
theorem analyzeWithStockfish_timeout_cleanup {G : Type} (ops : GameOps G)
    (oracle : Nat → Except Unit String) (g : G)
    (hmv : ops.movesVerbose g ≠ [])
    (h1 : ∃ v, oracle 1 = .ok v) (h2 : ∃ v, oracle 2 = .ok v)
    (h3 : oracle 3 = .error ()) :
    analyzeWithStockfish ops oracle g =
      (.ok none,
        { cmds := ["setoption name MultiPV value " ++
              toString (min 5 (max 1 (ops.movesVerbose g).length)),
            "isready", "isready", "ucinewgame", "isready",
            "position fen " ++ ops.fen g,
            "go depth " ++
              toString (min 18 (12 + (ops.historyVerbose g).length / 6)),
            "stop", "isready"],
          listenerAdded := true, listenerRemoved := true, waits := 5,
          postStopReadyOk := some (oracle 4).isOk }) := by
  obtain ⟨v1, e1⟩ := h1
  obtain ⟨v2, e2⟩ := h2
  have hmv' : (ops.movesVerbose g).isEmpty = false := by
    cases hl : ops.movesVerbose g with
    | nil => exact absurd hl hmv
    | cons a t => rfl
  cases hc0 : oracle 0 <;> cases hc4 : oracle 4 <;>
    simp [analyzeWithStockfish, sfIsReady, Except.isOk, Except.toBool,
      hmv', e1, e2, h3, hc0, hc4]

/-- **C8 witness.** A concrete run on the toy position: every wait
resolves with `readyok` except the third (`bestmove`), which times out;
the adapter finishes the full cleanup sequence and returns null with the
post-stop readiness confirmed. -/
theorem analyzeWithStockfish_timeout_cleanup_witness :
    analyzeWithStockfish toyOps
        (fun k => if k = 3 then .error () else .ok "readyok") [0] =
      (.ok none,
        { cmds := ["setoption name MultiPV value 3",
            "isready", "isready", "ucinewgame", "isready",
            "position fen f0", "go depth 12", "stop", "isready"],
          listenerAdded := true, listenerRemoved := true, waits := 5,
          postStopReadyOk := some true }) :=
  analyzeWithStockfish_timeout_cleanup toyOps
    (fun k => if k = 3 then .error () else .ok "readyok") [0]
    (List.cons_ne_nil _ _) ⟨"readyok", rfl⟩ ⟨"readyok", rfl⟩ rfl

/-- **C8 counterexample.** When the post-stop `isready` wait also times
out, the adapter still returns null (the failure is swallowed at lines
785-789), so readiness is attempted but NOT re-confirmed before the null
return: the claim's "re-confirms engine readiness before returning null"
does not hold on this run. -/
theorem analyzeWithStockfish_unconfirmed_cex :
    (analyzeWithStockfish toyOps
        (fun k => if k = 3 ∨ k = 4 then .error () else .ok "readyok")
        [0]).1 = .ok none ∧
    (analyzeWithStockfish toyOps
        (fun k => if k = 3 ∨ k = 4 then .error () else .ok "readyok")
        [0]).2.postStopReadyOk = some false :=
  ⟨rfl, rfl⟩



/-- Triangle inequality for a mapped list sum with a uniform bound. -/
theorem ratAbsSumLe {α : Type} (f : α → Rat) (c : Rat) :
    ∀ l : List α, (∀ x ∈ l, |f x| ≤ c) →
      |(l.map f).sum| ≤ (l.length : Rat) * c := by
  intro l
  induction l with
  | nil => intro _; simp
  | cons a t ih =>
      intro h
      have h1 := h a (List.mem_cons_self a t)
      have h2 := ih (fun x hx => h x (List.mem_cons_of_mem a hx))
      have h3 : |f a + (t.map f).sum| ≤ |f a| + |(t.map f).sum| := abs_add _ _
      have h4 : ((a :: t).length : Rat) = (t.length : Rat) + 1 := by
        push_cast [List.length_cons]
        ring
      calc |((a :: t).map f).sum| = |f a + (t.map f).sum| := rfl
        _ ≤ |f a| + |(t.map f).sum| := h3
        _ ≤ c + (t.length : Rat) * c := add_le_add h1 h2
        _ = ((t.length : Rat) + 1) * c := by ring
        _ = ((a :: t).length : Rat) * c := by rw [h4]

/-- `getD _ 0` respects a uniform absolute bound on the list entries. -/
theorem listGetDAbsLe (c : Rat) (hc : 0 ≤ c) :
    ∀ l : List Rat, (∀ x ∈ l, |x| ≤ c) → ∀ n, |l.getD n 0| ≤ c := by
  intro l
  induction l with
  | nil =>
      intro _ n
      cases n <;> simpa using hc
  | cons a t ih =>
      intro h n
      cases n with
      | zero => exact h a (List.mem_cons_self a t)
      | succ m => exact ih (fun x hx => h x (List.mem_cons_of_mem a hx)) m

unseal Rat.add Rat.mul Rat.sub Rat.inv Rat.ofScientific in
/-- All piece-square-table entries have magnitude at most 1/2. -/
theorem tables_abs_le :
    (∀ x ∈ pawnTable, |x| ≤ 0.5) ∧ (∀ x ∈ knightTable, |x| ≤ 0.5) ∧
    (∀ x ∈ bishopTable, |x| ≤ 0.5) ∧ (∀ x ∈ rookTable, |x| ≤ 0.5) ∧
    (∀ x ∈ queenTable, |x| ≤ 0.5) ∧ (∀ x ∈ kingMidTable, |x| ≤ 0.5) ∧
    (∀ x ∈ kingEndTable, |x| ≤ 0.5) := by
  refine ⟨?_, ?_, ?_, ?_, ?_, ?_, ?_⟩ <;> decide

/-- The king-phase blend weight lies in `[0, 1]`. -/
theorem kingPhaseWeight_bounds (b : Board) :
    0 ≤ kingPhaseWeight b ∧ kingPhaseWeight b ≤ 1 := by
  constructor
  · refine le_min (by norm_num) ?_
    positivity
  · exact min_le_left _ _

set_option maxHeartbeats 1000000 in
/-- Piece-square placement values have magnitude at most 1/2 for any
phase weight in `[0, 1]`. -/
theorem pieceSquareValue_abs_le (pc : Piece) (r c : Fin 8) (w : Rat)
    (hw0 : 0 ≤ w) (hw1 : w ≤ 1) :
    |pieceSquareValue pc r c w| ≤ 0.5 := by
  obtain ⟨hp, hn, hb, hr, hq, hkm, hke⟩ := tables_abs_le
  have h3 : (0 : Rat) ≤ 1 - w := by linarith
  have hblend : ∀ i : Nat,
      |kingMidTable.getD i 0 * w + kingEndTable.getD i 0 * (1 - w)| ≤ 0.5 := by
    intro i
    have hmid := listGetDAbsLe 0.5 (by norm_num) kingMidTable hkm i
    have hend := listGetDAbsLe 0.5 (by norm_num) kingEndTable hke i
    calc |kingMidTable.getD i 0 * w + kingEndTable.getD i 0 * (1 - w)|
        ≤ |kingMidTable.getD i 0 * w| + |kingEndTable.getD i 0 * (1 - w)| :=
          abs_add _ _
      _ = |kingMidTable.getD i 0| * w + |kingEndTable.getD i 0| * (1 - w) := by
          rw [abs_mul, abs_mul, abs_of_nonneg hw0,
            abs_of_nonneg (show (0 : Rat) ≤ 1 - w from h3)]
      _ ≤ 0.5 * w + 0.5 * (1 - w) :=
          add_le_add (mul_le_mul_of_nonneg_right hmid hw0)
            (mul_le_mul_of_nonneg_right hend h3)
      _ = 0.5 := by ring
  rw [pieceSquareValue]
  dsimp only
  by_cases hk : pc.ptype = .k
  · rw [if_pos hk]
    exact hblend _
  · rw [if_neg hk]
    cases ht : pieceSquareTableFor pc.ptype with
    | none =>
        simp only [abs_zero]
        norm_num
    | some table =>
        have htb : ∀ x ∈ table, |x| ≤ 0.5 := by
          cases pc with
          | mk ptype color =>
              cases ptype <;> simp only [pieceSquareTableFor] at ht <;>
                first
                  | exact Option.noConfusion ht
                  | (injection ht with ht
                     subst ht
                     assumption)
        split_ifs with hcol
        · exact listGetDAbsLe 0.5 (by norm_num) table htb _
        · exact listGetDAbsLe 0.5 (by norm_num) table htb _


/-- The row-major square list has 64 entries. -/
theorem squaresRM_length : squaresRM.length = 64 := by decide

/-- Center-control bound: at most 0.08 per square. -/
theorem centerTerm_abs_le (b : Board) : |centerTerm b| ≤ 5.12 := by
  refine le_trans (ratAbsSumLe _ 0.08 squaresRM ?_) ?_
  · intro rc _
    dsimp only
    cases hb2 : b rc.1 rc.2 with
    | none =>
        rw [abs_le]
        constructor <;> norm_num
    | some pc =>
        dsimp only
        split_ifs <;> (rw [abs_le]; constructor <;> norm_num)
  · rw [squaresRM_length]
    norm_num

set_option maxHeartbeats 1000000 in
/-- Material + placement bound: at most 10 per square. -/
theorem materialTerm_abs_le (b : Board) : |materialTerm b| ≤ 640 := by
  rw [materialTerm]
  refine le_trans (ratAbsSumLe _ 10 squaresRM ?_) ?_
  · intro rc _
    dsimp only
    obtain ⟨hw0, hw1⟩ := kingPhaseWeight_bounds b
    cases hb2 : b rc.1 rc.2 with
    | none =>
        rw [abs_le]
        constructor <;> norm_num
    | some pc =>
        dsimp only
        have hpsv := pieceSquareValue_abs_le pc rc.1 rc.2 _ hw0 hw1
        have hval : |pieceValues pc.ptype| ≤ 9.5 := by
          rcases pc with ⟨pt, col⟩
          cases pt <;> (rw [abs_le]; constructor <;> norm_num [pieceValues])
        have habs : |pieceValues pc.ptype + pieceSquareValue pc rc.1 rc.2
            (kingPhaseWeight b)| ≤ 10 :=
          le_trans (abs_add _ _) (by linarith)
        split_ifs with hcol
        · exact habs
        · rw [abs_neg]
          exact habs
  · rw [squaresRM_length]
    norm_num

/-- Bishop-pair bound. -/
theorem bishopPairTerm_abs_le (b : Board) : |bishopPairTerm b| ≤ 0.7 := by
  rw [bishopPairTerm]
  split_ifs <;> (rw [abs_le]; constructor <;> norm_num)

/-- Per-rook bonus bound. -/
theorem rookBonusAt_abs_le (b : Board) (c : Color) (rc : Fin 8 × Fin 8) :
    |rookBonusAt b c rc| ≤ 0.338 := by
  rw [rookBonusAt]
  split_ifs <;> (rw [abs_le]; constructor <;> norm_num)

/-- Rook-activity bound: at most 0.338 per square. -/
theorem rookTerm_abs_le (b : Board) : |rookTerm b| ≤ 21.632 := by
  rw [rookTerm]
  refine le_trans (ratAbsSumLe _ 0.338 squaresRM ?_) ?_
  · intro rc _
    dsimp only
    cases hb2 : b rc.1 rc.2 with
    | none =>
        rw [abs_le]
        constructor <;> norm_num
    | some pc =>
        rcases pc with ⟨pt, col⟩
        cases pt <;> cases col <;> dsimp only
        · rw [abs_le]; constructor <;> norm_num
        · rw [abs_le]; constructor <;> norm_num
        · rw [abs_le]; constructor <;> norm_num
        · rw [abs_le]; constructor <;> norm_num
        · rw [abs_le]; constructor <;> norm_num
        · rw [abs_le]; constructor <;> norm_num
        · exact rookBonusAt_abs_le _ _ _
        · rw [abs_neg]
          exact rookBonusAt_abs_le _ _ _
        · rw [abs_le]; constructor <;> norm_num
        · rw [abs_le]; constructor <;> norm_num
        · rw [abs_le]; constructor <;> norm_num
        · rw [abs_le]; constructor <;> norm_num
  · rw [squaresRM_length]
    norm_num



/-- At most 8 pawns of a color on a file. -/
theorem fileCount_le (b : Board) (c : Color) (f : Fin 8) :
    fileCount b c f ≤ 8 := by
  rw [fileCount]
  simpa using List.length_filter_le _ (List.finRange 8)

/-- Doubled/isolated penalties: at most 0.94 per file. -/
theorem doubledIsoFor_abs_le (b : Board) (c : Color) :
    |doubledIsoFor b c| ≤ 7.52 := by
  rw [doubledIsoFor]
  refine le_trans (ratAbsSumLe _ 0.94 (List.finRange 8) ?_) ?_
  · intro f _
    dsimp only
    have hc8 : fileCount b c f ≤ 8 := fileCount_le b c f
    have h7 : ((fileCount b c f - 1 : Nat) : Rat) ≤ 7 := by
      exact_mod_cast (by omega : fileCount b c f - 1 ≤ 7)
    have h0 : (0 : Rat) ≤ ((fileCount b c f - 1 : Nat) : Rat) :=
      Nat.cast_nonneg _
    split_ifs <;> (rw [abs_le]; constructor <;> linarith)
  · norm_num

/-- Ranks recorded in the pawn list lie in `[1, 8]`. -/
theorem pawnsList_rank (b : Board) (c : Color) :
    ∀ pw ∈ pawnsList b c, 1 ≤ pw.2 ∧ pw.2 ≤ 8 := by
  intro pw hpw
  rw [pawnsList] at hpw
  obtain ⟨rc, _, heq⟩ := List.mem_map.mp hpw
  have h7 : rc.1.val ≤ 7 := Fin.is_le rc.1
  subst heq
  constructor <;> omega

/-- The pawn list has at most 64 entries. -/
theorem pawnsList_length_le (b : Board) (c : Color) :
    (pawnsList b c).length ≤ 64 := by
  rw [pawnsList, List.length_map]
  exact le_trans (List.length_filter_le _ squaresRM) (le_of_eq squaresRM_length)

/-- Passed-pawn bonus: at most 0.35 per listed pawn. -/
theorem passedFor_abs_le (b : Board) (c : Color) :
    |passedFor b c| ≤ 22.4 := by
  rw [passedFor]
  refine le_trans (ratAbsSumLe _ 0.35 (pawnsList b c) ?_) ?_
  · intro pw hpw
    obtain ⟨h1, h8⟩ := pawnsList_rank b c pw hpw
    dsimp only
    split_ifs with hblk
    · rw [abs_le]
      constructor <;> norm_num
    · cases c with
      | w =>
          have ha6 : (max 0 ((pw.2 : Int) - 2) : Int) ≤ 6 := by omega
          have ha0 : (0 : Int) ≤ (max 0 ((pw.2 : Int) - 2) : Int) := le_max_left 0 _
          have hr6 : ((max 0 ((pw.2 : Int) - 2) : Int) : Rat) ≤ 6 := by
            exact_mod_cast ha6
          have hr0 : (0 : Rat) ≤ ((max 0 ((pw.2 : Int) - 2) : Int) : Rat) := by
            exact_mod_cast ha0
          rw [abs_le]
          constructor <;> linarith
      | b =>
          have ha6 : (max 0 (7 - (pw.2 : Int)) : Int) ≤ 6 := by omega
          have ha0 : (0 : Int) ≤ (max 0 (7 - (pw.2 : Int)) : Int) := le_max_left 0 _
          have hr6 : ((max 0 (7 - (pw.2 : Int)) : Int) : Rat) ≤ 6 := by
            exact_mod_cast ha6
          have hr0 : (0 : Rat) ≤ ((max 0 (7 - (pw.2 : Int)) : Int) : Rat) := by
            exact_mod_cast ha0
          rw [abs_le]
          constructor <;> linarith
  · have hlen := pawnsList_length_le b c
    have : ((pawnsList b c).length : Rat) ≤ 64 := by exact_mod_cast hlen
    have h35 : (0 : Rat) ≤ 0.35 := by norm_num
    calc ((pawnsList b c).length : Rat) * 0.35 ≤ 64 * 0.35 :=
          mul_le_mul_of_nonneg_right this h35
      _ ≤ 22.4 := by norm_num

/-- Pawn-structure bound. -/
theorem pawnStructTerm_abs_le (b : Board) : |pawnStructTerm b| ≤ 59.84 := by
  have hdw := abs_le.mp (doubledIsoFor_abs_le b .w)
  have hdb := abs_le.mp (doubledIsoFor_abs_le b .b)
  have hpw := abs_le.mp (passedFor_abs_le b .w)
  have hpb := abs_le.mp (passedFor_abs_le b .b)
  rw [pawnStructTerm, abs_le]
  constructor <;> linarith [hdw.1, hdw.2, hdb.1, hdb.2, hpw.1, hpw.2,
    hpb.1, hpb.2]

/-- Sums of mapped naturals with a uniform entry bound. -/
theorem natSumMapLe {α : Type} (f : α → Nat) (k : Nat) :
    ∀ l : List α, (∀ x ∈ l, f x ≤ k) → (l.map f).sum ≤ l.length * k := by
  intro l
  induction l with
  | nil =>
      intro _
      simp
  | cons a t ih =>
      intro h
      have ht := ih (fun x hx => h x (List.mem_cons_of_mem a hx))
      have ha := h a (List.mem_cons_self a t)
      simp only [List.map_cons, List.sum_cons, List.length_cons]
      calc f a + (t.map f).sum ≤ k + t.length * k := Nat.add_le_add ha ht
        _ = (t.length + 1) * k := by ring

set_option maxHeartbeats 2000000 in
/-- A king's pawn-shield contribution is at most 0.21 in magnitude. -/
theorem kingShieldContribution_abs_le (b : Board) (c : Color)
    (ki : Option (Fin 8 × Fin 8)) :
    |kingShieldContribution b c ki| ≤ 0.21 := by
  cases ki with
  | none =>
      rw [kingShieldContribution, abs_le]
      constructor <;> norm_num
  | some rc =>
      simp only [kingShieldContribution]
      split_ifs with hrow
      · rw [abs_le]
        constructor <;> norm_num
      · rw [abs_mul]
        refine le_trans (mul_le_mul_of_nonneg_right
          (ratAbsSumLe _ 1 _ ?_) (abs_nonneg _)) ?_
        · intro o _
          dsimp only
          split_ifs with hcol
          · rw [abs_le]
            constructor <;> norm_num
          · split
            · split_ifs <;> (rw [abs_le]; constructor <;> norm_num)
            · rw [abs_le]
              constructor <;> norm_num
        · show ((3 : Nat) : Rat) * 1 * |(7e-2 : Rat)| ≤ 0.21
          rw [abs_of_nonneg (by norm_num : (0 : Rat) ≤ (7e-2 : Rat))]
          norm_num

/-- Shield differential bound. -/
theorem shieldTerm_abs_le (b : Board) : |shieldTerm b| ≤ 0.42 := by
  have hw := abs_le.mp (kingShieldContribution_abs_le b .w (kingInfo b .w))
  have hb := abs_le.mp (kingShieldContribution_abs_le b .b (kingInfo b .b))
  rw [shieldTerm, abs_le]
  constructor <;> linarith [hw.1, hw.2, hb.1, hb.2]

set_option maxHeartbeats 2000000 in
/-- A king's open-square penalty is at most 0.2 in magnitude. -/
theorem openKingPenalty_abs_le (b : Board) (ki : Option (Fin 8 × Fin 8)) :
    |openKingPenalty b ki| ≤ 0.2 := by
  cases ki with
  | none =>
      rw [openKingPenalty, abs_le]
      constructor <;> norm_num
  | some rc =>
      simp only [openKingPenalty]
      rw [abs_mul]
      refine le_trans (mul_le_mul_of_nonneg_right
        (ratAbsSumLe _ 1 _ ?_) (abs_nonneg _)) ?_
      · intro d _
        dsimp only
        split_ifs with hcol
        · rw [abs_le]
          constructor <;> norm_num
        · split
          · rw [abs_le]
            constructor <;> norm_num
          · rw [abs_le]
            constructor <;> norm_num
      · show ((4 : Nat) : Rat) * 1 * |(5e-2 : Rat)| ≤ 0.2
        rw [abs_of_nonneg (by norm_num : (0 : Rat) ≤ (5e-2 : Rat))]
        norm_num

/-- Open-king differential bound. -/
theorem openKingTerm_abs_le (b : Board) : |openKingTerm b| ≤ 0.4 := by
  have hw := abs_le.mp (openKingPenalty_abs_le b (kingInfo b .w))
  have hb := abs_le.mp (openKingPenalty_abs_le b (kingInfo b .b))
  rw [openKingTerm, abs_le]
  constructor <;> linarith [hw.1, hw.2, hb.1, hb.2]



/-- At most 64 minor pieces sit on home squares. -/
theorem minorsOnHome_le (b : Board) (c : Color) : minorsOnHome b c ≤ 64 := by
  rw [minorsOnHome]
  exact le_trans (List.length_filter_le _ squaresRM) (le_of_eq squaresRM_length)

/-- Opening-development penalty bound. -/
theorem openingTerm_abs_le (b : Board) (ctx : EvalContext) :
    |openingTerm b ctx| ≤ 23.296 := by
  rw [openingTerm]
  dsimp only
  split_ifs with hmc
  · have hw64 : ((minorsOnHome b .w : Nat) : Rat) ≤ 64 := by
      exact_mod_cast minorsOnHome_le b .w
    have hb64 : ((minorsOnHome b .b : Nat) : Rat) ≤ 64 := by
      exact_mod_cast minorsOnHome_le b .b
    have hw0 : (0 : Rat) ≤ ((minorsOnHome b .w : Nat) : Rat) := Nat.cast_nonneg _
    have hb0 : (0 : Rat) ≤ ((minorsOnHome b .b : Nat) : Rat) := Nat.cast_nonneg _
    have h18 : ((18 - ctx.moveCount : Nat) : Rat) ≤ 18 := by
      exact_mod_cast (by omega : 18 - ctx.moveCount ≤ 18)
    have h180 : (0 : Rat) ≤ ((18 - ctx.moveCount : Nat) : Rat) := Nat.cast_nonneg _
    have hbase0 : (0 : Rat) ≤
        0.11 + ((18 - ctx.moveCount : Nat) : Rat) * 0.004 := by linarith
    have hbase1 : 0.11 + ((18 - ctx.moveCount : Nat) : Rat) * 0.004 ≤ 0.182 := by
      linarith
    have hpw : ((minorsOnHome b .w : Nat) : Rat) *
        (0.11 + ((18 - ctx.moveCount : Nat) : Rat) * 0.004) ≤ 11.648 :=
      le_trans (mul_le_mul hw64 hbase1 hbase0 (by norm_num)) (by norm_num)
    have hpb : ((minorsOnHome b .b : Nat) : Rat) *
        (0.11 + ((18 - ctx.moveCount : Nat) : Rat) * 0.004) ≤ 11.648 :=
      le_trans (mul_le_mul hb64 hbase1 hbase0 (by norm_num)) (by norm_num)
    have hpw0 : (0 : Rat) ≤ ((minorsOnHome b .w : Nat) : Rat) *
        (0.11 + ((18 - ctx.moveCount : Nat) : Rat) * 0.004) :=
      mul_nonneg hw0 hbase0
    have hpb0 : (0 : Rat) ≤ ((minorsOnHome b .b : Nat) : Rat) *
        (0.11 + ((18 - ctx.moveCount : Nat) : Rat) * 0.004) :=
      mul_nonneg hb0 hbase0
    rw [abs_le]
    constructor <;> linarith
  · rw [abs_le]
    constructor <;> norm_num

/-- Repeated-flank-move penalty bound for histories with at most 20
repeats per side. -/
theorem flankTerm_abs_le (ctx : EvalContext)
    (hW : ctx.repeatedFlankW ≤ 20) (hB : ctx.repeatedFlankB ≤ 20) :
    |flankTerm ctx| ≤ 9.6 := by
  have hw : ((ctx.repeatedFlankW : Nat) : Rat) ≤ 20 := by exact_mod_cast hW
  have hb : ((ctx.repeatedFlankB : Nat) : Rat) ≤ 20 := by exact_mod_cast hB
  have hw0 : (0 : Rat) ≤ ((ctx.repeatedFlankW : Nat) : Rat) := Nat.cast_nonneg _
  have hb0 : (0 : Rat) ≤ ((ctx.repeatedFlankB : Nat) : Rat) := Nat.cast_nonneg _
  rw [flankTerm, abs_le]
  constructor <;> linarith

/-- The uncastled-king penalty expression lies in `[0, 0.472]`. -/
theorem ifPenBound (mc : Nat) (q : Prop) [inst : Decidable q]
    (h30 : q → mc < 30) :
    0 ≤ (if q then (0.2 : Rat) + ((mc - 12 : Nat) : Rat) * 0.016 else 0) ∧
      (if q then (0.2 : Rat) + ((mc - 12 : Nat) : Rat) * 0.016 else 0)
        ≤ 0.472 := by
  split_ifs with hq
  · have h1 : mc - 12 ≤ 17 := by
      have := h30 hq
      omega
    have h2 : ((mc - 12 : Nat) : Rat) ≤ 17 := by exact_mod_cast h1
    have h3 : (0 : Rat) ≤ ((mc - 12 : Nat) : Rat) := Nat.cast_nonneg _
    constructor <;> linarith
  · constructor <;> norm_num

/-- Castling bonus/penalty bound. -/
theorem castleTerm_abs_le (b : Board) (ctx : EvalContext) :
    |castleTerm b ctx| ≤ 1.044 := by
  obtain ⟨hw0, hw1⟩ := ifPenBound ctx.moveCount
    (¬ctx.castledW ∧ ctx.moveCount < 30 ∧
      ((kingInfo b .w).map (fun rc => squareName rc.1 rc.2) = some "e1" ∨
       (kingInfo b .w).map (fun rc => squareName rc.1 rc.2) = some "d1"))
    (fun h => h.2.1)
  obtain ⟨hb0, hb1⟩ := ifPenBound ctx.moveCount
    (¬ctx.castledB ∧ ctx.moveCount < 30 ∧
      ((kingInfo b .b).map (fun rc => squareName rc.1 rc.2) = some "e8" ∨
       (kingInfo b .b).map (fun rc => squareName rc.1 rc.2) = some "d8"))
    (fun h => h.2.1)
  have hc1 : (0 : Rat) ≤ (if ctx.castledW then (0.05 : Rat) else 0) ∧
      (if ctx.castledW then (0.05 : Rat) else 0) ≤ 0.05 := by
    split_ifs <;> constructor <;> norm_num
  have hc2 : (0 : Rat) ≤ (if ctx.castledB then (0.05 : Rat) else 0) ∧
      (if ctx.castledB then (0.05 : Rat) else 0) ≤ 0.05 := by
    split_ifs <;> constructor <;> norm_num
  rw [castleTerm]
  rw [abs_le]
  constructor <;>
    linarith [hw0, hw1, hb0, hb1, hc1.1, hc1.2, hc2.1, hc2.2]

/-- Mobility differential bound for positions with at most 218 legal
moves per side. -/
theorem mobilityTerm_abs_le {G : Type} (ops : GameOps G) (g : G)
    (hMW : mobilityCount ops (setFenTurn (ops.fen g) "w") ≤ 218)
    (hMB : mobilityCount ops (setFenTurn (ops.fen g) "b") ≤ 218) :
    |mobilityTerm ops g| ≤ 3.488 := by
  have hw : ((mobilityCount ops (setFenTurn (ops.fen g) "w") : Nat) : Rat)
      ≤ 218 := by exact_mod_cast hMW
  have hb : ((mobilityCount ops (setFenTurn (ops.fen g) "b") : Nat) : Rat)
      ≤ 218 := by exact_mod_cast hMB
  have hw0 : (0 : Rat) ≤
      ((mobilityCount ops (setFenTurn (ops.fen g) "w") : Nat) : Rat) :=
    Nat.cast_nonneg _
  have hb0 : (0 : Rat) ≤
      ((mobilityCount ops (setFenTurn (ops.fen g) "b") : Nat) : Rat) :=
    Nat.cast_nonneg _
  rw [mobilityTerm]
  dsimp only
  split_ifs with hseg
  · rw [abs_le]
    constructor <;> linarith
  · rw [abs_le]
    constructor <;> norm_num

/-- Tempo bonus bound. -/
theorem tempoTerm_abs_le {G : Type} (ops : GameOps G) (g : G) :
    |tempoTerm ops g| ≤ 0.015 := by
  rw [tempoTerm]
  split_ifs <;> (rw [abs_le]; constructor <;> norm_num)

set_option maxHeartbeats 1000000 in
/-- The static evaluation is bounded by 770 pawns in magnitude, for any
board, any context with at most 20 repeated flank moves per side, and any
position giving each side at most 218 forced-turn legal moves. -/
theorem evaluatePosition_abs_le {G : Type} (ops : GameOps G) (g : G)
    (ctx : EvalContext)
    (hFW : ctx.repeatedFlankW ≤ 20) (hFB : ctx.repeatedFlankB ≤ 20)
    (hMW : mobilityCount ops (setFenTurn (ops.fen g) "w") ≤ 218)
    (hMB : mobilityCount ops (setFenTurn (ops.fen g) "b") ≤ 218) :
    |evaluatePosition ops g (some ctx)| ≤ 770 := by
  have h1 := abs_le.mp (centerTerm_abs_le (ops.board g))
  have h2 := abs_le.mp (materialTerm_abs_le (ops.board g))
  have h3 := abs_le.mp (bishopPairTerm_abs_le (ops.board g))
  have h4 := abs_le.mp (rookTerm_abs_le (ops.board g))
  have h5 := abs_le.mp (pawnStructTerm_abs_le (ops.board g))
  have h6 := abs_le.mp (shieldTerm_abs_le (ops.board g))
  have h7 := abs_le.mp (openKingTerm_abs_le (ops.board g))
  have h8 := abs_le.mp (openingTerm_abs_le (ops.board g) ctx)
  have h9 := abs_le.mp (flankTerm_abs_le ctx hFW hFB)
  have h10 := abs_le.mp (castleTerm_abs_le (ops.board g) ctx)
  have h11 := abs_le.mp (mobilityTerm_abs_le ops g hMW hMB)
  have h12 := abs_le.mp (tempoTerm_abs_le ops g)
  rw [evaluatePosition]
  simp only [Option.getD_some]
  rw [abs_le]
  constructor <;>
    linarith [h1.1, h1.2, h2.1, h2.2, h3.1, h3.2, h4.1, h4.2, h5.1, h5.2,
      h6.1, h6.2, h7.1, h7.2, h8.1, h8.2, h9.1, h9.2, h10.1, h10.2,
      h11.1, h11.2, h12.1, h12.2]

/-- The perspective-adjusted static evaluation obeys the same bound. -/
theorem evaluateForPerspective_abs_le {G : Type} (ops : GameOps G) (g : G)
    (q : Color) (ctx : EvalContext)
    (hFW : ctx.repeatedFlankW ≤ 20) (hFB : ctx.repeatedFlankB ≤ 20)
    (hMW : mobilityCount ops (setFenTurn (ops.fen g) "w") ≤ 218)
    (hMB : mobilityCount ops (setFenTurn (ops.fen g) "b") ≤ 218) :
    |evaluateForPerspective ops g q (some ctx)| ≤ 770 := by
  have h := evaluatePosition_abs_le ops g ctx hFW hFB hMW hMB
  rw [evaluateForPerspective]
  split_ifs with hq
  · exact h
  · rw [abs_neg]
    exact h



set_option maxHeartbeats 1000000 in
/-- **C2.** Terminal-state scoring (lines 1699-1708): checkmate with the
side to move equal to the perspective scores exactly `-(1000 - plyCount)`;
checkmate against the side to move scores exactly `1000 - plyCount`;
stalemate (a non-checkmate terminal) scores exactly 0.  Consequently a
forced mate at a smaller ply count scores strictly higher than one at a
larger ply count, and any mate found within 200 plies scores strictly
higher than the static evaluation of every non-mate, non-stalemate
position (for contexts with at most 20 repeated flank moves per side and
positions giving each side at most 218 legal moves). -/
theorem evaluateTerminalState_scoring {G : Type} (ops : GameOps G) (g : G)
    (q : Color) (p : Nat) (octx : Option EvalContext) :
    (ops.inCheckmate g = true → ops.turn g = q →
      evaluateTerminalState ops g q p octx = -(1000 - (p : Rat))) ∧
    (ops.inCheckmate g = true → ops.turn g ≠ q →
      evaluateTerminalState ops g q p octx = 1000 - (p : Rat)) ∧
    (ops.inCheckmate g = false → ops.inStalemate g = true →
      evaluateTerminalState ops g q p octx = 0) ∧
    (∀ p2 : Nat, p < p2 → ops.inCheckmate g = true → ops.turn g ≠ q →
      evaluateTerminalState ops g q p2 octx <
        evaluateTerminalState ops g q p octx) ∧
    (∀ (g2 : G) (ctx2 : EvalContext) (p2 : Nat),
      ops.inCheckmate g = true → ops.turn g ≠ q → p ≤ 200 →
      ops.inCheckmate g2 = false → ops.inStalemate g2 = false →
      ctx2.repeatedFlankW ≤ 20 → ctx2.repeatedFlankB ≤ 20 →
      mobilityCount ops (setFenTurn (ops.fen g2) "w") ≤ 218 →
      mobilityCount ops (setFenTurn (ops.fen g2) "b") ≤ 218 →
      evaluateTerminalState ops g2 q p2 (some ctx2) <
        evaluateTerminalState ops g q p octx) := by
  have hmateNeg : ops.inCheckmate g = true → ops.turn g = q →
      evaluateTerminalState ops g q p octx = -(1000 - (p : Rat)) := by
    intro hcm ht
    rw [evaluateTerminalState, if_pos hcm]
    dsimp only
    rw [if_pos ht]
  have hmatePos : ∀ pp : Nat, ops.inCheckmate g = true → ops.turn g ≠ q →
      evaluateTerminalState ops g q pp octx = 1000 - (pp : Rat) := by
    intro pp hcm ht
    rw [evaluateTerminalState, if_pos hcm]
    dsimp only
    rw [if_neg ht]
  refine ⟨hmateNeg, hmatePos p, ?_, ?_, ?_⟩
  · intro hcm hst
    rw [evaluateTerminalState, hcm]
    rw [if_neg (by simp), if_pos hst]
  · intro p2 hplt hcm ht
    rw [hmatePos p2 hcm ht, hmatePos p hcm ht]
    have hcast : (p : Rat) < (p2 : Rat) := by exact_mod_cast hplt
    linarith
  · intro g2 ctx2 p2 hcm ht hp200 hcm2 hst2 hFW hFB hMW hMB
    have hev := abs_le.mp
      (evaluateForPerspective_abs_le ops g2 q ctx2 hFW hFB hMW hMB)
    have h2 : evaluateTerminalState ops g2 q p2 (some ctx2)
        = evaluateForPerspective ops g2 q (some ctx2) := by
      rw [evaluateTerminalState, hcm2, hst2]
      rw [if_neg (by simp), if_neg (by simp)]
    rw [h2, hmatePos p hcm ht]
    have hp : (p : Rat) ≤ 200 := by exact_mod_cast hp200
    linarith [hev.2]

/-- **C2 witness.** On the toy instance: the checkmated state `[6]` (Black
to move) scores `-(997)` for Black and `+997` for White at ply 3, the
stalemated state `[1]` scores 0, the same mate at ply 10 scores strictly
less than at ply 3, and the static evaluation of the quiet state `[0]`
scores strictly below the mate. -/
theorem evaluateTerminalState_scoring_witness :
    evaluateTerminalState toyOps [6] .b 3 none
        = -(1000 - ((3 : Nat) : Rat)) ∧
    evaluateTerminalState toyOps [6] .w 3 none = 1000 - ((3 : Nat) : Rat) ∧
    evaluateTerminalState toyOps [1] .w 5 none = 0 ∧
    evaluateTerminalState toyOps [6] .w 10 none <
      evaluateTerminalState toyOps [6] .w 3 none ∧
    evaluateTerminalState toyOps [0] .w 7 (some toyCtx) <
      evaluateTerminalState toyOps [6] .w 3 none :=
  ⟨(evaluateTerminalState_scoring toyOps [6] .b 3 none).1 rfl rfl,
   (evaluateTerminalState_scoring toyOps [6] .w 3 none).2.1 rfl (by decide),
   (evaluateTerminalState_scoring toyOps [1] .w 5 none).2.2.1 rfl rfl,
   (evaluateTerminalState_scoring toyOps [6] .w 3 none).2.2.2.1 10
     (by decide) rfl (by decide),
   (evaluateTerminalState_scoring toyOps [6] .w 3 none).2.2.2.2 [0] toyCtx 7
     rfl (by decide) (by decide) rfl rfl (by decide) (by decide)
     (by decide) (by decide)⟩



/-- The mirrored scan order is a permutation of the scan order. -/
theorem squaresRM_mirror_perm : (squaresRM.map mirrorSq).Perm squaresRM := by
  decide

/-- Sums over the board scan are invariant under the square mirror. -/
theorem sum_mirror_reindex {M : Type} [AddCommMonoid M]
    (f : Fin 8 × Fin 8 → M) :
    (squaresRM.map (fun rc => f (mirrorSq rc))).sum = (squaresRM.map f).sum := by
  have h1 : ((squaresRM.map mirrorSq).map f).sum = (squaresRM.map f).sum :=
    (squaresRM_mirror_perm.map f).sum_eq
  rw [List.map_map] at h1
  exact h1

/-- Filter counts over the board scan are invariant under the mirror. -/
theorem count_mirror_reindex (p : Fin 8 × Fin 8 → Bool) :
    (squaresRM.filter (fun rc => p (mirrorSq rc))).length
      = (squaresRM.filter p).length := by
  have h1 : ((squaresRM.map mirrorSq).filter p).length
      = (squaresRM.filter p).length :=
    (squaresRM_mirror_perm.filter p).length_eq
  rw [List.filter_map, List.length_map] at h1
  exact h1

/-- The reversed row order is a permutation of the row order. -/
theorem finRange8_rev_perm :
    ((List.finRange 8).map Fin.rev).Perm (List.finRange 8) := by decide

/-- Row-filter counts are invariant under the row mirror. -/
theorem rowcount_mirror_reindex (p : Fin 8 → Bool) :
    ((List.finRange 8).filter (fun r => p r.rev)).length
      = ((List.finRange 8).filter p).length := by
  have h1 : (((List.finRange 8).map Fin.rev).filter p).length
      = ((List.finRange 8).filter p).length :=
    (finRange8_rev_perm.filter p).length_eq
  rw [List.filter_map, List.length_map] at h1
  exact h1

/-- Negation distributes over mapped sums. -/
theorem ratSumNegMap {α : Type} (f : α → Rat) :
    ∀ l : List α, (l.map (fun x => -(f x))).sum = -((l.map f).sum) := by
  intro l
  induction l with
  | nil => simp
  | cons a t ih =>
      simp only [List.map_cons, List.sum_cons, ih]
      ring

/-- The color swap is an involution. -/
theorem Piece.swap_swap (pc : Piece) : pc.swap.swap = pc := by
  rcases pc with ⟨pt, col⟩
  cases col <;> rfl

/-- Mirrored-board occupancy, squarewise. -/
theorem mirrorBoard_apply (b : Board) (r c : Fin 8) :
    mirrorBoard b r c = (b r.rev c).map Piece.swap := rfl

/-- A mirrored square holds a given piece exactly when the source square
holds its color swap. -/
theorem mirrorBoard_eq_some (b : Board) (r c : Fin 8) (pc : Piece) :
    (mirrorBoard b r c = some pc) ↔ (b r.rev c = some pc.swap) := by
  rw [mirrorBoard_apply]
  cases hb : b r.rev c with
  | none => simp
  | some pc2 =>
      constructor
      · intro h
        have h2 : pc2.swap = pc := by
          have h3 : some pc2.swap = some pc := h
          injection h3
        rw [← h2, Piece.swap_swap]
      · intro h
        have h2 : pc2 = pc.swap := by injection h
        rw [h2]
        show some pc.swap.swap = some pc
        rw [Piece.swap_swap]



/-- Mirror-negation principle for board sums. -/
theorem mirror_sum_neg (F F' : Fin 8 × Fin 8 → Rat)
    (h : ∀ rc ∈ squaresRM, F' rc = -(F (mirrorSq rc))) :
    (squaresRM.map F').sum = -((squaresRM.map F).sum) := by
  rw [List.map_congr_left h, ratSumNegMap, sum_mirror_reindex]

/-- Mirror-invariance principle for board sums. -/
theorem mirror_sum_eq {M : Type} [AddCommMonoid M]
    (F F' : Fin 8 × Fin 8 → M)
    (h : ∀ rc ∈ squaresRM, F' rc = F (mirrorSq rc)) :
    (squaresRM.map F').sum = (squaresRM.map F).sum := by
  rw [List.map_congr_left h, sum_mirror_reindex]

/-- Mirror-invariance principle for board counts. -/
theorem mirror_count_eq (p p' : Fin 8 × Fin 8 → Bool)
    (h : ∀ rc ∈ squaresRM, p' rc = p (mirrorSq rc)) :
    (squaresRM.filter p').length = (squaresRM.filter p).length := by
  rw [List.filter_congr h, count_mirror_reindex]

/-- The center-square sets are closed under the vertical mirror. -/
theorem centerSquares_mirror : ∀ rc : Fin 8 × Fin 8,
    coreCenterSquares.contains (squareName rc.1.rev rc.2)
      = coreCenterSquares.contains (squareName rc.1 rc.2) ∧
    extendedCenterSquares.contains (squareName rc.1.rev rc.2)
      = extendedCenterSquares.contains (squareName rc.1 rc.2) := by decide

/-- Center control negates under the mirror. -/
theorem centerTerm_mirror (b : Board) :
    centerTerm (mirrorBoard b) = -(centerTerm b) := by
  rw [centerTerm, centerTerm]
  refine mirror_sum_neg _ _ ?_
  intro rc _
  obtain ⟨hcore, hext⟩ := centerSquares_mirror rc
  dsimp only [mirrorSq]
  rw [mirrorBoard_apply]
  cases hb : b rc.1.rev rc.2 with
  | none => simp
  | some pc =>
      rcases pc with ⟨pt, col⟩
      cases col <;>
        · dsimp only [Option.map, Piece.swap, Color.other]
          rw [hcore, hext]
          split_ifs <;> first | contradiction | norm_num
  
/-- Piece tallies swap colors under the mirror. -/
theorem pieceCount_mirror (b : Board) (c : Color) (t : PieceType) :
    pieceCount (mirrorBoard b) c t = pieceCount b c.other t := by
  rw [pieceCount, pieceCount]
  refine mirror_count_eq _ _ ?_
  intro rc _
  dsimp only [mirrorSq]
  rw [decide_eq_decide, mirrorBoard_eq_some]
  exact Iff.rfl

/-- The game phase is mirror-invariant. -/
theorem phaseScore_mirror (b : Board) :
    phaseScore (mirrorBoard b) = phaseScore b := by
  rw [phaseScore, phaseScore]
  refine mirror_sum_eq _ _ ?_
  intro rc _
  dsimp only [mirrorSq]
  rw [mirrorBoard_apply]
  cases hb : b rc.1.rev rc.2 with
  | none => rfl
  | some pc => rfl

/-- The king-phase blend weight is mirror-invariant. -/
theorem kingPhaseWeight_mirror (b : Board) :
    kingPhaseWeight (mirrorBoard b) = kingPhaseWeight b := by
  rw [kingPhaseWeight, kingPhaseWeight, phaseScore_mirror]

/-- The bishop-pair bonus negates under the mirror. -/
theorem bishopPairTerm_mirror (b : Board) :
    bishopPairTerm (mirrorBoard b) = -(bishopPairTerm b) := by
  rw [bishopPairTerm, bishopPairTerm]
  rw [pieceCount_mirror b .w .b, pieceCount_mirror b .b .b]
  show (if pieceCount b .b .b ≥ 2 then (0.35 : Rat) else 0)
      - (if pieceCount b .w .b ≥ 2 then (0.35 : Rat) else 0) = _
  split_ifs <;> ring



/-- Color swap preserves the piece type. -/
theorem Piece.swap_ptype (pc : Piece) : pc.swap.ptype = pc.ptype := rfl

/-- `other` is an involution. -/
theorem Color.other_other (c : Color) : c.other.other = c := by
  cases c <;> rfl

/-- `other` on the two colors. -/
theorem Color.other_w : Color.w.other = Color.b := rfl

/-- `other` on Black. -/
theorem Color.other_b : Color.b.other = Color.w := rfl

/-- Mirror-invariance principle for row counts. -/
theorem mirror_rowcount_eq (p p' : Fin 8 → Bool)
    (h : ∀ r ∈ List.finRange 8, p' r = p r.rev) :
    ((List.finRange 8).filter p').length
      = ((List.finRange 8).filter p).length := by
  rw [List.filter_congr h, rowcount_mirror_reindex]

/-- Piece-square placement mirrors: the color-swapped piece on a square
is worth what the original piece is worth on the mirrored square. -/
theorem pieceSquareValue_mirror (pc : Piece) (rc : Fin 8 × Fin 8) (w : Rat) :
    pieceSquareValue pc.swap rc.1 rc.2 w
      = pieceSquareValue pc rc.1.rev rc.2 w := by
  have hle : rc.1.val ≤ 7 := Fin.is_le rc.1
  have hrev : rc.1.rev.val = 7 - rc.1.val := by
    rw [Fin.val_rev]
    omega
  rcases pc with ⟨pt, col⟩
  cases pt <;> cases col <;>
    (dsimp only [pieceSquareValue, Piece.swap, Color.other, pieceSquareTableFor]
     split_ifs <;>
       first
         | contradiction
         | rfl
         | (congr 1
            omega)
         | (rw [show (7 - rc.1.val) * 8 + rc.2.val
              = rc.1.rev.val * 8 + rc.2.val from by omega])
         | (rw [show (7 - rc.1.rev.val) * 8 + rc.2.val
              = rc.1.val * 8 + rc.2.val from by omega]))



set_option maxHeartbeats 1000000 in
/-- Material and placement negate under the mirror. -/
theorem materialTerm_mirror (b : Board) :
    materialTerm (mirrorBoard b) = -(materialTerm b) := by
  rw [materialTerm, materialTerm, kingPhaseWeight_mirror]
  refine mirror_sum_neg _ _ ?_
  intro rc _
  dsimp only [mirrorSq]
  rw [mirrorBoard_apply]
  cases hb : b rc.1.rev rc.2 with
  | none => simp
  | some pc =>
      dsimp only [Option.map]
      rw [pieceSquareValue_mirror, Piece.swap_ptype]
      rcases pc with ⟨pt, col⟩
      cases col <;>
        (dsimp only [Piece.swap, Color.other]
         split_ifs <;> first | contradiction | ring)

/-- File pawn counts swap colors under the mirror. -/
theorem fileCount_mirror (b : Board) (c : Color) (f : Fin 8) :
    fileCount (mirrorBoard b) c f = fileCount b c.other f := by
  rw [fileCount, fileCount]
  refine mirror_rowcount_eq _ _ ?_
  intro r _
  rw [decide_eq_decide, mirrorBoard_eq_some]
  exact Iff.rfl

/-- Raw-index file pawn counts swap colors under the mirror. -/
theorem fileCountN_mirror (b : Board) (c : Color) (n : Nat) :
    fileCountN (mirrorBoard b) c n = fileCountN b c.other n := by
  rw [fileCountN, fileCountN]
  split_ifs with h
  · exact fileCount_mirror b c ⟨n, h⟩
  · rfl

/-- The per-rook bonus mirrors with swapped color. -/
theorem rookBonusAt_mirror (b : Board) (c : Color) (rc : Fin 8 × Fin 8) :
    rookBonusAt (mirrorBoard b) c rc
      = rookBonusAt b c.other (rc.1.rev, rc.2) := by
  rw [rookBonusAt, rookBonusAt]
  dsimp only
  rw [fileCount_mirror, fileCount_mirror, Color.other_other,
    (centerSquares_mirror rc).2]

/-- Rook activity negates under the mirror. -/
theorem rookTerm_mirror (b : Board) :
    rookTerm (mirrorBoard b) = -(rookTerm b) := by
  rw [rookTerm, rookTerm]
  refine mirror_sum_neg _ _ ?_
  intro rc _
  dsimp only [mirrorSq]
  rw [mirrorBoard_apply]
  cases hb : b rc.1.rev rc.2 with
  | none => simp
  | some pc =>
      rcases pc with ⟨pt, col⟩
      cases pt <;> cases col <;> dsimp only [Option.map, Piece.swap, Color.other]
      · simp
      · simp
      · simp
      · simp
      · simp
      · simp
      · rw [rookBonusAt_mirror, Color.other_b]
      · rw [rookBonusAt_mirror, Color.other_w, neg_neg]
      · simp
      · simp
      · simp
      · simp



/-- `any` is permutation-invariant. -/
theorem permAnyEq {α : Type} (p : α → Bool) {l1 l2 : List α}
    (h : l1.Perm l2) : l1.any p = l2.any p := by
  rw [Bool.eq_iff_iff, List.any_eq_true, List.any_eq_true]
  constructor
  · rintro ⟨x, hx, hpx⟩
    exact ⟨x, h.subset hx, hpx⟩
  · rintro ⟨x, hx, hpx⟩
    exact ⟨x, h.symm.subset hx, hpx⟩

/-- `any` respects pointwise equality on the list. -/
theorem anyCongrMem {α : Type} (p q : α → Bool) :
    ∀ l : List α, (∀ x ∈ l, p x = q x) → l.any p = l.any q := by
  intro l
  induction l with
  | nil => intro _; rfl
  | cons a t ih =>
      intro h
      simp only [List.any_cons]
      rw [h a (List.mem_cons_self a t),
        ih (fun x hx => h x (List.mem_cons_of_mem a hx))]

/-- Mirrored filtered board maps are permutations of the unmirrored
ones. -/
theorem filtermap_mirror_perm (q : Fin 8 × Fin 8 → Bool)
    (g : Fin 8 × Fin 8 → Nat × Nat) :
    ((squaresRM.filter (fun rc => q (mirrorSq rc))).map
        (fun rc => g (mirrorSq rc))).Perm
      ((squaresRM.filter q).map g) := by
  have e1 : ((squaresRM.filter (fun rc => q (mirrorSq rc))).map
      (fun rc => g (mirrorSq rc)))
      = ((squaresRM.map mirrorSq).filter q).map g := by
    rw [List.filter_map, List.map_map]
    rfl
  rw [e1]
  exact (squaresRM_mirror_perm.filter q).map g

set_option maxHeartbeats 1000000 in
/-- The pawn list of the mirrored board is the rank-mirrored pawn list of
the other color. -/
theorem pawnsList_mirror (b : Board) (c : Color) :
    (pawnsList (mirrorBoard b) c).Perm
      ((pawnsList b c.other).map (fun pr => (pr.1, 9 - pr.2))) := by
  rw [pawnsList, pawnsList, List.map_map]
  have hfc : squaresRM.filter
      (fun rc => mirrorBoard b rc.1 rc.2 = some ⟨.p, c⟩)
      = squaresRM.filter (fun rc =>
          (fun rc' : Fin 8 × Fin 8 =>
            decide (b rc'.1 rc'.2 = some ⟨.p, c.other⟩)) (mirrorSq rc)) := by
    refine List.filter_congr ?_
    intro rc _
    dsimp only [mirrorSq]
    rw [decide_eq_decide, mirrorBoard_eq_some]
    exact Iff.rfl
  rw [hfc]
  have hmapc : (squaresRM.filter (fun rc =>
        (fun rc' : Fin 8 × Fin 8 =>
          decide (b rc'.1 rc'.2 = some ⟨.p, c.other⟩)) (mirrorSq rc))).map
      (fun rc => ((rc.2.val, 8 - rc.1.val) : Nat × Nat))
      = (squaresRM.filter (fun rc =>
        (fun rc' : Fin 8 × Fin 8 =>
          decide (b rc'.1 rc'.2 = some ⟨.p, c.other⟩)) (mirrorSq rc))).map
      (fun rc =>
        ((fun pr : Nat × Nat => (pr.1, 9 - pr.2)) ∘
          (fun rc' : Fin 8 × Fin 8 => ((rc'.2.val, 8 - rc'.1.val) : Nat × Nat)))
        (mirrorSq rc)) := by
    refine List.map_congr_left ?_
    intro rc _
    dsimp only [mirrorSq, Function.comp]
    have h7 : rc.1.val ≤ 7 := Fin.is_le rc.1
    have hrev : rc.1.rev.val = 7 - rc.1.val := by
      rw [Fin.val_rev]
      omega
    rw [hrev]
    simp only [Prod.mk.injEq]
    exact ⟨trivial, by omega⟩
  rw [hmapc]
  exact filtermap_mirror_perm
    (fun rc' => decide (b rc'.1 rc'.2 = some ⟨.p, c.other⟩))
    ((fun pr : Nat × Nat => (pr.1, 9 - pr.2)) ∘
      (fun rc' : Fin 8 × Fin 8 => ((rc'.2.val, 8 - rc'.1.val) : Nat × Nat)))

/-- Doubled/isolated pawn penalties swap colors under the mirror. -/
theorem doubledIsoFor_mirror (b : Board) (c : Color) :
    doubledIsoFor (mirrorBoard b) c = doubledIsoFor b c.other := by
  rw [doubledIsoFor, doubledIsoFor]
  refine congrArg List.sum (List.map_congr_left ?_)
  intro f _
  dsimp only
  rw [fileCount_mirror, fileCountN_mirror, fileCountN_mirror]



set_option maxHeartbeats 1000000 in
/-- Passed-pawn bonuses swap colors under the mirror. -/
theorem passedFor_mirror (b : Board) (c : Color) :
    passedFor (mirrorBoard b) c = passedFor b c.other := by
  rw [passedFor, passedFor]
  rw [List.Perm.sum_eq ((pawnsList_mirror b c).map _)]
  rw [List.map_map]
  refine congrArg List.sum (List.map_congr_left ?_)
  intro pw hpw
  obtain ⟨hr1, hr8⟩ := pawnsList_rank b c.other pw hpw
  dsimp only [Function.comp]
  have hpermB := pawnsList_mirror b c.other
  rw [Color.other_other] at hpermB
  rw [permAnyEq _ hpermB, List.any_map]
  rw [Color.other_other]
  cases c
  · dsimp only [Color.other]
    have hB : (pawnsList b .w).any
        ((fun ep => decide (((ep.1 : Int) - (pw.1 : Int)).natAbs ≤ 1) &&
            decide (ep.2 ≥ 9 - pw.2)) ∘
          (fun pr : Nat × Nat => (pr.1, 9 - pr.2)))
        = (pawnsList b .w).any (fun ep =>
            decide (((ep.1 : Int) - (pw.1 : Int)).natAbs ≤ 1) &&
              decide (ep.2 ≤ pw.2)) := by
      refine anyCongrMem _ _ _ ?_
      intro ep hep
      obtain ⟨he1, he8⟩ := pawnsList_rank b .w ep hep
      dsimp only [Function.comp]
      congr 1
      rw [decide_eq_decide]
      omega
    rw [hB]
    split_ifs with hcond
    · rfl
    · have hadv : ((9 - pw.2 : Nat) : Int) - 2 = 7 - (pw.2 : Int) := by omega
      rw [hadv]
  · dsimp only [Color.other]
    have hB : (pawnsList b .b).any
        ((fun ep => decide (((ep.1 : Int) - (pw.1 : Int)).natAbs ≤ 1) &&
            decide (ep.2 ≤ 9 - pw.2)) ∘
          (fun pr : Nat × Nat => (pr.1, 9 - pr.2)))
        = (pawnsList b .b).any (fun ep =>
            decide (((ep.1 : Int) - (pw.1 : Int)).natAbs ≤ 1) &&
              decide (ep.2 ≥ pw.2)) := by
      refine anyCongrMem _ _ _ ?_
      intro ep hep
      obtain ⟨he1, he8⟩ := pawnsList_rank b .b ep hep
      dsimp only [Function.comp]
      congr 1
      rw [decide_eq_decide]
      omega
    rw [hB]
    split_ifs with hcond
    · rfl
    · have hadv : (7 : Int) - ((9 - pw.2 : Nat) : Int) = (pw.2 : Int) - 2 := by
        omega
      rw [hadv]

/-- The pawn-structure differential negates under the mirror. -/
theorem pawnStructTerm_mirror (b : Board) :
    pawnStructTerm (mirrorBoard b) = -(pawnStructTerm b) := by
  rw [pawnStructTerm, pawnStructTerm, doubledIsoFor_mirror,
    doubledIsoFor_mirror, passedFor_mirror, passedFor_mirror,
    Color.other_w, Color.other_b]
  ring



/-- Every square is in the scan order. -/
theorem mem_squaresRM : ∀ rc : Fin 8 × Fin 8, rc ∈ squaresRM := by decide

/-- A last-found fold equals the head of the reversed filter. -/
theorem foldl_lastFound {α : Type} (p : α → Prop) [DecidablePred p] :
    ∀ (l : List α) (acc : Option α),
      l.foldl (fun a x => if p x then some x else a) acc
        = ((l.filter (fun x => decide (p x))).reverse.head?).or acc := by
  intro l
  induction l with
  | nil => intro acc; rfl
  | cons a t ih =>
      intro acc
      rw [List.foldl_cons]
      by_cases hpa : p a
      · rw [if_pos hpa, ih, List.filter_cons, if_pos (decide_eq_true hpa),
          List.reverse_cons]
        cases hr : (t.filter (fun x => decide (p x))).reverse with
        | nil => rfl
        | cons x xs => rfl
      · rw [if_neg hpa, ih, List.filter_cons,
          if_neg (by simp [hpa] : ¬(decide (p a) = true))]

/-- `kingInfo` is the last king square in scan order. -/
theorem kingInfo_eq (b : Board) (c : Color) :
    kingInfo b c = ((squaresRM.filter
      (fun rc => b rc.1 rc.2 = some ⟨.k, c⟩)).reverse.head?).or none := by
  rw [kingInfo]
  exact foldl_lastFound (fun rc => b rc.1 rc.2 = some ⟨.k, c⟩) squaresRM none

/-- A reported king square holds the king. -/
theorem kingInfo_some_king (b : Board) (c : Color) (rc : Fin 8 × Fin 8)
    (h : kingInfo b c = some rc) : b rc.1 rc.2 = some ⟨.k, c⟩ := by
  rw [kingInfo_eq] at h
  cases hr : (squaresRM.filter
      (fun rc => b rc.1 rc.2 = some ⟨.k, c⟩)).reverse with
  | nil =>
      rw [hr] at h
      cases h
  | cons x xs =>
      rw [hr] at h
      have hx : x = rc := by
        have : some x = some rc := h
        injection this
      subst hx
      have hmem : x ∈ (squaresRM.filter
          (fun rc => b rc.1 rc.2 = some ⟨.k, c⟩)) := by
        rw [← List.mem_reverse, hr]
        exact List.mem_cons_self x xs
      have hx2 := List.of_mem_filter hmem
      exact of_decide_eq_true hx2

/-- With at most one king of the color, a known king square is the
reported one. -/
theorem kingInfo_of_unique (b : Board) (c : Color) (rc0 : Fin 8 × Fin 8)
    (hcount : pieceCount b c .k ≤ 1)
    (hb0 : b rc0.1 rc0.2 = some ⟨.k, c⟩) : kingInfo b c = some rc0 := by
  have hmem : rc0 ∈ squaresRM.filter
      (fun rc => b rc.1 rc.2 = some ⟨.k, c⟩) :=
    List.mem_filter.mpr ⟨mem_squaresRM rc0, decide_eq_true hb0⟩
  have hlen : (squaresRM.filter
      (fun rc => b rc.1 rc.2 = some ⟨.k, c⟩)).length = 1 := by
    have h1 : 1 ≤ (squaresRM.filter
        (fun rc => b rc.1 rc.2 = some ⟨.k, c⟩)).length :=
      List.length_pos.mpr (List.ne_nil_of_mem hmem)
    have h2 : (squaresRM.filter
        (fun rc => b rc.1 rc.2 = some ⟨.k, c⟩)).length ≤ 1 := hcount
    omega
  obtain ⟨a, ha⟩ := List.length_eq_one.mp hlen
  rw [ha] at hmem
  have hra : rc0 = a := List.mem_singleton.mp hmem
  subst hra
  rw [kingInfo_eq, ha]
  rfl

/-- With no king of the color anywhere, no king square is reported. -/
theorem kingInfo_none (b : Board) (c : Color)
    (h : ∀ rc : Fin 8 × Fin 8, ¬(b rc.1 rc.2 = some ⟨.k, c⟩)) :
    kingInfo b c = none := by
  rw [kingInfo_eq]
  have hfil : squaresRM.filter
      (fun rc => b rc.1 rc.2 = some ⟨.k, c⟩) = [] := by
    rw [List.filter_eq_nil_iff]
    intro rc _
    simp only [decide_eq_true_eq]
    exact h rc
  rw [hfil]
  rfl

/-- An empty `kingInfo` means no king of that color anywhere. -/
theorem kingInfo_none_forall (b : Board) (c : Color)
    (h : kingInfo b c = none) :
    ∀ rc : Fin 8 × Fin 8, ¬(b rc.1 rc.2 = some ⟨.k, c⟩) := by
  intro rc hrc
  rw [kingInfo_eq] at h
  have hmem : rc ∈ squaresRM.filter
      (fun rc => b rc.1 rc.2 = some ⟨.k, c⟩) :=
    List.mem_filter.mpr ⟨mem_squaresRM rc, decide_eq_true hrc⟩
  cases hr : (squaresRM.filter
      (fun rc => b rc.1 rc.2 = some ⟨.k, c⟩)).reverse with
  | nil =>
      rw [← List.mem_reverse, hr] at hmem
      cases hmem
  | cons x xs =>
      rw [hr] at h
      cases h

/-- `kingInfo` mirrors: with at most one king of the swapped color, the
mirrored board reports the mirrored square of the other color's king. -/
theorem kingInfo_mirror (b : Board) (c : Color)
    (hk : pieceCount b c.other .k ≤ 1) :
    kingInfo (mirrorBoard b) c
      = (kingInfo b c.other).map (fun rc => ((rc.1.rev, rc.2) : Fin 8 × Fin 8)) := by
  cases hki : kingInfo b c.other with
  | none =>
      have hnone := kingInfo_none_forall b c.other hki
      refine kingInfo_none (mirrorBoard b) c ?_
      intro rc hrc
      rw [mirrorBoard_eq_some] at hrc
      exact hnone (rc.1.rev, rc.2) hrc
  | some rc0 =>
      have hb0 := kingInfo_some_king b c.other rc0 hki
      have hmir : mirrorBoard b rc0.1.rev rc0.2 = some ⟨.k, c⟩ := by
        rw [mirrorBoard_apply, Fin.rev_rev, hb0]
        dsimp only [Option.map, Piece.swap]
        rw [Color.other_other]
      have hcount' : pieceCount (mirrorBoard b) c .k ≤ 1 := by
        rw [pieceCount_mirror]
        exact hk
      exact kingInfo_of_unique (mirrorBoard b) c (rc0.1.rev, rc0.2)
        hcount' hmir



/-- Out-of-range-safe board access mirrors through row `7 - r`. -/
theorem boardAtI_mirror (b : Board) (r c : Int) :
    boardAtI (mirrorBoard b) r c = (boardAtI b (7 - r) c).map Piece.swap := by
  rw [boardAtI, boardAtI]
  split_ifs with h1 h2 h3 h4 <;>
    first
      | rfl
      | (exfalso; omega)
      | (rw [mirrorBoard_apply]
         refine congrArg (Option.map Piece.swap) ?_
         congr 1
         all_goals
           first
             | exact Fin.ext rfl
             | (congr 1
                refine Fin.ext ?_
                rw [Fin.val_rev]
                show 8 - (r.toNat + 1) = (7 - r).toNat
                omega))



/-- Shield contribution of a mirrored king square equals the other
color's contribution at the original square. -/
theorem kingShieldContribution_mirror (b : Board) (c : Color)
    (rc : Fin 8 × Fin 8) :
    kingShieldContribution (mirrorBoard b) c (some (rc.1.rev, rc.2))
      = kingShieldContribution b c.other (some rc) := by
  have h7 : rc.1.val ≤ 7 := Fin.is_le rc.1
  have hrev : rc.1.rev.val = 7 - rc.1.val := by rw [Fin.val_rev]; omega
  cases c with
  | w =>
      simp only [kingShieldContribution, Color.other]
      have hrow : ((rc.1.rev.val : Int)) + -1 = 7 - (((rc.1.val : Int)) + 1) := by
        omega
      simp only [hrow, boardAtI_mirror]
      have hinner : (7 : Int) - (7 - (((rc.1.val : Int)) + 1))
          = ((rc.1.val : Int)) + 1 := by ring
      simp only [hinner]
      refine if_congr (by omega) rfl ?_
      refine congrArg (fun x : Rat => x * (0.07 : Rat)) ?_
      refine congrArg List.sum (List.map_congr_left ?_)
      intro o ho
      dsimp only
      refine if_congr Iff.rfl rfl ?_
      cases hba : boardAtI b (((rc.1.val : Int)) + 1) (((rc.2.val : Int)) + o) with
      | none => rfl
      | some pc =>
          rcases pc with ⟨pt, pcol⟩
          cases pt <;> cases pcol <;> rfl
  | b =>
      simp only [kingShieldContribution, Color.other]
      have hrow : ((rc.1.rev.val : Int)) + 1 = 7 - (((rc.1.val : Int)) + -1) := by
        omega
      simp only [hrow, boardAtI_mirror]
      have hinner : (7 : Int) - (7 - (((rc.1.val : Int)) + -1))
          = ((rc.1.val : Int)) + -1 := by ring
      simp only [hinner]
      refine if_congr (by omega) rfl ?_
      refine congrArg (fun x : Rat => x * (0.07 : Rat)) ?_
      refine congrArg List.sum (List.map_congr_left ?_)
      intro o ho
      dsimp only
      refine if_congr Iff.rfl rfl ?_
      cases hba : boardAtI b (((rc.1.val : Int)) + -1) (((rc.2.val : Int)) + o) with
      | none => rfl
      | some pc =>
          rcases pc with ⟨pt, pcol⟩
          cases pt <;> cases pcol <;> rfl

/-- The pawn-shield term negates under the mirror transform. -/
theorem shieldTerm_mirror (b : Board)
    (hkw : pieceCount b .w .k ≤ 1) (hkb : pieceCount b .b .k ≤ 1) :
    shieldTerm (mirrorBoard b) = -(shieldTerm b) := by
  rw [shieldTerm, shieldTerm,
    kingInfo_mirror b .w hkb, kingInfo_mirror b .b hkw,
    Color.other_w, Color.other_b]
  cases hw : kingInfo b .w with
  | none =>
      cases hb2 : kingInfo b .b with
      | none => norm_num [Option.map, kingShieldContribution]
      | some rcb =>
          dsimp only [Option.map]
          rw [kingShieldContribution_mirror b .w rcb, Color.other_w]
          show kingShieldContribution b Color.b (some rcb) - 0
            = -(0 - kingShieldContribution b Color.b (some rcb))
          ring
  | some rcw =>
      cases hb2 : kingInfo b .b with
      | none =>
          dsimp only [Option.map]
          rw [kingShieldContribution_mirror b .b rcw, Color.other_b]
          show 0 - kingShieldContribution b Color.w (some rcw)
            = -(kingShieldContribution b Color.w (some rcw) - 0)
          ring
      | some rcb =>
          dsimp only [Option.map]
          rw [kingShieldContribution_mirror b .w rcb, Color.other_w,
            kingShieldContribution_mirror b .b rcw, Color.other_b]
          ring


/-- Open-king exposure of a mirrored king square equals the exposure at
the original square (the four orthogonal neighbours permute). -/
theorem openKingPenalty_mirror (b : Board) (rc : Fin 8 × Fin 8) :
    openKingPenalty (mirrorBoard b) (some (rc.1.rev, rc.2))
      = openKingPenalty b (some rc) := by
  have h7 : rc.1.val ≤ 7 := Fin.is_le rc.1
  have hrev : rc.1.rev.val = 7 - rc.1.val := by rw [Fin.val_rev]; omega
  have key : ∀ r1 r2 c' : Int, r1 + r2 = 7 →
      (if r1 < 0 ∨ r1 > 7 ∨ c' < 0 ∨ c' > 7 then (0 : Rat)
        else match boardAtI (mirrorBoard b) r1 c' with
          | some _ => 0
          | none => 1)
      = (if r2 < 0 ∨ r2 > 7 ∨ c' < 0 ∨ c' > 7 then (0 : Rat)
        else match boardAtI b r2 c' with
          | some _ => 0
          | none => 1) := by
    intro r1 r2 c' hsum
    refine if_congr (by omega) rfl ?_
    have h1 : r1 = 7 - r2 := by omega
    rw [h1, boardAtI_mirror]
    have h2 : (7 : Int) - (7 - r2) = r2 := by ring
    rw [h2]
    cases boardAtI b r2 c' <;> rfl
  simp only [openKingPenalty, List.map_cons, List.map_nil, List.sum_cons,
    List.sum_nil]
  rw [key ((rc.1.rev.val : Int) + 0) ((rc.1.val : Int) + 0)
      ((rc.2.val : Int) + -1) (by omega),
    key ((rc.1.rev.val : Int) + 0) ((rc.1.val : Int) + 0)
      ((rc.2.val : Int) + 1) (by omega),
    key ((rc.1.rev.val : Int) + 1) ((rc.1.val : Int) + -1)
      ((rc.2.val : Int) + 0) (by omega),
    key ((rc.1.rev.val : Int) + -1) ((rc.1.val : Int) + 1)
      ((rc.2.val : Int) + 0) (by omega)]
  ring

/-- The open-king term negates under the mirror transform. -/
theorem openKingTerm_mirror (b : Board)
    (hkw : pieceCount b .w .k ≤ 1) (hkb : pieceCount b .b .k ≤ 1) :
    openKingTerm (mirrorBoard b) = -(openKingTerm b) := by
  rw [openKingTerm, openKingTerm,
    kingInfo_mirror b .w hkb, kingInfo_mirror b .b hkw,
    Color.other_w, Color.other_b]
  cases hw : kingInfo b .w with
  | none =>
      cases hb2 : kingInfo b .b with
      | none => norm_num [Option.map, openKingPenalty]
      | some rcb =>
          dsimp only [Option.map]
          rw [openKingPenalty_mirror b rcb]
          show -(openKingPenalty b (some rcb)) + 0
            = -(-0 + openKingPenalty b (some rcb))
          ring
  | some rcw =>
      cases hb2 : kingInfo b .b with
      | none =>
          dsimp only [Option.map]
          rw [openKingPenalty_mirror b rcw]
          show -0 + openKingPenalty b (some rcw)
            = -(-(openKingPenalty b (some rcw)) + 0)
          ring
      | some rcb =>
          dsimp only [Option.map]
          rw [openKingPenalty_mirror b rcb, openKingPenalty_mirror b rcw]
          ring


/-- The minor-piece home squares are closed under the vertical mirror. -/
theorem minorStart_mirror : ∀ rc : Fin 8 × Fin 8,
    minorPieceStartSquares.contains (squareName rc.1.rev rc.2)
      = minorPieceStartSquares.contains (squareName rc.1 rc.2) := by decide

/-- Undeveloped minors swap colors under the mirror. -/
theorem minorsOnHome_mirror (b : Board) (c : Color) :
    minorsOnHome (mirrorBoard b) c = minorsOnHome b c.other := by
  rw [minorsOnHome, minorsOnHome]
  refine mirror_count_eq _ _ ?_
  intro rc _
  dsimp only [mirrorSq]
  rw [decide_eq_decide]
  refine and_congr (or_congr ?_ ?_) ?_
  · rw [mirrorBoard_eq_some]
    exact Iff.rfl
  · rw [mirrorBoard_eq_some]
    exact Iff.rfl
  · rw [minorStart_mirror rc]

/-- The opening development term negates under the mirror. -/
theorem openingTerm_mirror (b : Board) (ctx : EvalContext) :
    openingTerm (mirrorBoard b) ctx = -(openingTerm b ctx) := by
  rw [openingTerm, openingTerm]
  split_ifs with h
  · dsimp only
    rw [minorsOnHome_mirror b .w, minorsOnHome_mirror b .b,
      Color.other_w, Color.other_b]
    ring
  · ring


/-- Mirrored square names: e1 vs e8. -/
theorem nameMirror_e1 : ∀ rc : Fin 8 × Fin 8,
    (squareName rc.1.rev rc.2 = "e1") ↔ (squareName rc.1 rc.2 = "e8") := by
  decide

/-- Mirrored square names: d1 vs d8. -/
theorem nameMirror_d1 : ∀ rc : Fin 8 × Fin 8,
    (squareName rc.1.rev rc.2 = "d1") ↔ (squareName rc.1 rc.2 = "d8") := by
  decide

/-- Mirrored square names: e8 vs e1. -/
theorem nameMirror_e8 : ∀ rc : Fin 8 × Fin 8,
    (squareName rc.1.rev rc.2 = "e8") ↔ (squareName rc.1 rc.2 = "e1") := by
  decide

/-- Mirrored square names: d8 vs d1. -/
theorem nameMirror_d8 : ∀ rc : Fin 8 × Fin 8,
    (squareName rc.1.rev rc.2 = "d8") ↔ (squareName rc.1 rc.2 = "d1") := by
  decide

/-- Name comparison through a mirrored optional king square. -/
theorem kingNameMirror (ki : Option (Fin 8 × Fin 8)) (s s' : String)
    (h : ∀ rc : Fin 8 × Fin 8,
      (squareName rc.1.rev rc.2 = s) ↔ (squareName rc.1 rc.2 = s')) :
    ((ki.map (fun rc => ((rc.1.rev, rc.2) : Fin 8 × Fin 8))).map
        (fun rc => squareName rc.1 rc.2) = some s)
      ↔ (ki.map (fun rc => squareName rc.1 rc.2) = some s') := by
  cases ki with
  | none => simp
  | some rc =>
      dsimp only [Option.map]
      constructor
      · intro hh
        have h2 : squareName rc.1.rev rc.2 = s := by injection hh
        exact congrArg some ((h rc).mp h2)
      · intro hh
        have h2 : squareName rc.1 rc.2 = s' := by injection hh
        exact congrArg some ((h rc).mpr h2)

/-- The castling term negates under the mirror with a symmetric context. -/
theorem castleTerm_mirror (b : Board) (ctx : EvalContext)
    (hkw : pieceCount b .w .k ≤ 1) (hkb : pieceCount b .b .k ≤ 1)
    (hc : ctx.castledW = ctx.castledB) :
    castleTerm (mirrorBoard b) ctx = -(castleTerm b ctx) := by
  rw [castleTerm, castleTerm]
  rw [kingInfo_mirror b .w hkb, kingInfo_mirror b .b hkw,
    Color.other_w, Color.other_b, hc]
  have hW : (if ¬ctx.castledB ∧ ctx.moveCount < 30 ∧
        (((kingInfo b .b).map (fun rc => ((rc.1.rev, rc.2) : Fin 8 × Fin 8))).map
            (fun rc => squareName rc.1 rc.2) = some "e1" ∨
         ((kingInfo b .b).map (fun rc => ((rc.1.rev, rc.2) : Fin 8 × Fin 8))).map
            (fun rc => squareName rc.1 rc.2) = some "d1") then
      (0.2 : Rat) + ((ctx.moveCount - 12 : Nat) : Rat) * 0.016 else 0)
    = (if ¬ctx.castledB ∧ ctx.moveCount < 30 ∧
        ((kingInfo b .b).map (fun rc => squareName rc.1 rc.2) = some "e8" ∨
         (kingInfo b .b).map (fun rc => squareName rc.1 rc.2) = some "d8") then
      (0.2 : Rat) + ((ctx.moveCount - 12 : Nat) : Rat) * 0.016 else 0) :=
    if_congr (and_congr Iff.rfl (and_congr Iff.rfl (or_congr
      (kingNameMirror (kingInfo b .b) "e1" "e8" nameMirror_e1)
      (kingNameMirror (kingInfo b .b) "d1" "d8" nameMirror_d1)))) rfl rfl
  have hB : (if ¬ctx.castledB ∧ ctx.moveCount < 30 ∧
        (((kingInfo b .w).map (fun rc => ((rc.1.rev, rc.2) : Fin 8 × Fin 8))).map
            (fun rc => squareName rc.1 rc.2) = some "e8" ∨
         ((kingInfo b .w).map (fun rc => ((rc.1.rev, rc.2) : Fin 8 × Fin 8))).map
            (fun rc => squareName rc.1 rc.2) = some "d8") then
      (0.2 : Rat) + ((ctx.moveCount - 12 : Nat) : Rat) * 0.016 else 0)
    = (if ¬ctx.castledB ∧ ctx.moveCount < 30 ∧
        ((kingInfo b .w).map (fun rc => squareName rc.1 rc.2) = some "e1" ∨
         (kingInfo b .w).map (fun rc => squareName rc.1 rc.2) = some "d1") then
      (0.2 : Rat) + ((ctx.moveCount - 12 : Nat) : Rat) * 0.016 else 0) :=
    if_congr (and_congr Iff.rfl (and_congr Iff.rfl (or_congr
      (kingNameMirror (kingInfo b .w) "e8" "e1" nameMirror_e8)
      (kingNameMirror (kingInfo b .w) "d8" "d1" nameMirror_d8)))) rfl rfl
  rw [hW, hB]
  ring


/-- The tempo bonus negates when the side to move flips. -/
theorem tempoTerm_mirror {G : Type} (ops : GameOps G) (g g' : G)
    (ht : ops.turn g' = (ops.turn g).other) :
    tempoTerm ops g' = -(tempoTerm ops g) := by
  rw [tempoTerm, tempoTerm, ht]
  cases h : ops.turn g with
  | w =>
      rw [Color.other_w, if_neg (by decide : ¬(Color.b = Color.w)), if_pos rfl]
  | b =>
      rw [Color.other_b, if_pos rfl, if_neg (by decide : ¬(Color.b = Color.w))]
      norm_num

/-- The mobility differential negates when the forced-turn mobilities of
the mirrored position are the color swaps of the original ones. -/
theorem mobilityTerm_mirror {G : Type} (ops : GameOps G) (g g' : G)
    (hseg : ((splitChar (ops.fen g') ' ').length ≥ 2)
        ↔ ((splitChar (ops.fen g) ' ').length ≥ 2))
    (hmw : mobilityCount ops (setFenTurn (ops.fen g') "w")
        = mobilityCount ops (setFenTurn (ops.fen g) "b"))
    (hmb : mobilityCount ops (setFenTurn (ops.fen g') "b")
        = mobilityCount ops (setFenTurn (ops.fen g) "w")) :
    mobilityTerm ops g' = -(mobilityTerm ops g) := by
  rw [mobilityTerm, mobilityTerm]
  by_cases h : (splitChar (ops.fen g) ' ').length ≥ 2
  · rw [if_pos (hseg.mpr h), if_pos h, hmw, hmb]
    ring
  · rw [if_neg (fun hh => h (hseg.mp hh)), if_neg h]
    norm_num


/-- **C3.** Evaluation color symmetry: for any game state and any
evaluation context with no history-dependent asymmetry (equal castling
status, equal king-moved flags, equal repeated-flank-move counts), the
position obtained by swapping all piece colors, mirroring the board
vertically and flipping the side to move evaluates to exactly the
negation of the original evaluation.  (Each side has at most one king —
`kingInfo` keeps a single square per color — and forcing the turn letter
in the mirrored FEN yields the color-swapped mobilities, which is how the
mirrored position's mobility scan relates to the original's.) -/
theorem evaluatePosition_mirror {G : Type} (ops : GameOps G) (g g' : G)
    (ctx : EvalContext)
    (hb : ops.board g' = mirrorBoard (ops.board g))
    (ht : ops.turn g' = (ops.turn g).other)
    (hkw : pieceCount (ops.board g) .w .k ≤ 1)
    (hkb : pieceCount (ops.board g) .b .k ≤ 1)
    (hcastle : ctx.castledW = ctx.castledB)
    (hflank : ctx.repeatedFlankW = ctx.repeatedFlankB)
    (hseg : ((splitChar (ops.fen g') ' ').length ≥ 2)
        ↔ ((splitChar (ops.fen g) ' ').length ≥ 2))
    (hmw : mobilityCount ops (setFenTurn (ops.fen g') "w")
        = mobilityCount ops (setFenTurn (ops.fen g) "b"))
    (hmb : mobilityCount ops (setFenTurn (ops.fen g') "b")
        = mobilityCount ops (setFenTurn (ops.fen g) "w")) :
    evaluatePosition ops g' (some ctx) = -(evaluatePosition ops g (some ctx)) := by
  have hfl : flankTerm ctx = 0 := by
    rw [flankTerm, hflank]
    ring
  rw [evaluatePosition, evaluatePosition]
  simp only [Option.getD_some]
  rw [hb]
  rw [centerTerm_mirror, materialTerm_mirror, bishopPairTerm_mirror,
    rookTerm_mirror, pawnStructTerm_mirror,
    shieldTerm_mirror _ hkw hkb, openKingTerm_mirror _ hkw hkb,
    openingTerm_mirror, castleTerm_mirror _ _ hkw hkb hcastle,
    tempoTerm_mirror ops g g' ht, mobilityTerm_mirror ops g g' hseg hmw hmb,
    hfl]
  ring

/-- Witness for C3 at concrete states: the empty-board toy states `[6]`
(Black to move) and `[0]` (White to move) are mirror images, and their
evaluations are exact negations. -/
theorem evaluatePosition_mirror_witness :
    evaluatePosition toyOps [6] (some toyCtx)
      = -(evaluatePosition toyOps [0] (some toyCtx)) :=
  evaluatePosition_mirror toyOps [0] [6] toyCtx rfl rfl
    (by decide) (by decide) rfl rfl (by decide) rfl rfl

end SanFen
